import Mathlib

/-!
SHA-1 / SHA-256 / SHA-512 digest engines

A shallow embedding of `bit.hpp`, `sha1/sha1.hpp`, `sha256/sha256.hpp` and
`sha512/sha512.hpp`, followed by theorems about the embedded functions.

Conventions of the embedding.

* A C++ unsigned integer of width `w` is a `Nat` below `2 ^ w`; every place
  where the C++ arithmetic wraps carries an explicit `% 2 ^ w`.
* `std::size_t` is 64 bits wide.  `std::vector::size()` never exceeds
  `PTRDIFF_MAX`, so `msglen + padlen` cannot wrap and carries no reduction;
  `msglen * 8` can, and is reduced modulo `2 ^ 64`.
* `std::vector<std::uint8_t>` is a `List Nat` (entries below 256),
  `v[i]` read is `List.getD v i 0`, `v[i] = x` is `List.set v i x`.
* `std::string` is a `List Int` of `char` values.
* Each `padding` and `hash` has a second transcription, suffixed `_checked`,
  that returns an `Option`: there `v[i]` read is `read_at v i` and `v[i] = x`
  is `write_at v i x`, both `none` when `i` is not below the size of `v`.
* A counting `for` loop over `t = a, ..., b - 1` is a left fold over the list
  of the loop indices.
* Word constants are written with upper-case hexadecimal digits.
-/

set_option maxRecDepth 100000
set_option maxHeartbeats 4000000

/-! ## `bit.hpp` -/

/-- Source `rotl<Integer>` with `w = sizeof(Integer) * CHAR_BIT`:
`(x << n) | (x >> ((w - 1) & (-n)))`, where `n` is a `std::uint32_t`, so `-n`
is taken modulo `2 ^ 32`, and the left shift is truncated to `w` bits. -/
def rotl (w x n : Nat) : Nat :=
  ((x <<< n) % 2 ^ w) ||| (x >>> ((w - 1) &&& ((2 ^ 32 - n % 2 ^ 32) % 2 ^ 32)))

/-- Source `rotr<Integer>`:
`(x >> n) | (x << ((w - 1) & (-n)))`, truncated to `w` bits. -/
def rotr (w x n : Nat) : Nat :=
  (x >>> n) ||| ((x <<< ((w - 1) &&& ((2 ^ 32 - n % 2 ^ 32) % 2 ^ 32))) % 2 ^ w)

/-- Source `parity<Integer>`: `x ^ y ^ z`. -/
def parity (x y z : Nat) : Nat :=
  x ^^^ y ^^^ z

/-- Source `ch<Integer>`: `(x & y) ^ (~x & z)`; `~x` on `w` bits is
`2 ^ w - 1 - x`. -/
def ch (w x y z : Nat) : Nat :=
  (x &&& y) ^^^ ((2 ^ w - 1 - x) &&& z)

/-- Source `maj<Integer>`: `(x & y) ^ (y & z) ^ (z & x)`. -/
def maj (x y z : Nat) : Nat :=
  (x &&& y) ^^^ (y &&& z) ^^^ (z &&& x)

/-! ## Shared helpers of the embedding -/

/-- Source `std::copy(src.cbegin(), src.cend(), dst.begin())`: the first
`src.size()` cells of `dst` are overwritten by `src`. -/
def copy (src dst : List Nat) : List Nat :=
  src ++ dst.drop src.length

/-- Source `std::copy` of a `std::string` into a byte vector: every `char` is
converted to `std::uint8_t`, that is, reduced modulo 256. -/
def string_bytes (msg : List Int) : List Nat :=
  copy (msg.map fun c => (c % 256).toNat) (List.replicate msg.length 0x00)

/-- The `char` values of an ASCII string literal. -/
def ascii (s : String) : List Int :=
  s.data.map fun c => Int.ofNat c.toNat

/-! ## `sha1/sha1.hpp` -/

namespace SHA1

/-- Source `SHA1::f`: the nested conditional expression on `t`. -/
def f (t x y z : Nat) : Nat :=
  if t ≤ 19 then ch 32 x y z
  else if 20 ≤ t ∧ t ≤ 39 then parity x y z
  else if 40 ≤ t ∧ t ≤ 59 then maj x y z
  else parity x y z

/-- Source `SHA1::K`: the nested conditional expression on `t`. -/
def K (t : Nat) : Nat :=
  if t ≤ 19 then 0x5A827999
  else if 20 ≤ t ∧ t ≤ 39 then 0x6ED9EBA1
  else if 40 ≤ t ∧ t ≤ 59 then 0x8F1BBCDC
  else 0xCA62C1D6

/-- Source `SHA1::padding`. -/
def padding (msg : List Nat) : List Nat :=
  let msglen := msg.length
  let padlen := 64 - msglen % 64
  let padlen := if padlen < 9 then padlen + 64 else padlen
  let padded_len := msglen + padlen
  let padded_msg := List.replicate padded_len 0x00
  let padded_msg := copy msg padded_msg
  let padded_msg := padded_msg.set msglen 0b10000000
  let padded_msg := padded_msg.set (padded_len - 4) ((((msglen * 8) % 2 ^ 64) >>> 24) % 256)
  let padded_msg := padded_msg.set (padded_len - 3) ((((msglen * 8) % 2 ^ 64) >>> 16) % 256)
  let padded_msg := padded_msg.set (padded_len - 2) ((((msglen * 8) % 2 ^ 64) >>> 8) % 256)
  let padded_msg := padded_msg.set (padded_len - 1) (((msglen * 8) % 2 ^ 64) % 256)
  padded_msg

/-- First inner loop of `SHA1::hash` (`0 <= t <= 15`): the sixteen words of
chunk `i`.  `base` is a `std::uint32_t`. -/
def load_words (padded_msg : List Nat) (i : Nat) (W : List Nat) : List Nat :=
  (List.range 16).foldl (fun W t =>
    let base := (i * 64 + t * 4) % 2 ^ 32
    W.set t (((padded_msg.getD (base + 0) 0 <<< 24) ||| (padded_msg.getD (base + 1) 0 <<< 16) |||
      (padded_msg.getD (base + 2) 0 <<< 8) ||| padded_msg.getD (base + 3) 0) % 2 ^ 32)) W

/-- Second inner loop of `SHA1::hash` (`16 <= t <= 79`). -/
def expand (W : List Nat) : List Nat :=
  (List.range' 16 64).foldl (fun W t =>
    W.set t (rotl 32 (W.getD (t - 3) 0 ^^^ W.getD (t - 8) 0 ^^^ W.getD (t - 14) 0 ^^^
      W.getD (t - 16) 0) 1)) W

/-- The working variables `a, b, c, d, e`. -/
structure Vars where
  a : Nat
  b : Nat
  c : Nat
  d : Nat
  e : Nat
deriving DecidableEq, Repr

/-- One iteration of the main loop of `SHA1::hash`. -/
def round (W : List Nat) (v : Vars) (t : Nat) : Vars :=
  let T := (rotl 32 v.a 5 + f t v.b v.c v.d + v.e + K t + W.getD t 0) % 2 ^ 32
  { e := v.d, d := v.c, c := rotl 32 v.b 30, b := v.a, a := T }

/-- Body of the chunk loop of `SHA1::hash`: schedule, 80 rounds, update of
the hash value `H`. -/
def chunk (padded_msg : List Nat) (H : List Nat) (i : Nat) : List Nat :=
  let W := expand (load_words padded_msg i (List.replicate 80 0))
  let v : Vars :=
    { a := H.getD 0 0, b := H.getD 1 0, c := H.getD 2 0, d := H.getD 3 0, e := H.getD 4 0 }
  let v := (List.range 80).foldl (round W) v
  [(v.a + H.getD 0 0) % 2 ^ 32, (v.b + H.getD 1 0) % 2 ^ 32,
   (v.c + H.getD 2 0) % 2 ^ 32, (v.d + H.getD 3 0) % 2 ^ 32,
   (v.e + H.getD 4 0) % 2 ^ 32]

/-- Initial hash value of `SHA1::hash`. -/
def H0 : List Nat := [
  0x67452301, 0xEFCDAB89, 0x98BADCFE, 0x10325476, 0xC3D2E1F0]

/-- Final loop of `SHA1::hash`: the digest bytes of the hash value. -/
def digest (H : List Nat) : List Nat :=
  (List.range 5).foldl (fun M i =>
    let base := i * 4
    (((M.set (base + 0) ((H.getD i 0 >>> 24) % 256)).set
      (base + 1) ((H.getD i 0 >>> 16) % 256)).set
      (base + 2) ((H.getD i 0 >>> 8) % 256)).set
      (base + 3) (H.getD i 0 % 256)) (List.replicate 20 0)

/-- Source `SHA1::hash(const std::vector<std::uint8_t>&)`. -/
def hash (msg : List Nat) : List Nat :=
  let padded_msg := padding msg
  let chunks_num := padded_msg.length / 64
  digest ((List.range chunks_num).foldl (chunk padded_msg) H0)

/-- Source `SHA1::hash(const std::string&)`. -/
def hash_string (msg : List Int) : List Nat :=
  hash (string_bytes msg)

end SHA1

/-! ## `sha256/sha256.hpp` -/

namespace SHA256

/-- Source `SHA256::K`. -/
def K : List Nat := [
  0x428A2F98, 0x71374491, 0xB5C0FBCF, 0xE9B5DBA5, 0x3956C25B,
  0x59F111F1, 0x923F82A4, 0xAB1C5ED5, 0xD807AA98, 0x12835B01,
  0x243185BE, 0x550C7DC3, 0x72BE5D74, 0x80DEB1FE, 0x9BDC06A7,
  0xC19BF174, 0xE49B69C1, 0xEFBE4786, 0x0FC19DC6, 0x240CA1CC,
  0x2DE92C6F, 0x4A7484AA, 0x5CB0A9DC, 0x76F988DA, 0x983E5152,
  0xA831C66D, 0xB00327C8, 0xBF597FC7, 0xC6E00BF3, 0xD5A79147,
  0x06CA6351, 0x14292967, 0x27B70A85, 0x2E1B2138, 0x4D2C6DFC,
  0x53380D13, 0x650A7354, 0x766A0ABB, 0x81C2C92E, 0x92722C85,
  0xA2BFE8A1, 0xA81A664B, 0xC24B8B70, 0xC76C51A3, 0xD192E819,
  0xD6990624, 0xF40E3585, 0x106AA070, 0x19A4C116, 0x1E376C08,
  0x2748774C, 0x34B0BCB5, 0x391C0CB3, 0x4ED8AA4A, 0x5B9CCA4F,
  0x682E6FF3, 0x748F82EE, 0x78A5636F, 0x84C87814, 0x8CC70208,
  0x90BEFFFA, 0xA4506CEB, 0xBEF9A3F7, 0xC67178F2]

/-- Source `SHA256::big_sigma0`. -/
def big_sigma0 (x : Nat) : Nat :=
  rotr 32 x 2 ^^^ rotr 32 x 13 ^^^ rotr 32 x 22

/-- Source `SHA256::big_sigma1`. -/
def big_sigma1 (x : Nat) : Nat :=
  rotr 32 x 6 ^^^ rotr 32 x 11 ^^^ rotr 32 x 25

/-- Source `SHA256::small_sigma0`. -/
def small_sigma0 (x : Nat) : Nat :=
  rotr 32 x 7 ^^^ rotr 32 x 18 ^^^ (x >>> 3)

/-- Source `SHA256::small_sigma1`. -/
def small_sigma1 (x : Nat) : Nat :=
  rotr 32 x 17 ^^^ rotr 32 x 19 ^^^ (x >>> 10)

/-- Source `SHA256::padding`. -/
def padding (msg : List Nat) : List Nat :=
  let msglen := msg.length
  let padlen := 64 - msglen % 64
  let padlen := if padlen < 9 then padlen + 64 else padlen
  let padded_len := msglen + padlen
  let padded_msg := List.replicate padded_len 0x00
  let padded_msg := copy msg padded_msg
  let padded_msg := padded_msg.set msglen 0x80
  let padded_msg := padded_msg.set (padded_len - 4) ((((msglen * 8) % 2 ^ 64) >>> 24) % 256)
  let padded_msg := padded_msg.set (padded_len - 3) ((((msglen * 8) % 2 ^ 64) >>> 16) % 256)
  let padded_msg := padded_msg.set (padded_len - 2) ((((msglen * 8) % 2 ^ 64) >>> 8) % 256)
  let padded_msg := padded_msg.set (padded_len - 1) (((msglen * 8) % 2 ^ 64) % 256)
  padded_msg

/-- First inner loop of `SHA256::hash` (`0 <= t <= 15`): the sixteen words of
chunk `i`.  `base` is a `std::uint32_t`. -/
def load_words (padded_msg : List Nat) (i : Nat) (W : List Nat) : List Nat :=
  (List.range 16).foldl (fun W t =>
    let base := (i * 64 + t * 4) % 2 ^ 32
    W.set t (((padded_msg.getD (base + 0) 0 <<< 24) ||| (padded_msg.getD (base + 1) 0 <<< 16) |||
      (padded_msg.getD (base + 2) 0 <<< 8) ||| padded_msg.getD (base + 3) 0) % 2 ^ 32)) W

/-- Second inner loop of `SHA256::hash` (`16 <= t <= 63`). -/
def expand (W : List Nat) : List Nat :=
  (List.range' 16 48).foldl (fun W t =>
    W.set t ((small_sigma1 (W.getD (t - 2) 0) + W.getD (t - 7) 0 +
      small_sigma0 (W.getD (t - 15) 0) + W.getD (t - 16) 0) % 2 ^ 32)) W

/-- The working variables `a, b, c, d, e, f, g, h`. -/
structure Vars where
  a : Nat
  b : Nat
  c : Nat
  d : Nat
  e : Nat
  f : Nat
  g : Nat
  h : Nat
deriving DecidableEq, Repr

/-- One iteration of the main loop of `SHA256::hash`. -/
def round (W : List Nat) (v : Vars) (t : Nat) : Vars :=
  let T1 := (v.h + big_sigma1 v.e + ch 32 v.e v.f v.g + K.getD t 0 + W.getD t 0) % 2 ^ 32
  let T2 := (big_sigma0 v.a + maj v.a v.b v.c) % 2 ^ 32
  { h := v.g, g := v.f, f := v.e, e := (v.d + T1) % 2 ^ 32,
    d := v.c, c := v.b, b := v.a, a := (T1 + T2) % 2 ^ 32 }

/-- Body of the chunk loop of `SHA256::hash`: schedule, 64 rounds, update of
the hash value `H`. -/
def chunk (padded_msg : List Nat) (H : List Nat) (i : Nat) : List Nat :=
  let W := expand (load_words padded_msg i (List.replicate 64 0))
  let v : Vars :=
    { a := H.getD 0 0, b := H.getD 1 0, c := H.getD 2 0, d := H.getD 3 0,
      e := H.getD 4 0, f := H.getD 5 0, g := H.getD 6 0, h := H.getD 7 0 }
  let v := (List.range 64).foldl (round W) v
  [(v.a + H.getD 0 0) % 2 ^ 32, (v.b + H.getD 1 0) % 2 ^ 32,
   (v.c + H.getD 2 0) % 2 ^ 32, (v.d + H.getD 3 0) % 2 ^ 32,
   (v.e + H.getD 4 0) % 2 ^ 32, (v.f + H.getD 5 0) % 2 ^ 32,
   (v.g + H.getD 6 0) % 2 ^ 32, (v.h + H.getD 7 0) % 2 ^ 32]

/-- Initial hash value of `SHA256::hash`. -/
def H0 : List Nat := [
  0x6A09E667, 0xBB67AE85, 0x3C6EF372, 0xA54FF53A,
  0x510E527F, 0x9B05688C, 0x1F83D9AB, 0x5BE0CD19]

/-- Final loop of `SHA256::hash`: the digest bytes of the hash value. -/
def digest (H : List Nat) : List Nat :=
  (List.range 8).foldl (fun M i =>
    let base := i * 4
    (((M.set (base + 0) ((H.getD i 0 >>> 24) % 256)).set
      (base + 1) ((H.getD i 0 >>> 16) % 256)).set
      (base + 2) ((H.getD i 0 >>> 8) % 256)).set
      (base + 3) (H.getD i 0 % 256)) (List.replicate 32 0)

/-- Source `SHA256::hash(const std::vector<std::uint8_t>&)`. -/
def hash (msg : List Nat) : List Nat :=
  let padded_msg := padding msg
  let chunks_num := padded_msg.length / 64
  digest ((List.range chunks_num).foldl (chunk padded_msg) H0)

/-- Source `SHA256::hash(const std::string&)`. -/
def hash_string (msg : List Int) : List Nat :=
  hash (string_bytes msg)

end SHA256

/-! ## `sha512/sha512.hpp` -/

namespace SHA512

/-- Source `SHA512::K`. -/
def K : List Nat := [
  0x428A2F98D728AE22, 0x7137449123EF65CD, 0xB5C0FBCFEC4D3B2F,
  0xE9B5DBA58189DBBC, 0x3956C25BF348B538, 0x59F111F1B605D019,
  0x923F82A4AF194F9B, 0xAB1C5ED5DA6D8118, 0xD807AA98A3030242,
  0x12835B0145706FBE, 0x243185BE4EE4B28C, 0x550C7DC3D5FFB4E2,
  0x72BE5D74F27B896F, 0x80DEB1FE3B1696B1, 0x9BDC06A725C71235,
  0xC19BF174CF692694, 0xE49B69C19EF14AD2, 0xEFBE4786384F25E3,
  0x0FC19DC68B8CD5B5, 0x240CA1CC77AC9C65, 0x2DE92C6F592B0275,
  0x4A7484AA6EA6E483, 0x5CB0A9DCBD41FBD4, 0x76F988DA831153B5,
  0x983E5152EE66DFAB,
  0xA831C66D2DB43210, 0xB00327C898FB213F, 0xBF597FC7BEEF0EE4,
  0xC6E00BF33DA88FC2, 0xD5A79147930AA725, 0x06CA6351E003826F,
  0x142929670A0E6E70, 0x27B70A8546D22FFC, 0x2E1B21385C26C926,
  0x4D2C6DFC5AC42AED, 0x53380D139D95B3DF, 0x650A73548BAF63DE,
  0x766A0ABB3C77B2A8, 0x81C2C92E47EDAEE6, 0x92722C851482353B,
  0xA2BFE8A14CF10364, 0xA81A664BBC423001, 0xC24B8B70D0F89791,
  0xC76C51A30654BE30, 0xD192E819D6EF5218, 0xD69906245565A910,
  0xF40E35855771202A, 0x106AA07032BBD1B8, 0x19A4C116B8D2D0C8,
  0x1E376C085141AB53,
  0x2748774CDF8EEB99, 0x34B0BCB5E19B48A8, 0x391C0CB3C5C95A63,
  0x4ED8AA4AE3418ACB, 0x5B9CCA4F7763E373, 0x682E6FF3D6B2B8A3,
  0x748F82EE5DEFB2FC, 0x78A5636F43172F60, 0x84C87814A1F0AB72,
  0x8CC702081A6439EC, 0x90BEFFFA23631E28, 0xA4506CEBDE82BDE9,
  0xBEF9A3F7B2C67915, 0xC67178F2E372532B, 0xCA273ECEEA26619C,
  0xD186B8C721C0C207, 0xEADA7DD6CDE0EB1E, 0xF57D4F7FEE6ED178,
  0x06F067AA72176FBA, 0x0A637DC5A2C898A6, 0x113F9804BEF90DAE,
  0x1B710B35131C471B, 0x28DB77F523047D84, 0x32CAAB7B40C72493,
  0x3C9EBE0A15C9BEBC,
  0x431D67C49C100D4C, 0x4CC5D4BECB3E42B6, 0x597F299CFC657E2A,
  0x5FCB6FAB3AD6FAEC, 0x6C44198C4A475817]

/-- Source `SHA512::big_sigma512_0`. -/
def big_sigma512_0 (x : Nat) : Nat :=
  rotr 64 x 28 ^^^ rotr 64 x 34 ^^^ rotr 64 x 39

/-- Source `SHA512::big_sigma512_1`. -/
def big_sigma512_1 (x : Nat) : Nat :=
  rotr 64 x 14 ^^^ rotr 64 x 18 ^^^ rotr 64 x 41

/-- Source `SHA512::small_sigma512_0`. -/
def small_sigma512_0 (x : Nat) : Nat :=
  rotr 64 x 1 ^^^ rotr 64 x 8 ^^^ (x >>> 7)

/-- Source `SHA512::small_sigma512_1`. -/
def small_sigma512_1 (x : Nat) : Nat :=
  rotr 64 x 19 ^^^ rotr 64 x 61 ^^^ (x >>> 6)

/-- Source `SHA512::padding`. -/
def padding (msg : List Nat) : List Nat :=
  let msglen := msg.length
  let padlen := 128 - msglen % 128
  let padlen := if padlen < 17 then padlen + 128 else padlen
  let padded_len := msglen + padlen
  let padded_msg := List.replicate padded_len 0x00
  let padded_msg := copy msg padded_msg
  let padded_msg := padded_msg.set msglen 0b10000000
  let padded_msg := padded_msg.set (padded_len - 4) ((((msglen * 8) % 2 ^ 64) >>> 24) % 256)
  let padded_msg := padded_msg.set (padded_len - 3) ((((msglen * 8) % 2 ^ 64) >>> 16) % 256)
  let padded_msg := padded_msg.set (padded_len - 2) ((((msglen * 8) % 2 ^ 64) >>> 8) % 256)
  let padded_msg := padded_msg.set (padded_len - 1) (((msglen * 8) % 2 ^ 64) % 256)
  padded_msg

/-- First inner loop of `SHA512::hash` (`0 <= t <= 15`): the sixteen words of
chunk `i`.  `base` is a `std::size_t`; `128 * i + t * 8` stays below the
length of the padded message and does not wrap. -/
def load_words (padded_msg : List Nat) (i : Nat) (W : List Nat) : List Nat :=
  (List.range 16).foldl (fun W t =>
    let base := 128 * i + t * 8
    W.set t (((((padded_msg.getD base 0) &&& 0xff) <<< 56) |||
      (((padded_msg.getD (base + 1) 0) &&& 0xff) <<< 48) |||
      (((padded_msg.getD (base + 2) 0) &&& 0xff) <<< 40) |||
      (((padded_msg.getD (base + 3) 0) &&& 0xff) <<< 32) |||
      (((padded_msg.getD (base + 4) 0) &&& 0xff) <<< 24) |||
      (((padded_msg.getD (base + 5) 0) &&& 0xff) <<< 16) |||
      (((padded_msg.getD (base + 6) 0) &&& 0xff) <<< 8) |||
      ((padded_msg.getD (base + 7) 0) &&& 0xff)) % 2 ^ 64)) W

/-- Second inner loop of `SHA512::hash` (`16 <= t <= 79`). -/
def expand (W : List Nat) : List Nat :=
  (List.range' 16 64).foldl (fun W t =>
    W.set t ((small_sigma512_1 (W.getD (t - 2) 0) + W.getD (t - 7) 0 +
      small_sigma512_0 (W.getD (t - 15) 0) + W.getD (t - 16) 0) % 2 ^ 64)) W

/-- The working variables `a, b, c, d, e, f, g, h`. -/
structure Vars where
  a : Nat
  b : Nat
  c : Nat
  d : Nat
  e : Nat
  f : Nat
  g : Nat
  h : Nat
deriving DecidableEq, Repr

/-- One iteration of the main loop of `SHA512::hash`. -/
def round (W : List Nat) (v : Vars) (t : Nat) : Vars :=
  let T1 := (v.h + big_sigma512_1 v.e + ch 64 v.e v.f v.g + K.getD t 0 + W.getD t 0) % 2 ^ 64
  let T2 := (big_sigma512_0 v.a + maj v.a v.b v.c) % 2 ^ 64
  { h := v.g, g := v.f, f := v.e, e := (v.d + T1) % 2 ^ 64,
    d := v.c, c := v.b, b := v.a, a := (T1 + T2) % 2 ^ 64 }

/-- Body of the chunk loop of `SHA512::hash`: schedule, 80 rounds, update of
the hash value `H`. -/
def chunk (padded_msg : List Nat) (H : List Nat) (i : Nat) : List Nat :=
  let W := expand (load_words padded_msg i (List.replicate 80 0))
  let v : Vars :=
    { a := H.getD 0 0, b := H.getD 1 0, c := H.getD 2 0, d := H.getD 3 0,
      e := H.getD 4 0, f := H.getD 5 0, g := H.getD 6 0, h := H.getD 7 0 }
  let v := (List.range 80).foldl (round W) v
  [(v.a + H.getD 0 0) % 2 ^ 64, (v.b + H.getD 1 0) % 2 ^ 64,
   (v.c + H.getD 2 0) % 2 ^ 64, (v.d + H.getD 3 0) % 2 ^ 64,
   (v.e + H.getD 4 0) % 2 ^ 64, (v.f + H.getD 5 0) % 2 ^ 64,
   (v.g + H.getD 6 0) % 2 ^ 64, (v.h + H.getD 7 0) % 2 ^ 64]

/-- Initial hash value of `SHA512::hash`. -/
def H0 : List Nat := [
  0x6A09E667F3BCC908, 0xBB67AE8584CAA73B, 0x3C6EF372FE94F82B,
  0xA54FF53A5F1D36F1, 0x510E527FADE682D1, 0x9B05688C2B3E6C1F,
  0x1F83D9ABFB41BD6B, 0x5BE0CD19137E2179]

/-- Final loop of `SHA512::hash`: the digest bytes of the hash value. -/
def digest (H : List Nat) : List Nat :=
  (List.range 8).foldl (fun M i =>
    let base := i * 8
    (((((((M.set base ((H.getD i 0 >>> 56) % 256)).set
      (base + 1) ((H.getD i 0 >>> 48) % 256)).set
      (base + 2) ((H.getD i 0 >>> 40) % 256)).set
      (base + 3) ((H.getD i 0 >>> 32) % 256)).set
      (base + 4) ((H.getD i 0 >>> 24) % 256)).set
      (base + 5) ((H.getD i 0 >>> 16) % 256)).set
      (base + 6) ((H.getD i 0 >>> 8) % 256)).set
      (base + 7) (H.getD i 0 % 256)) (List.replicate 64 0)

/-- Source `SHA512::hash(const std::vector<std::uint8_t>&)`. -/
def hash (msg : List Nat) : List Nat :=
  let padded_msg := padding msg
  let chunks_num := padded_msg.length / 128
  digest ((List.range chunks_num).foldl (chunk padded_msg) H0)

/-- Source `SHA512::hash(const std::string&)`. -/
def hash_string (msg : List Int) : List Nat :=
  hash (string_bytes msg)

end SHA512

/-! ## Definitions used to state the padding theorems -/

/-- Number of bytes appended by a padding function with block size `B` that
reserves `R` bytes: the value of `padlen` after the conditional extension. -/
def padlen (B R L : Nat) : Nat :=
  if B - L % B < R then B - L % B + B else B - L % B

/-- The four length bytes written by the padding functions: bits 31..0 of
the `std::size_t` value `msglen * 8`, most significant byte first. -/
def length_bytes (L : Nat) : List Nat :=
  [(((L * 8) % 2 ^ 64) >>> 24) % 256, (((L * 8) % 2 ^ 64) >>> 16) % 256,
   (((L * 8) % 2 ^ 64) >>> 8) % 256, ((L * 8) % 2 ^ 64) % 256]

/-- Common shape of the three `padding` functions, which differ only in the
block size `B` and the reserve `R`. -/
def padding_shape (B R : Nat) (msg : List Nat) : List Nat :=
  let msglen := msg.length
  let padlen := B - msglen % B
  let padlen := if padlen < R then padlen + B else padlen
  let padded_len := msglen + padlen
  let padded_msg := List.replicate padded_len 0x00
  let padded_msg := copy msg padded_msg
  let padded_msg := padded_msg.set msglen 0x80
  let padded_msg := padded_msg.set (padded_len - 4) ((((msglen * 8) % 2 ^ 64) >>> 24) % 256)
  let padded_msg := padded_msg.set (padded_len - 3) ((((msglen * 8) % 2 ^ 64) >>> 16) % 256)
  let padded_msg := padded_msg.set (padded_len - 2) ((((msglen * 8) % 2 ^ 64) >>> 8) % 256)
  let padded_msg := padded_msg.set (padded_len - 1) (((msglen * 8) % 2 ^ 64) % 256)
  padded_msg

/-- The 64-bit big-endian encoding of `n`, most significant byte first. -/
def be64 (n : Nat) : List Nat :=
  [(n >>> 56) % 256, (n >>> 48) % 256, (n >>> 40) % 256, (n >>> 32) % 256,
   (n >>> 24) % 256, (n >>> 16) % 256, (n >>> 8) % 256, n % 256]

/-- The 56-byte test message of `sha1/main.cpp` and `sha256/main.cpp`
("Multi-Block Message"). -/
def message_56 : String :=
  "abcdbcdecdefdefgefghfghighijhijkijkljklmklmnlmnomnopnopq"

/-- The 112-byte test message of `sha512/main.cpp` ("Multi-Block Message"). -/
def message_112 : String :=
  "abcdefghbcdefghicdefghijdefghijkefghijklfghijklmghijklmnhi" ++
  "jklmnoijklmnopjklmnopqklmnopqrlmnopqrsmnopqrstnopqrstu"

/-! ## Definitions used to state the digest theorems -/

/-- The value of a byte string read as a big-endian number. -/
def be_value (bytes : List Nat) : Nat :=
  bytes.foldl (fun acc b => acc * 256 + b) 0

/-- A byte string re-read as `n` big-endian words of `s` bytes each. -/
def be_words (s n : Nat) (bytes : List Nat) : List Nat :=
  (List.range n).map fun i => be_value ((bytes.drop (s * i)).take s)

/-- A hash value of `n` words of `w` bits. -/
def is_state (n w : Nat) (H : List Nat) : Prop :=
  H.length = n ∧ ∀ h ∈ H, h < 2 ^ w

instance (n w : Nat) (H : List Nat) : Decidable (is_state n w H) := by
  unfold is_state
  exact inferInstance

/-- The hash value `H` at the end of the chunk loop of `SHA1::hash`. -/
def SHA1.final_state (msg : List Nat) : List Nat :=
  (List.range ((SHA1.padding msg).length / 64)).foldl (SHA1.chunk (SHA1.padding msg)) SHA1.H0

/-- The hash value `H` at the end of the chunk loop of `SHA256::hash`. -/
def SHA256.final_state (msg : List Nat) : List Nat :=
  (List.range ((SHA256.padding msg).length / 64)).foldl
    (SHA256.chunk (SHA256.padding msg)) SHA256.H0

/-- The hash value `H` at the end of the chunk loop of `SHA512::hash`. -/
def SHA512.final_state (msg : List Nat) : List Nat :=
  (List.range ((SHA512.padding msg).length / 128)).foldl
    (SHA512.chunk (SHA512.padding msg)) SHA512.H0

/-! ## Definitions used to state the block-loop theorems -/

/-- The message schedule `W` of chunk `i` in `SHA1::hash`, as it stands when
the main loop starts. -/
def SHA1.schedule (padded_msg : List Nat) (i : Nat) : List Nat :=
  SHA1.expand (SHA1.load_words padded_msg i (List.replicate 80 0))

/-- The consecutive `B`-byte blocks of a padded message. -/
def blocks (B : Nat) (padded_msg : List Nat) : List (List Nat) :=
  (List.range (padded_msg.length / B)).map fun i => (padded_msg.drop (B * i)).take B

/-- The compression function of SHA-1: the chunk-loop body of `SHA1::hash`
run on one 64-byte block. -/
def SHA1.compress (H block : List Nat) : List Nat :=
  SHA1.chunk block H 0

/-- The compression function of SHA-256: the chunk-loop body of
`SHA256::hash` run on one 64-byte block. -/
def SHA256.compress (H block : List Nat) : List Nat :=
  SHA256.chunk block H 0

/-- The compression function of SHA-512: the chunk-loop body of
`SHA512::hash` run on one 128-byte block. -/
def SHA512.compress (H block : List Nat) : List Nat :=
  SHA512.chunk block H 0

/-! ## Definitions used to state the FIPS padding theorem -/

/-- The 128-bit big-endian encoding of `n`, most significant byte first. -/
def be128 (n : Nat) : List Nat :=
  [(n >>> 120) % 256, (n >>> 112) % 256, (n >>> 104) % 256, (n >>> 96) % 256,
   (n >>> 88) % 256, (n >>> 80) % 256, (n >>> 72) % 256, (n >>> 64) % 256,
   (n >>> 56) % 256, (n >>> 48) % 256, (n >>> 40) % 256, (n >>> 32) % 256,
   (n >>> 24) % 256, (n >>> 16) % 256, (n >>> 8) % 256, n % 256]

/-- The bytes of the test message "abc" of the three `main.cpp`. -/
def message_abc : List Nat :=
  [0x61, 0x62, 0x63]

/-! ## Definitions used to state the constant-table theorems -/

/-- Primality by trial division: `n` is at least 2 and no `d` with
`2 <= d < n` divides it. -/
def is_prime (n : Nat) : Bool :=
  decide (2 ≤ n) && (List.range n).all fun d => decide (d < 2) || decide (n % d ≠ 0)

/-- The primes below 312 in increasing order; there are 64 of them, so
entry `t` is the `(t + 1)`-th prime for `t = 0, ..., 63`. -/
def primes_below_312 : List Nat :=
  (List.range 312).filter is_prime

/-- The integer cube root: the number of `c` in `1..p` whose cube is at most
`p`, that is, the largest `c` with `c ^ 3 <= p`. -/
def icbrt (p : Nat) : Nat :=
  ((List.range (p + 1)).filter fun c => decide (0 < c) && decide (c ^ 3 ≤ p)).length

/-! ## The engines with bounds-checked indexed accesses

Every `v[i]` of `padding` and `hash` is replaced by an access that fails
when `i` is not a valid index of `v`; the result is `none` as soon as one
access is out of range. -/

/-- A bounds-checked read of `v[i]`: `none` when `i` is not a valid index. -/
def read_at (v : List Nat) (i : Nat) : Option Nat :=
  v[i]?

/-- A bounds-checked `v[i] = x`: `none` when `i` is not a valid index. -/
def write_at (v : List Nat) (i x : Nat) : Option (List Nat) :=
  if i < v.length then some (v.set i x) else none

/-- A bounds-checked `std::copy(src.cbegin(), src.cend(), dst.begin())`:
`none` when `dst` is shorter than `src`. -/
def copy_checked (src dst : List Nat) : Option (List Nat) :=
  if src.length ≤ dst.length then some (copy src dst) else none

/-- The statement `H[k] = x + H[k]` on `w`-bit words, bounds-checked. -/
def add_into (w : Nat) (H : List Nat) (k x : Nat) : Option (List Nat) := do
  let h ← read_at H k
  write_at H k ((x + h) % 2 ^ w)

/-- The statement `M[pos] = static_cast<std::uint8_t>(H[i] >> s)`,
bounds-checked. -/
def store_byte (H M : List Nat) (i pos s : Nat) : Option (List Nat) := do
  let h ← read_at H i
  write_at M pos ((h >>> s) % 256)

/-- The statement `M[pos] = static_cast<std::uint8_t>(H[i])`,
bounds-checked. -/
def store_low_byte (H M : List Nat) (i pos : Nat) : Option (List Nat) := do
  let h ← read_at H i
  write_at M pos (h % 256)

/-- Common shape of the three bounds-checked `padding` functions, which
differ only in the block size `B` and the reserve `R`. -/
def padding_shape_checked (B R : Nat) (msg : List Nat) : Option (List Nat) := do
  let msglen := msg.length
  let padlen := B - msglen % B
  let padlen := if padlen < R then padlen + B else padlen
  let padded_len := msglen + padlen
  let padded_msg := List.replicate padded_len 0x00
  let padded_msg ← copy_checked msg padded_msg
  let padded_msg ← write_at padded_msg msglen 0x80
  let padded_msg ← write_at padded_msg (padded_len - 4) ((((msglen * 8) % 2 ^ 64) >>> 24) % 256)
  let padded_msg ← write_at padded_msg (padded_len - 3) ((((msglen * 8) % 2 ^ 64) >>> 16) % 256)
  let padded_msg ← write_at padded_msg (padded_len - 2) ((((msglen * 8) % 2 ^ 64) >>> 8) % 256)
  let padded_msg ← write_at padded_msg (padded_len - 1) (((msglen * 8) % 2 ^ 64) % 256)
  pure padded_msg

namespace SHA1

/-- Source `SHA1::padding` with `std::copy` and every indexed store
bounds-checked. -/
def padding_checked (msg : List Nat) : Option (List Nat) := do
  let msglen := msg.length
  let padlen := 64 - msglen % 64
  let padlen := if padlen < 9 then padlen + 64 else padlen
  let padded_len := msglen + padlen
  let padded_msg := List.replicate padded_len 0x00
  let padded_msg ← copy_checked msg padded_msg
  let padded_msg ← write_at padded_msg msglen 0b10000000
  let padded_msg ← write_at padded_msg (padded_len - 4) ((((msglen * 8) % 2 ^ 64) >>> 24) % 256)
  let padded_msg ← write_at padded_msg (padded_len - 3) ((((msglen * 8) % 2 ^ 64) >>> 16) % 256)
  let padded_msg ← write_at padded_msg (padded_len - 2) ((((msglen * 8) % 2 ^ 64) >>> 8) % 256)
  let padded_msg ← write_at padded_msg (padded_len - 1) (((msglen * 8) % 2 ^ 64) % 256)
  pure padded_msg

/-- First inner loop of `SHA1::hash` (`0 <= t <= 15`) with every indexed
access bounds-checked.  `base` is a `std::uint32_t`. -/
def load_words_checked (padded_msg : List Nat) (i : Nat) (W : List Nat) : Option (List Nat) :=
  (List.range 16).foldlM (fun W t => do
    let base := (i * 64 + t * 4) % 2 ^ 32
    let b0 ← read_at padded_msg (base + 0)
    let b1 ← read_at padded_msg (base + 1)
    let b2 ← read_at padded_msg (base + 2)
    let b3 ← read_at padded_msg (base + 3)
    write_at W t (((b0 <<< 24) ||| (b1 <<< 16) ||| (b2 <<< 8) ||| b3) % 2 ^ 32)) W

/-- Second inner loop of `SHA1::hash` with every indexed access
bounds-checked. -/
def expand_checked (W : List Nat) : Option (List Nat) :=
  (List.range' 16 64).foldlM (fun W t => do
    let w3 ← read_at W (t - 3)
    let w8 ← read_at W (t - 8)
    let w14 ← read_at W (t - 14)
    let w16 ← read_at W (t - 16)
    write_at W t (rotl 32 (w3 ^^^ w8 ^^^ w14 ^^^ w16) 1)) W

/-- One iteration of the main loop of `SHA1::hash` with every indexed
access bounds-checked. -/
def round_checked (W : List Nat) (v : Vars) (t : Nat) : Option Vars := do
  let w ← read_at W t
  let T := (rotl 32 v.a 5 + f t v.b v.c v.d + v.e + K t + w) % 2 ^ 32
  pure { e := v.d, d := v.c, c := rotl 32 v.b 30, b := v.a, a := T }

/-- The load of the working variables from the hash value in the chunk
loop of `SHA1::hash`, bounds-checked. -/
def init_vars_checked (H : List Nat) : Option Vars := do
  let a ← read_at H 0
  let b ← read_at H 1
  let c ← read_at H 2
  let d ← read_at H 3
  let e ← read_at H 4
  pure { a := a, b := b, c := c, d := d, e := e }

/-- The update of the hash value in the chunk loop of `SHA1::hash`,
bounds-checked. -/
def update_checked (H : List Nat) (v : Vars) : Option (List Nat) := do
  let H ← add_into 32 H 0 v.a
  let H ← add_into 32 H 1 v.b
  let H ← add_into 32 H 2 v.c
  let H ← add_into 32 H 3 v.d
  add_into 32 H 4 v.e

/-- Body of the chunk loop of `SHA1::hash` with every indexed access
bounds-checked. -/
def chunk_checked (padded_msg : List Nat) (H : List Nat) (i : Nat) : Option (List Nat) := do
  let W ← load_words_checked padded_msg i (List.replicate 80 0)
  let W ← expand_checked W
  let v ← init_vars_checked H
  let v ← (List.range 80).foldlM (round_checked W) v
  update_checked H v

/-- Final loop of `SHA1::hash` with every indexed access bounds-checked. -/
def digest_checked (H : List Nat) : Option (List Nat) :=
  (List.range 5).foldlM (fun M i => do
    let base := i * 4
    let M ← store_byte H M i (base + 0) 24
    let M ← store_byte H M i (base + 1) 16
    let M ← store_byte H M i (base + 2) 8
    store_low_byte H M i (base + 3)) (List.replicate 20 0)

/-- Source `SHA1::hash(const std::vector<std::uint8_t>&)` with every indexed
access bounds-checked: `none` as soon as one index is out of range. -/
def hash_checked (msg : List Nat) : Option (List Nat) := do
  let padded_msg ← padding_checked msg
  let chunks_num := padded_msg.length / 64
  let H ← (List.range chunks_num).foldlM (chunk_checked padded_msg) H0
  digest_checked H

end SHA1

namespace SHA256

/-- Source `SHA256::padding` with `std::copy` and every indexed store
bounds-checked. -/
def padding_checked (msg : List Nat) : Option (List Nat) := do
  let msglen := msg.length
  let padlen := 64 - msglen % 64
  let padlen := if padlen < 9 then padlen + 64 else padlen
  let padded_len := msglen + padlen
  let padded_msg := List.replicate padded_len 0x00
  let padded_msg ← copy_checked msg padded_msg
  let padded_msg ← write_at padded_msg msglen 0x80
  let padded_msg ← write_at padded_msg (padded_len - 4) ((((msglen * 8) % 2 ^ 64) >>> 24) % 256)
  let padded_msg ← write_at padded_msg (padded_len - 3) ((((msglen * 8) % 2 ^ 64) >>> 16) % 256)
  let padded_msg ← write_at padded_msg (padded_len - 2) ((((msglen * 8) % 2 ^ 64) >>> 8) % 256)
  let padded_msg ← write_at padded_msg (padded_len - 1) (((msglen * 8) % 2 ^ 64) % 256)
  pure padded_msg

/-- First inner loop of `SHA256::hash` (`0 <= t <= 15`) with every indexed
access bounds-checked.  `base` is a `std::uint32_t`. -/
def load_words_checked (padded_msg : List Nat) (i : Nat) (W : List Nat) : Option (List Nat) :=
  (List.range 16).foldlM (fun W t => do
    let base := (i * 64 + t * 4) % 2 ^ 32
    let b0 ← read_at padded_msg (base + 0)
    let b1 ← read_at padded_msg (base + 1)
    let b2 ← read_at padded_msg (base + 2)
    let b3 ← read_at padded_msg (base + 3)
    write_at W t (((b0 <<< 24) ||| (b1 <<< 16) ||| (b2 <<< 8) ||| b3) % 2 ^ 32)) W

/-- Second inner loop of `SHA256::hash` with every indexed access
bounds-checked. -/
def expand_checked (W : List Nat) : Option (List Nat) :=
  (List.range' 16 48).foldlM (fun W t => do
    let w2 ← read_at W (t - 2)
    let w7 ← read_at W (t - 7)
    let w15 ← read_at W (t - 15)
    let w16 ← read_at W (t - 16)
    write_at W t ((small_sigma1 w2 + w7 + small_sigma0 w15 + w16) % 2 ^ 32)) W

/-- One iteration of the main loop of `SHA256::hash` with every indexed
access bounds-checked. -/
def round_checked (W : List Nat) (v : Vars) (t : Nat) : Option Vars := do
  let k ← read_at K t
  let w ← read_at W t
  let T1 := (v.h + big_sigma1 v.e + ch 32 v.e v.f v.g + k + w) % 2 ^ 32
  let T2 := (big_sigma0 v.a + maj v.a v.b v.c) % 2 ^ 32
  pure { h := v.g, g := v.f, f := v.e, e := (v.d + T1) % 2 ^ 32,
         d := v.c, c := v.b, b := v.a, a := (T1 + T2) % 2 ^ 32 }

/-- The load of the working variables from the hash value in the chunk
loop of `SHA256::hash`, bounds-checked. -/
def init_vars_checked (H : List Nat) : Option Vars := do
  let a ← read_at H 0
  let b ← read_at H 1
  let c ← read_at H 2
  let d ← read_at H 3
  let e ← read_at H 4
  let f ← read_at H 5
  let g ← read_at H 6
  let h ← read_at H 7
  pure { a := a, b := b, c := c, d := d, e := e, f := f, g := g, h := h }

/-- The update of the hash value in the chunk loop of `SHA256::hash`,
bounds-checked. -/
def update_checked (H : List Nat) (v : Vars) : Option (List Nat) := do
  let H ← add_into 32 H 0 v.a
  let H ← add_into 32 H 1 v.b
  let H ← add_into 32 H 2 v.c
  let H ← add_into 32 H 3 v.d
  let H ← add_into 32 H 4 v.e
  let H ← add_into 32 H 5 v.f
  let H ← add_into 32 H 6 v.g
  add_into 32 H 7 v.h

/-- Body of the chunk loop of `SHA256::hash` with every indexed access
bounds-checked. -/
def chunk_checked (padded_msg : List Nat) (H : List Nat) (i : Nat) : Option (List Nat) := do
  let W ← load_words_checked padded_msg i (List.replicate 64 0)
  let W ← expand_checked W
  let v ← init_vars_checked H
  let v ← (List.range 64).foldlM (round_checked W) v
  update_checked H v

/-- Final loop of `SHA256::hash` with every indexed access bounds-checked. -/
def digest_checked (H : List Nat) : Option (List Nat) :=
  (List.range 8).foldlM (fun M i => do
    let base := i * 4
    let M ← store_byte H M i (base + 0) 24
    let M ← store_byte H M i (base + 1) 16
    let M ← store_byte H M i (base + 2) 8
    store_low_byte H M i (base + 3)) (List.replicate 32 0)

/-- Source `SHA256::hash(const std::vector<std::uint8_t>&)` with every indexed
access bounds-checked: `none` as soon as one index is out of range. -/
def hash_checked (msg : List Nat) : Option (List Nat) := do
  let padded_msg ← padding_checked msg
  let chunks_num := padded_msg.length / 64
  let H ← (List.range chunks_num).foldlM (chunk_checked padded_msg) H0
  digest_checked H

end SHA256

namespace SHA512

/-- Source `SHA512::padding` with `std::copy` and every indexed store
bounds-checked. -/
def padding_checked (msg : List Nat) : Option (List Nat) := do
  let msglen := msg.length
  let padlen := 128 - msglen % 128
  let padlen := if padlen < 17 then padlen + 128 else padlen
  let padded_len := msglen + padlen
  let padded_msg := List.replicate padded_len 0x00
  let padded_msg ← copy_checked msg padded_msg
  let padded_msg ← write_at padded_msg msglen 0b10000000
  let padded_msg ← write_at padded_msg (padded_len - 4) ((((msglen * 8) % 2 ^ 64) >>> 24) % 256)
  let padded_msg ← write_at padded_msg (padded_len - 3) ((((msglen * 8) % 2 ^ 64) >>> 16) % 256)
  let padded_msg ← write_at padded_msg (padded_len - 2) ((((msglen * 8) % 2 ^ 64) >>> 8) % 256)
  let padded_msg ← write_at padded_msg (padded_len - 1) (((msglen * 8) % 2 ^ 64) % 256)
  pure padded_msg

/-- First inner loop of `SHA512::hash` (`0 <= t <= 15`) with every indexed
access bounds-checked.  `base` is a `std::size_t`. -/
def load_words_checked (padded_msg : List Nat) (i : Nat) (W : List Nat) : Option (List Nat) :=
  (List.range 16).foldlM (fun W t => do
    let base := 128 * i + t * 8
    let b0 ← read_at padded_msg base
    let b1 ← read_at padded_msg (base + 1)
    let b2 ← read_at padded_msg (base + 2)
    let b3 ← read_at padded_msg (base + 3)
    let b4 ← read_at padded_msg (base + 4)
    let b5 ← read_at padded_msg (base + 5)
    let b6 ← read_at padded_msg (base + 6)
    let b7 ← read_at padded_msg (base + 7)
    write_at W t ((((b0 &&& 0xff) <<< 56) |||
      ((b1 &&& 0xff) <<< 48) |||
      ((b2 &&& 0xff) <<< 40) |||
      ((b3 &&& 0xff) <<< 32) |||
      ((b4 &&& 0xff) <<< 24) |||
      ((b5 &&& 0xff) <<< 16) |||
      ((b6 &&& 0xff) <<< 8) |||
      (b7 &&& 0xff)) % 2 ^ 64)) W

/-- Second inner loop of `SHA512::hash` with every indexed access
bounds-checked. -/
def expand_checked (W : List Nat) : Option (List Nat) :=
  (List.range' 16 64).foldlM (fun W t => do
    let w2 ← read_at W (t - 2)
    let w7 ← read_at W (t - 7)
    let w15 ← read_at W (t - 15)
    let w16 ← read_at W (t - 16)
    write_at W t ((small_sigma512_1 w2 + w7 + small_sigma512_0 w15 + w16) % 2 ^ 64)) W

/-- One iteration of the main loop of `SHA512::hash` with every indexed
access bounds-checked. -/
def round_checked (W : List Nat) (v : Vars) (t : Nat) : Option Vars := do
  let k ← read_at K t
  let w ← read_at W t
  let T1 := (v.h + big_sigma512_1 v.e + ch 64 v.e v.f v.g + k + w) % 2 ^ 64
  let T2 := (big_sigma512_0 v.a + maj v.a v.b v.c) % 2 ^ 64
  pure { h := v.g, g := v.f, f := v.e, e := (v.d + T1) % 2 ^ 64,
         d := v.c, c := v.b, b := v.a, a := (T1 + T2) % 2 ^ 64 }

/-- The load of the working variables from the hash value in the chunk
loop of `SHA512::hash`, bounds-checked. -/
def init_vars_checked (H : List Nat) : Option Vars := do
  let a ← read_at H 0
  let b ← read_at H 1
  let c ← read_at H 2
  let d ← read_at H 3
  let e ← read_at H 4
  let f ← read_at H 5
  let g ← read_at H 6
  let h ← read_at H 7
  pure { a := a, b := b, c := c, d := d, e := e, f := f, g := g, h := h }

/-- The update of the hash value in the chunk loop of `SHA512::hash`,
bounds-checked. -/
def update_checked (H : List Nat) (v : Vars) : Option (List Nat) := do
  let H ← add_into 64 H 0 v.a
  let H ← add_into 64 H 1 v.b
  let H ← add_into 64 H 2 v.c
  let H ← add_into 64 H 3 v.d
  let H ← add_into 64 H 4 v.e
  let H ← add_into 64 H 5 v.f
  let H ← add_into 64 H 6 v.g
  add_into 64 H 7 v.h

/-- Body of the chunk loop of `SHA512::hash` with every indexed access
bounds-checked. -/
def chunk_checked (padded_msg : List Nat) (H : List Nat) (i : Nat) : Option (List Nat) := do
  let W ← load_words_checked padded_msg i (List.replicate 80 0)
  let W ← expand_checked W
  let v ← init_vars_checked H
  let v ← (List.range 80).foldlM (round_checked W) v
  update_checked H v

/-- Final loop of `SHA512::hash` with every indexed access bounds-checked. -/
def digest_checked (H : List Nat) : Option (List Nat) :=
  (List.range 8).foldlM (fun M i => do
    let base := i * 8
    let M ← store_byte H M i base 56
    let M ← store_byte H M i (base + 1) 48
    let M ← store_byte H M i (base + 2) 40
    let M ← store_byte H M i (base + 3) 32
    let M ← store_byte H M i (base + 4) 24
    let M ← store_byte H M i (base + 5) 16
    let M ← store_byte H M i (base + 6) 8
    store_low_byte H M i (base + 7)) (List.replicate 64 0)

/-- Source `SHA512::hash(const std::vector<std::uint8_t>&)` with every indexed
access bounds-checked: `none` as soon as one index is out of range. -/
def hash_checked (msg : List Nat) : Option (List Nat) := do
  let padded_msg ← padding_checked msg
  let chunks_num := padded_msg.length / 128
  let H ← (List.range chunks_num).foldlM (chunk_checked padded_msg) H0
  digest_checked H

end SHA512

/-! ## Padding: closed form -/

/-- Source `SHA1::padding` is the common shape with block size 64 and reserve 9. -/
theorem sha1_padding_eq_shape (msg : List Nat) :
    SHA1.padding msg = padding_shape 64 9 msg := rfl

/-- Source `SHA256::padding` is the common shape with block size 64 and reserve 9. -/
theorem sha256_padding_eq_shape (msg : List Nat) :
    SHA256.padding msg = padding_shape 64 9 msg := rfl

/-- Source `SHA512::padding` is the common shape with block size 128 and reserve 17. -/
theorem sha512_padding_eq_shape (msg : List Nat) :
    SHA512.padding msg = padding_shape 128 17 msg := rfl

/-- The number of appended bytes lies in `[R, R + B)` and completes the
message to a whole number of blocks. -/
theorem padlen_bounds (B R L : Nat) (hB : 0 < B) (hR0 : 0 < R) (hR : R ≤ B + 1) :
    R ≤ padlen B R L ∧ padlen B R L < R + B ∧ (L + padlen B R L) % B = 0 := by
  have hmod : L % B < B := Nat.mod_lt _ hB
  have hdiv : B * (L / B) + L % B = L := Nat.div_add_mod L B
  unfold padlen
  generalize L % B = r at hmod hdiv ⊢
  generalize L / B = q at hdiv
  by_cases h : B - r < R
  · simp only [if_pos h]
    refine ⟨by omega, by omega, ?_⟩
    have : L + (B - r + B) = B * (q + 2) := by
      rw [Nat.mul_add, ← hdiv]; omega
    rw [this]; exact Nat.mul_mod_right _ _
  · simp only [if_neg h]
    refine ⟨by omega, by omega, ?_⟩
    have : L + (B - r) = B * (q + 1) := by
      rw [Nat.mul_add, ← hdiv]; omega
    rw [this]; exact Nat.mul_mod_right _ _

/-- The five writes of a padding function into the zero-filled tail of the
buffer. -/
theorem tail_writes (q m a b c d : Nat) :
    (((((List.replicate (q + 5) 0).set 0 m).set (q + 1) a).set (q + 2) b).set (q + 3) c).set
      (q + 4) d = m :: (List.replicate q 0 ++ [a, b, c, d]) := by
  have h : List.replicate (q + 5) 0 = 0 :: (List.replicate q 0 ++ [0, 0, 0, 0]) := by
    rw [List.replicate_succ, List.replicate_add]; rfl
  rw [h]
  simp [List.set_append_right]

/-- Closed form of the padded message: the message, the marker byte, zero
bytes, and the four length bytes. -/
theorem padding_shape_eq (B R : Nat) (hB : 0 < B) (hR5 : 5 ≤ R) (hR : R ≤ B + 1) (msg : List Nat) :
    padding_shape B R msg =
      msg ++ 0x80 :: (List.replicate (padlen B R msg.length - 5) 0 ++ length_bytes msg.length) := by
  obtain ⟨h1, -, -⟩ := padlen_bounds B R msg.length hB (by omega) hR
  have hp : (if B - msg.length % B < R then B - msg.length % B + B else B - msg.length % B)
      = padlen B R msg.length := rfl
  simp only [padding_shape, copy, length_bytes, hp]
  generalize padlen B R msg.length = p at h1 ⊢
  obtain ⟨q, rfl⟩ : ∃ q, p = q + 5 := ⟨p - 5, by omega⟩
  have e0 : msg.length + (q + 5) - msg.length = q + 5 := by omega
  have e1 : msg.length + (q + 5) - 4 - msg.length = q + 1 := by omega
  have e2 : msg.length + (q + 5) - 3 - msg.length = q + 2 := by omega
  have e3 : msg.length + (q + 5) - 2 - msg.length = q + 3 := by omega
  have e4 : msg.length + (q + 5) - 1 - msg.length = q + 4 := by omega
  rw [List.drop_replicate, e0,
    List.set_append_right _ _ (Nat.le_refl _),
    List.set_append_right _ _ (by omega), List.set_append_right _ _ (by omega),
    List.set_append_right _ _ (by omega), List.set_append_right _ _ (by omega),
    Nat.sub_self, e1, e2, e3, e4, tail_writes]
  simp

/-- Length of the padded message. -/
theorem padding_shape_length (B R : Nat) (hB : 0 < B) (hR5 : 5 ≤ R) (hR : R ≤ B + 1)
    (msg : List Nat) : (padding_shape B R msg).length = msg.length + padlen B R msg.length := by
  obtain ⟨h1, -, -⟩ := padlen_bounds B R msg.length hB (by omega) hR
  rw [padding_shape_eq B R hB hR5 hR]
  simp [length_bytes]
  omega

/-- The message is a prefix of the padded message. -/
theorem padding_shape_take (B R : Nat) (hB : 0 < B) (hR5 : 5 ≤ R) (hR : R ≤ B + 1)
    (msg : List Nat) : (padding_shape B R msg).take msg.length = msg := by
  rw [padding_shape_eq B R hB hR5 hR, List.take_left]

/-- The marker byte follows the message. -/
theorem padding_shape_marker (B R : Nat) (hB : 0 < B) (hR5 : 5 ≤ R) (hR : R ≤ B + 1)
    (msg : List Nat) : (padding_shape B R msg)[msg.length]? = some 0x80 := by
  rw [padding_shape_eq B R hB hR5 hR, List.getElem?_append_right (Nat.le_refl _)]
  simp

/-- Every byte after the marker and before the four length bytes is zero. -/
theorem padding_shape_zero (B R : Nat) (hB : 0 < B) (hR5 : 5 ≤ R) (hR : R ≤ B + 1)
    (msg : List Nat) (i : Nat) (h1 : msg.length < i)
    (h2 : i < (padding_shape B R msg).length - 4) : (padding_shape B R msg)[i]? = some 0 := by
  rw [padding_shape_length B R hB hR5 hR] at h2
  rw [padding_shape_eq B R hB hR5 hR, List.getElem?_append_right (Nat.le_of_lt h1)]
  obtain ⟨k, hk⟩ : ∃ k, i - msg.length = k + 1 := ⟨i - msg.length - 1, by omega⟩
  rw [hk, List.getElem?_cons_succ, List.getElem?_append_left (by simp; omega)]
  exact List.getElem?_replicate_of_lt (by omega)

/-- The last eight bytes of the padded message: four zero bytes, then the
four length bytes. -/
theorem padding_shape_last8 (B R : Nat) (hB : 0 < B) (hR9 : 9 ≤ R) (hR : R ≤ B + 1)
    (msg : List Nat) :
    (padding_shape B R msg).drop ((padding_shape B R msg).length - 8) =
      [0, 0, 0, 0] ++ length_bytes msg.length := by
  obtain ⟨h1, -, -⟩ := padlen_bounds B R msg.length hB (by omega) hR
  rw [padding_shape_length B R hB (by omega) hR, padding_shape_eq B R hB (by omega) hR]
  generalize padlen B R msg.length = p at h1 ⊢
  obtain ⟨q, rfl⟩ : ∃ q, p = q + 9 := ⟨p - 9, by omega⟩
  have e1 : msg.length + (q + 9) - 8 = msg.length + (q + 1) := by omega
  have e2 : q + 9 - 5 = q + 4 := by omega
  rw [e1, List.drop_append, e2, List.drop_succ_cons, List.replicate_add, List.append_assoc,
    List.drop_left' (List.length_replicate _ _)]
  rfl

/-- Below `2 ^ 32` bits the last eight bytes of the padded message are the
64-bit big-endian encoding of the bit length. -/
theorem padding_shape_last8_small (B R : Nat) (hB : 0 < B) (hR9 : 9 ≤ R) (hR : R ≤ B + 1)
    (msg : List Nat) (hlen : msg.length * 8 < 2 ^ 32) :
    (padding_shape B R msg).drop ((padding_shape B R msg).length - 8) =
      be64 (msg.length * 8) := by
  rw [padding_shape_last8 B R hB hR9 hR]
  unfold length_bytes
  generalize msg.length * 8 = n at hlen ⊢
  have h64 : n % 2 ^ 64 = n := Nat.mod_eq_of_lt (by omega)
  simp only [be64, h64, Nat.shiftRight_eq_div_pow, List.cons_append,
    List.nil_append]
  have h56 : n / 2 ^ 56 % 256 = 0 := by omega
  have h48 : n / 2 ^ 48 % 256 = 0 := by omega
  have h40 : n / 2 ^ 40 % 256 = 0 := by omega
  have h32 : n / 2 ^ 32 % 256 = 0 := by omega
  rw [h56, h48, h40, h32]

/-- The last eight bytes of the padded form of a message of `2 ^ 29` bytes
are all zero. -/
theorem padding_shape_last8_overflow (B R : Nat) (hB : 0 < B) (hR9 : 9 ≤ R) (hR : R ≤ B + 1)
    (msg : List Nat) (hlen : msg.length = 2 ^ 29) :
    (padding_shape B R msg).drop ((padding_shape B R msg).length - 8) =
      [0, 0, 0, 0, 0, 0, 0, 0] := by
  rw [padding_shape_last8 B R hB hR9 hR, hlen]
  decide

/-! ## Digest length -/

/-- The digest buffer of `SHA1::hash` keeps its 20 cells. -/
theorem sha1_digest_length (H : List Nat) : (SHA1.digest H).length = 20 := by
  unfold SHA1.digest
  rw [show List.range 5 = [0, 1, 2, 3, 4] from rfl]
  simp

/-- The digest buffer of `SHA256::hash` keeps its 32 cells. -/
theorem sha256_digest_length (H : List Nat) : (SHA256.digest H).length = 32 := by
  unfold SHA256.digest
  rw [show List.range 8 = [0, 1, 2, 3, 4, 5, 6, 7] from rfl]
  simp

/-- The digest buffer of `SHA512::hash` keeps its 64 cells. -/
theorem sha512_digest_length (H : List Nat) : (SHA512.digest H).length = 64 := by
  unfold SHA512.digest
  rw [show List.range 8 = [0, 1, 2, 3, 4, 5, 6, 7] from rfl]
  simp

/-- C7: for every byte sequence `m`, the empty one included, the digest has
a fixed length: 20 bytes for `SHA1::hash`, 32 bytes for `SHA256::hash` and 64
bytes for `SHA512::hash`. -/
theorem digest_length_fixed (m : List Nat) :
    (SHA1.hash m).length = 20 ∧ (SHA256.hash m).length = 32 ∧ (SHA512.hash m).length = 64 :=
  ⟨sha1_digest_length _, sha256_digest_length _, sha512_digest_length _⟩

/-! ## Padding: length and layout -/

/-- C8: the length of the padded message is the least multiple of the block
size (64 for SHA-1 and SHA-256, 128 for SHA-512) that is at least `L + 9`
(resp. `L + 17`), where `L` is the length of the message; it is a positive
multiple of the block size and exceeds `L`. -/
theorem padded_length_least_multiple (m : List Nat) :
    ((SHA1.padding m).length % 64 = 0 ∧ m.length + 9 ≤ (SHA1.padding m).length ∧
      (∀ n, n % 64 = 0 → m.length + 9 ≤ n → (SHA1.padding m).length ≤ n) ∧
      0 < (SHA1.padding m).length ∧ m.length < (SHA1.padding m).length) ∧
    ((SHA256.padding m).length % 64 = 0 ∧ m.length + 9 ≤ (SHA256.padding m).length ∧
      (∀ n, n % 64 = 0 → m.length + 9 ≤ n → (SHA256.padding m).length ≤ n) ∧
      0 < (SHA256.padding m).length ∧ m.length < (SHA256.padding m).length) ∧
    ((SHA512.padding m).length % 128 = 0 ∧ m.length + 17 ≤ (SHA512.padding m).length ∧
      (∀ n, n % 128 = 0 → m.length + 17 ≤ n → (SHA512.padding m).length ≤ n) ∧
      0 < (SHA512.padding m).length ∧ m.length < (SHA512.padding m).length) := by
  have h64 := padlen_bounds 64 9 m.length (by decide) (by decide) (by decide)
  have h128 := padlen_bounds 128 17 m.length (by decide) (by decide) (by decide)
  rw [sha1_padding_eq_shape, sha256_padding_eq_shape, sha512_padding_eq_shape,
    padding_shape_length 64 9 (by decide) (by decide) (by decide),
    padding_shape_length 128 17 (by decide) (by decide) (by decide)]
  refine ⟨⟨h64.2.2, by omega, fun n h1 h2 => by omega, by omega, by omega⟩,
    ⟨h64.2.2, by omega, fun n h1 h2 => by omega, by omega, by omega⟩,
    ⟨h128.2.2, by omega, fun n h1 h2 => by omega, by omega, by omega⟩⟩

/-- C9: in each of the three engines the padded message begins with the
bytes of the message `m`, has the byte `0x80` at index `L = m.length`, and is
zero at every index after `L` and before the length field (the final 8 bytes
for SHA-1 and SHA-256, the final 16 bytes for SHA-512). -/
theorem padded_layout (m : List Nat) :
    ((SHA1.padding m).take m.length = m ∧ (SHA1.padding m)[m.length]? = some 0x80 ∧
      ∀ i, m.length < i → i < (SHA1.padding m).length - 8 → (SHA1.padding m)[i]? = some 0x00) ∧
    ((SHA256.padding m).take m.length = m ∧ (SHA256.padding m)[m.length]? = some 0x80 ∧
      ∀ i, m.length < i → i < (SHA256.padding m).length - 8 →
        (SHA256.padding m)[i]? = some 0x00) ∧
    ((SHA512.padding m).take m.length = m ∧ (SHA512.padding m)[m.length]? = some 0x80 ∧
      ∀ i, m.length < i → i < (SHA512.padding m).length - 16 →
        (SHA512.padding m)[i]? = some 0x00) := by
  rw [sha1_padding_eq_shape, sha256_padding_eq_shape, sha512_padding_eq_shape]
  refine ⟨⟨padding_shape_take 64 9 (by decide) (by decide) (by decide) m,
      padding_shape_marker 64 9 (by decide) (by decide) (by decide) m, fun i h1 h2 =>
      padding_shape_zero 64 9 (by decide) (by decide) (by decide) m i h1 (by omega)⟩,
    ⟨padding_shape_take 64 9 (by decide) (by decide) (by decide) m,
      padding_shape_marker 64 9 (by decide) (by decide) (by decide) m, fun i h1 h2 =>
      padding_shape_zero 64 9 (by decide) (by decide) (by decide) m i h1 (by omega)⟩,
    ⟨padding_shape_take 128 17 (by decide) (by decide) (by decide) m,
      padding_shape_marker 128 17 (by decide) (by decide) (by decide) m, fun i h1 h2 =>
      padding_shape_zero 128 17 (by decide) (by decide) (by decide) m i h1 (by omega)⟩⟩

/-- C10, evaluated on a message of `2 ^ 29` zero bytes (bit length `2 ^ 32`,
far below `2 ^ 64`): the final 8 bytes of the padded message of
`SHA1::padding` and of `SHA256::padding` are all zero, whereas the 64-bit
big-endian encoding of the bit length is `00 00 00 01 00 00 00 00`.  Only
bits 31..0 of the bit length are written. -/
theorem padding_length_field_truncated :
    (List.replicate (2 ^ 29) 0).length * 8 = 2 ^ 32 ∧
    (SHA1.padding (List.replicate (2 ^ 29) 0)).drop
      ((SHA1.padding (List.replicate (2 ^ 29) 0)).length - 8) = [0, 0, 0, 0, 0, 0, 0, 0] ∧
    (SHA256.padding (List.replicate (2 ^ 29) 0)).drop
      ((SHA256.padding (List.replicate (2 ^ 29) 0)).length - 8) = [0, 0, 0, 0, 0, 0, 0, 0] ∧
    be64 (2 ^ 32) = [0, 0, 0, 1, 0, 0, 0, 0] := by
  have hlen : (List.replicate (2 ^ 29) 0).length = 2 ^ 29 := List.length_replicate _ _
  generalize List.replicate (2 ^ 29) 0 = msg at hlen ⊢
  rw [sha1_padding_eq_shape, sha256_padding_eq_shape, hlen]
  exact ⟨by decide,
    padding_shape_last8_overflow 64 9 (by decide) (by decide) (by decide) msg hlen,
    padding_shape_last8_overflow 64 9 (by decide) (by decide) (by decide) msg hlen,
    by decide⟩

/-! ## Length field of SHA-512, string overload, round selection, block count -/

/-- The last sixteen bytes of the padded message when at least 17 bytes are
reserved: twelve zero bytes, then the four length bytes. -/
theorem padding_shape_last16 (B R : Nat) (hB : 0 < B) (hR17 : 17 ≤ R) (hR : R ≤ B + 1)
    (msg : List Nat) :
    (padding_shape B R msg).drop ((padding_shape B R msg).length - 16) =
      List.replicate 12 0 ++ length_bytes msg.length := by
  obtain ⟨h1, -, -⟩ := padlen_bounds B R msg.length hB (by omega) hR
  rw [padding_shape_length B R hB (by omega) hR, padding_shape_eq B R hB (by omega) hR]
  generalize padlen B R msg.length = p at h1 ⊢
  obtain ⟨q, rfl⟩ : ∃ q, p = q + 17 := ⟨p - 17, by omega⟩
  have e1 : msg.length + (q + 17) - 16 = msg.length + (q + 1) := by omega
  have e2 : q + 17 - 5 = q + 12 := by omega
  rw [e1, List.drop_append, e2, List.drop_succ_cons, List.replicate_add, List.append_assoc,
    List.drop_left' (List.length_replicate _ _)]

/-- The last sixteen bytes of the padded form of a message of `2 ^ 29` bytes
are all zero. -/
theorem padding_shape_last16_overflow (B R : Nat) (hB : 0 < B) (hR17 : 17 ≤ R)
    (hR : R ≤ B + 1) (msg : List Nat) (hlen : msg.length = 2 ^ 29) :
    (padding_shape B R msg).drop ((padding_shape B R msg).length - 16) =
      List.replicate 16 0 := by
  rw [padding_shape_last16 B R hB hR17 hR, hlen]
  decide

/-- C11, evaluated on a message of `2 ^ 29` zero bytes (bit length `2 ^ 32`,
far below `2 ^ 64`): the final 16 bytes of the padded message of
`SHA512::padding` are all zero, whereas 8 zero bytes followed by the 64-bit
big-endian encoding of the bit length end in `00 00 00 01 00 00 00 00`.  Only
bits 31..0 of the bit length are written. -/
theorem sha512_length_field_truncated :
    (List.replicate (2 ^ 29) 0).length * 8 = 2 ^ 32 ∧
    (SHA512.padding (List.replicate (2 ^ 29) 0)).drop
      ((SHA512.padding (List.replicate (2 ^ 29) 0)).length - 16) =
      [0, 0, 0, 0, 0, 0, 0, 0, 0, 0, 0, 0, 0, 0, 0, 0] ∧
    List.replicate 8 0 ++ be64 (2 ^ 32) = [0, 0, 0, 0, 0, 0, 0, 0, 0, 0, 0, 1, 0, 0, 0, 0] := by
  have hlen : (List.replicate (2 ^ 29) 0).length = 2 ^ 29 := List.length_replicate _ _
  generalize List.replicate (2 ^ 29) 0 = msg at hlen ⊢
  rw [sha512_padding_eq_shape, hlen]
  exact ⟨by decide,
    padding_shape_last16_overflow 128 17 (by decide) (by decide) (by decide) msg hlen,
    by decide⟩

/-- The byte vector built by the `std::string` overloads: one byte per
character, its value modulo 256. -/
theorem string_bytes_eq_map (s : List Int) :
    string_bytes s = s.map fun c : Int => (c % 256).toNat := by
  simp [string_bytes, copy]

/-- C12: for every string `s` and each engine, the `std::string` overload of
`hash` equals the byte-sequence overload on the byte vector `b` that has the
length of `s` and holds at index `i` the value of character `s[i]` as one
unsigned byte (its value modulo 256). -/
theorem hash_string_eq_hash_bytes (s : List Int) :
    (s.map fun c : Int => (c % 256).toNat).length = s.length ∧
    (∀ i : Nat, (s.map fun c : Int => (c % 256).toNat)[i]? =
      s[i]?.map fun c : Int => (c % 256).toNat) ∧
    (∀ b ∈ s.map fun c : Int => (c % 256).toNat, b < 256) ∧
    SHA1.hash_string s = SHA1.hash (s.map fun c : Int => (c % 256).toNat) ∧
    SHA256.hash_string s = SHA256.hash (s.map fun c : Int => (c % 256).toNat) ∧
    SHA512.hash_string s = SHA512.hash (s.map fun c : Int => (c % 256).toNat) := by
  refine ⟨List.length_map _ _, fun i => List.getElem?_map _ _ _, ?_, ?_, ?_, ?_⟩
  · intro b hb
    obtain ⟨c, -, rfl⟩ := List.mem_map.1 hb
    have h1 : 0 ≤ c % 256 := Int.emod_nonneg c (by decide)
    have h2 : c % 256 < 256 := Int.emod_lt_of_pos c (by decide)
    omega
  · rw [SHA1.hash_string, string_bytes_eq_map]
  · rw [SHA256.hash_string, string_bytes_eq_map]
  · rw [SHA512.hash_string, string_bytes_eq_map]

/-- C14: for every round index `t` (in particular `0 <= t <= 79`) and all
words `x`, `y`, `z`, `SHA1::f` is `ch` for `t <= 19`, `parity` for
`20 <= t <= 39`, `maj` for `40 <= t <= 59` and `parity` for `60 <= t <= 79`,
and `SHA1::K` is `0x5a827999`, `0x6ed9eba1`, `0x8f1bbcdc`, `0xca62c1d6` on
the same four ranges. -/
theorem sha1_round_selection (t x y z : Nat) :
    (t ≤ 19 → SHA1.f t x y z = ch 32 x y z ∧ SHA1.K t = 0x5A827999) ∧
    (20 ≤ t ∧ t ≤ 39 → SHA1.f t x y z = parity x y z ∧ SHA1.K t = 0x6ED9EBA1) ∧
    (40 ≤ t ∧ t ≤ 59 → SHA1.f t x y z = maj x y z ∧ SHA1.K t = 0x8F1BBCDC) ∧
    (60 ≤ t ∧ t ≤ 79 → SHA1.f t x y z = parity x y z ∧ SHA1.K t = 0xCA62C1D6) := by
  refine ⟨fun h => ?_, fun h => ?_, fun h => ?_, fun h => ?_⟩
  · simp [SHA1.f, SHA1.K, h]
  · have h1 : ¬ t ≤ 19 := by omega
    simp [SHA1.f, SHA1.K, h1, h]
  · have h1 : ¬ t ≤ 19 := by omega
    have h2 : ¬ (20 ≤ t ∧ t ≤ 39) := by omega
    simp [SHA1.f, SHA1.K, h1, h2, h]
  · have h1 : ¬ t ≤ 19 := by omega
    have h2 : ¬ (20 ≤ t ∧ t ≤ 39) := by omega
    have h3 : ¬ (40 ≤ t ∧ t ≤ 59) := by omega
    simp [SHA1.f, SHA1.K, h1, h2, h3]

/-- Number of blocks of the padded message, in terms of the block size and
the reserve. -/
theorem padding_shape_blocks (B R : Nat) (hB : 0 < B) (hR5 : 5 ≤ R) (hR : R ≤ B + 1)
    (msg : List Nat) :
    (padding_shape B R msg).length / B =
      if msg.length % B + R ≤ B then msg.length / B + 1 else msg.length / B + 2 := by
  rw [padding_shape_length B R hB hR5 hR]
  have hmod : msg.length % B < B := Nat.mod_lt _ hB
  have hdiv : B * (msg.length / B) + msg.length % B = msg.length := Nat.div_add_mod _ B
  unfold padlen
  generalize msg.length % B = r at hmod hdiv ⊢
  generalize msg.length / B = q at hdiv ⊢
  by_cases h : B - r < R
  · have h' : ¬ r + R ≤ B := by omega
    rw [if_pos h, if_neg h']
    have e : msg.length + (B - r + B) = B * (q + 2) := by
      rw [Nat.mul_add, ← hdiv]; omega
    rw [e, Nat.mul_div_cancel_left _ hB]
  · have h' : r + R ≤ B := by omega
    rw [if_neg h, if_pos h']
    have e : msg.length + (B - r) = B * (q + 1) := by
      rw [Nat.mul_add, ← hdiv]; omega
    rw [e, Nat.mul_div_cancel_left _ hB]

/-- C17: the number of blocks processed by the compression loop (padded
length divided by the block size) is `L / 64 + 1` when `L % 64 <= 55` and
`L / 64 + 2` when `L % 64 >= 56` for SHA-1 and SHA-256, and `L / 128 + 1`
when `L % 128 <= 111` and `L / 128 + 2` when `L % 128 >= 112` for SHA-512.
The empty message and "abc" give one block; the 56-byte and 112-byte test
messages give two. -/
theorem block_count (m : List Nat) :
    ((SHA1.padding m).length / 64 =
      if m.length % 64 ≤ 55 then m.length / 64 + 1 else m.length / 64 + 2) ∧
    ((SHA256.padding m).length / 64 =
      if m.length % 64 ≤ 55 then m.length / 64 + 1 else m.length / 64 + 2) ∧
    ((SHA512.padding m).length / 128 =
      if m.length % 128 ≤ 111 then m.length / 128 + 1 else m.length / 128 + 2) ∧
    ((SHA1.padding []).length / 64 = 1 ∧ (SHA256.padding []).length / 64 = 1 ∧
      (SHA512.padding []).length / 128 = 1) ∧
    ((SHA1.padding (string_bytes (ascii "abc"))).length / 64 = 1 ∧
      (SHA256.padding (string_bytes (ascii "abc"))).length / 64 = 1 ∧
      (SHA512.padding (string_bytes (ascii "abc"))).length / 128 = 1) ∧
    ((SHA1.padding (string_bytes (ascii message_56))).length / 64 = 2 ∧
      (SHA256.padding (string_bytes (ascii message_56))).length / 64 = 2 ∧
      (SHA512.padding (string_bytes (ascii message_112))).length / 128 = 2) := by
  have h64 := padding_shape_blocks 64 9 (by decide) (by decide) (by decide) m
  have h128 := padding_shape_blocks 128 17 (by decide) (by decide) (by decide) m
  refine ⟨?_, ?_, ?_, by decide, by decide, by decide⟩
  · rw [sha1_padding_eq_shape, h64]; split_ifs <;> first | rfl | omega
  · rw [sha256_padding_eq_shape, h64]; split_ifs <;> first | rfl | omega
  · rw [sha512_padding_eq_shape, h128]; split_ifs <;> first | rfl | omega

/-! ## Bit primitives -/

/-- Truncation to `w` bits distributes over bitwise or. -/
theorem or_mod_two_pow_distrib (a b w : Nat) :
    (a ||| b) % 2 ^ w = (a % 2 ^ w) ||| (b % 2 ^ w) := by
  apply Nat.eq_of_testBit_eq
  intro i
  simp only [Nat.testBit_mod_two_pow, Nat.testBit_or]
  cases decide (i < w) <;> simp

/-- A right shift of a `w`-bit value is a `w`-bit value. -/
theorem shiftRight_mod_of_lt (x k w : Nat) (hx : x < 2 ^ w) : (x >>> k) % 2 ^ w = x >>> k := by
  apply Nat.mod_eq_of_lt
  rw [Nat.shiftRight_eq_div_pow]
  exact Nat.lt_of_le_of_lt (Nat.div_le_self _ _) hx

/-- The complementary shift amount `(w - 1) & (-n)` of `rotl` and `rotr`. -/
theorem compl_shift (w n : Nat) (hw : w = 32 ∨ w = 64) (hn : n < w) :
    (w - 1) &&& ((2 ^ 32 - n % 2 ^ 32) % 2 ^ 32) = (w - n) % w := by
  rcases hw with rfl | rfl
  · rw [Nat.land_comm, show 32 - 1 = 2 ^ 5 - 1 from rfl, Nat.and_pow_two_sub_one_eq_mod]
    omega
  · rw [Nat.land_comm, show 64 - 1 = 2 ^ 6 - 1 from rfl, Nat.and_pow_two_sub_one_eq_mod]
    omega

/-- C13: for word width `w` in {32, 64}, every `w`-bit `x` and every shift
`n < w`: the complementary shift amount `(w - 1) & (-n)` lies in `0..w-1` and
equals `(w - n) mod w` (so it is `0`, not `w`, for `n = 0`); for `0 < n`,
`rotl(x, n)` is `(x << n) | (x >> (w - n))` truncated to `w` bits and
`rotr(x, n)` is `(x >> n) | (x << (w - n))` truncated to `w` bits; for
`n = 0` both return `x`. -/
theorem rotate_spec (w x n : Nat) (hw : w = 32 ∨ w = 64) (hx : x < 2 ^ w) (hn : n < w) :
    ((w - 1) &&& ((2 ^ 32 - n % 2 ^ 32) % 2 ^ 32) < w ∧
      (w - 1) &&& ((2 ^ 32 - n % 2 ^ 32) % 2 ^ 32) = (w - n) % w) ∧
    (0 < n → rotl w x n = ((x <<< n) ||| (x >>> (w - n))) % 2 ^ w ∧
      rotr w x n = ((x >>> n) ||| (x <<< (w - n))) % 2 ^ w) ∧
    (n = 0 → rotl w x n = x ∧ rotr w x n = x) := by
  have hc := compl_shift w n hw hn
  have hw0 : 0 < w := by omega
  refine ⟨⟨?_, hc⟩, fun h0 => ?_, fun h0 => ?_⟩
  · rw [hc]; exact Nat.mod_lt _ hw0
  · have e : (w - n) % w = w - n := Nat.mod_eq_of_lt (by omega)
    unfold rotl rotr
    rw [hc, e, or_mod_two_pow_distrib, or_mod_two_pow_distrib, shiftRight_mod_of_lt _ _ _ hx,
      shiftRight_mod_of_lt _ _ _ hx]
    exact ⟨rfl, rfl⟩
  · subst h0
    unfold rotl rotr
    rw [hc, Nat.sub_zero, Nat.mod_self]
    simp [Nat.mod_eq_of_lt hx]

/-- Witness of `rotate_spec`: a 32-bit word rotated by one position. -/
theorem rotate_spec_witness :
    (32 = 32 ∨ 32 = 64) ∧ 0x80000001 < 2 ^ 32 ∧ 1 < 32 ∧
    (31 &&& ((2 ^ 32 - 1 % 2 ^ 32) % 2 ^ 32) < 32 ∧
      31 &&& ((2 ^ 32 - 1 % 2 ^ 32) % 2 ^ 32) = (32 - 1) % 32) ∧
    (0 < 1 → rotl 32 0x80000001 1 = ((0x80000001 <<< 1) ||| (0x80000001 >>> (32 - 1))) % 2 ^ 32 ∧
      rotr 32 0x80000001 1 = ((0x80000001 >>> 1) ||| (0x80000001 <<< (32 - 1))) % 2 ^ 32) ∧
    (1 = 0 → rotl 32 0x80000001 1 = 0x80000001 ∧ rotr 32 0x80000001 1 = 0x80000001) :=
  ⟨Or.inl rfl, by decide, by decide,
    rotate_spec 32 0x80000001 1 (Or.inl rfl) (by decide) (by decide)⟩

/-- Bit `k` of `ch`. -/
theorem testBit_ch (w x y z k : Nat) (hx : x < 2 ^ w) (hz : z < 2 ^ w) :
    (ch w x y z).testBit k = if x.testBit k then y.testBit k else z.testBit k := by
  unfold ch
  rw [show 2 ^ w - 1 - x = 2 ^ w - (x + 1) by omega]
  simp only [Nat.testBit_xor, Nat.testBit_and, Nat.testBit_two_pow_sub_succ hx]
  by_cases hk : k < w
  · cases x.testBit k <;> simp [hk]
  · have hxk : x.testBit k = false :=
      Nat.testBit_lt_two_pow (Nat.lt_of_lt_of_le hx (Nat.pow_le_pow_right (by decide) (by omega)))
    have hzk : z.testBit k = false :=
      Nat.testBit_lt_two_pow (Nat.lt_of_lt_of_le hz (Nat.pow_le_pow_right (by decide) (by omega)))
    simp [hk, hxk, hzk]

/-- C19: for `w`-bit `x`, `y`, `z` (any width `w`, in particular 32 and 64)
`ch(x, y, z)` is the bitwise choice: bit `k` of the result is bit `k` of `y`
when bit `k` of `x` is 1 and bit `k` of `z` when it is 0; equivalently
`ch(x, y, z) = (x & y) | (~x & z)`; and `ch(0, y, z) = z`,
`ch(all-ones, y, z) = y`. -/
theorem ch_spec (w x y z : Nat) (hx : x < 2 ^ w) (hy : y < 2 ^ w) (hz : z < 2 ^ w) :
    (∀ k, (ch w x y z).testBit k = if x.testBit k then y.testBit k else z.testBit k) ∧
    ch w x y z = (x &&& y) ||| ((2 ^ w - 1 - x) &&& z) ∧
    ch w 0 y z = z ∧ ch w (2 ^ w - 1) y z = y := by
  have hpos : 0 < 2 ^ w := Nat.two_pow_pos w
  refine ⟨fun k => testBit_ch w x y z k hx hz, ?_, ?_, ?_⟩
  · apply Nat.eq_of_testBit_eq
    intro k
    rw [testBit_ch w x y z k hx hz, show 2 ^ w - 1 - x = 2 ^ w - (x + 1) by omega]
    simp only [Nat.testBit_or, Nat.testBit_and, Nat.testBit_two_pow_sub_succ hx]
    by_cases hk : k < w
    · cases x.testBit k <;> simp [hk]
    · have hxk : x.testBit k = false :=
        Nat.testBit_lt_two_pow
          (Nat.lt_of_lt_of_le hx (Nat.pow_le_pow_right (by decide) (by omega)))
      have hzk : z.testBit k = false :=
        Nat.testBit_lt_two_pow
          (Nat.lt_of_lt_of_le hz (Nat.pow_le_pow_right (by decide) (by omega)))
      simp [hk, hxk, hzk]
  · apply Nat.eq_of_testBit_eq
    intro k
    rw [testBit_ch w 0 y z k hpos hz]
    simp
  · apply Nat.eq_of_testBit_eq
    intro k
    rw [testBit_ch w (2 ^ w - 1) y z k (by omega) hz, Nat.testBit_two_pow_sub_one]
    by_cases hk : k < w
    · simp [hk]
    · have hyk : y.testBit k = false :=
        Nat.testBit_lt_two_pow
          (Nat.lt_of_lt_of_le hy (Nat.pow_le_pow_right (by decide) (by omega)))
      have hzk : z.testBit k = false :=
        Nat.testBit_lt_two_pow
          (Nat.lt_of_lt_of_le hz (Nat.pow_le_pow_right (by decide) (by omega)))
      simp [hk, hyk, hzk]

/-- Witness of `ch_spec` on three 32-bit words. -/
theorem ch_spec_witness :
    0xF0F0F0F0 < 2 ^ 32 ∧ 0x12345678 < 2 ^ 32 ∧ 0x9ABCDEF0 < 2 ^ 32 ∧
    (∀ k, (ch 32 0xF0F0F0F0 0x12345678 0x9ABCDEF0).testBit k =
      if (0xF0F0F0F0 : Nat).testBit k then (0x12345678 : Nat).testBit k
      else (0x9ABCDEF0 : Nat).testBit k) ∧
    ch 32 0xF0F0F0F0 0x12345678 0x9ABCDEF0 =
      (0xF0F0F0F0 &&& 0x12345678) ||| ((2 ^ 32 - 1 - 0xF0F0F0F0) &&& 0x9ABCDEF0) ∧
    ch 32 0 0x12345678 0x9ABCDEF0 = 0x9ABCDEF0 ∧
    ch 32 (2 ^ 32 - 1) 0x12345678 0x9ABCDEF0 = 0x12345678 :=
  ⟨by decide, by decide, by decide,
    ch_spec 32 0xF0F0F0F0 0x12345678 0x9ABCDEF0 (by decide) (by decide) (by decide)⟩

/-- Bit `k` of `maj`. -/
theorem testBit_maj (x y z k : Nat) :
    (maj x y z).testBit k =
      ((x.testBit k && y.testBit k) || (y.testBit k && z.testBit k) ||
        (z.testBit k && x.testBit k)) := by
  unfold maj
  simp only [Nat.testBit_xor, Nat.testBit_and]
  cases x.testBit k <;> cases y.testBit k <;> cases z.testBit k <;> rfl

/-- C20: `maj(x, y, z)` is the bitwise majority, for all words (in
particular 32-bit and 64-bit ones): bit `k` of the result is 1 exactly when
at least two of bit `k` of `x`, `y`, `z` are 1; equivalently
`maj(x, y, z) = (x & y) | (y & z) | (z & x)`; and `maj` is invariant under
every permutation of its three arguments. -/
theorem maj_spec (x y z : Nat) :
    (∀ k, (maj x y z).testBit k = true ↔
      2 ≤ (x.testBit k).toNat + (y.testBit k).toNat + (z.testBit k).toNat) ∧
    maj x y z = (x &&& y) ||| (y &&& z) ||| (z &&& x) ∧
    maj x y z = maj x z y ∧ maj x y z = maj y x z ∧ maj x y z = maj y z x ∧
    maj x y z = maj z x y ∧ maj x y z = maj z y x := by
  refine ⟨fun k => ?_, ?_, ?_, ?_, ?_, ?_, ?_⟩
  · rw [testBit_maj]
    cases x.testBit k <;> cases y.testBit k <;> cases z.testBit k <;> decide
  all_goals
    apply Nat.eq_of_testBit_eq
    intro k
    simp only [testBit_maj, Nat.testBit_or, Nat.testBit_and] <;>
      (cases x.testBit k <;> cases y.testBit k <;> cases z.testBit k <;> rfl)

/-! ## Digest assembly -/

/-- Four bytes cut from a 32-bit word and read back big-endian give the word. -/
theorem be_value_word32 (h : Nat) (hh : h < 2 ^ 32) :
    be_value [(h >>> 24) % 256, (h >>> 16) % 256, (h >>> 8) % 256, h % 256] = h := by
  simp only [be_value, List.foldl, Nat.shiftRight_eq_div_pow]
  omega

/-- Eight bytes cut from a 64-bit word and read back big-endian give the word. -/
theorem be_value_word64 (h : Nat) (hh : h < 2 ^ 64) :
    be_value [(h >>> 56) % 256, (h >>> 48) % 256, (h >>> 40) % 256, (h >>> 32) % 256,
      (h >>> 24) % 256, (h >>> 16) % 256, (h >>> 8) % 256, h % 256] = h := by
  simp only [be_value, List.foldl, Nat.shiftRight_eq_div_pow]
  omega

/-- A loop whose body always yields a well-formed hash value ends in one. -/
theorem foldl_is_state {n w : Nat} (g : List Nat → Nat → List Nat)
    (hg : ∀ H i, is_state n w (g H i)) (l : List Nat) (H : List Nat) (hH : is_state n w H) :
    is_state n w (l.foldl g H) := by
  induction l generalizing H with
  | nil => exact hH
  | cons a l ih => exact ih _ (hg H a)

/-- Closed form of the digest loop of `SHA1::hash`. -/
theorem sha1_digest_eq (H : List Nat) :
    SHA1.digest H =
      [(H.getD 0 0 >>> 24) % 256, (H.getD 0 0 >>> 16) % 256, (H.getD 0 0 >>> 8) % 256,
       H.getD 0 0 % 256,
       (H.getD 1 0 >>> 24) % 256, (H.getD 1 0 >>> 16) % 256, (H.getD 1 0 >>> 8) % 256,
       H.getD 1 0 % 256,
       (H.getD 2 0 >>> 24) % 256, (H.getD 2 0 >>> 16) % 256, (H.getD 2 0 >>> 8) % 256,
       H.getD 2 0 % 256,
       (H.getD 3 0 >>> 24) % 256, (H.getD 3 0 >>> 16) % 256, (H.getD 3 0 >>> 8) % 256,
       H.getD 3 0 % 256,
       (H.getD 4 0 >>> 24) % 256, (H.getD 4 0 >>> 16) % 256, (H.getD 4 0 >>> 8) % 256,
       H.getD 4 0 % 256] := by
  unfold SHA1.digest
  rw [show List.range 5 = [0, 1, 2, 3, 4] from rfl,
    show List.replicate 20 0 = [0, 0, 0, 0, 0, 0, 0, 0, 0, 0, 0, 0, 0, 0, 0, 0, 0, 0, 0,
      0] from rfl]
  simp only [List.foldl, Nat.zero_mul, Nat.one_mul, Nat.zero_add, Nat.add_zero, Nat.reduceMul,
    Nat.reduceAdd, List.set_cons_zero, List.set_cons_succ]

/-- Every chunk of `SHA1::hash` leaves 5 words of 32 bits. -/
theorem sha1_chunk_is_state (P H : List Nat) (i : Nat) :
    is_state 5 32 (SHA1.chunk P H i) := by
  refine ⟨rfl, ?_⟩
  intro h hh
  simp only [SHA1.chunk, List.mem_cons, List.mem_singleton, List.not_mem_nil, or_false] at hh
  rcases hh with rfl | rfl | rfl | rfl | rfl <;> exact Nat.mod_lt _ (by decide)

/-- The final hash value of `SHA1::hash` has 5 words of 32 bits. -/
theorem sha1_final_state_is_state (msg : List Nat) : is_state 5 32 (SHA1.final_state msg) :=
  foldl_is_state _ (sha1_chunk_is_state _) _ _ ⟨rfl, by decide⟩

/-- Re-reading the digest of `SHA1::hash` as big-endian words gives the hash
value back. -/
theorem sha1_be_words_digest (H : List Nat) (hH : is_state 5 32 H) :
    be_words 4 5 (SHA1.digest H) = H := by
  obtain ⟨hl, hb⟩ := hH
  match H, hl with
  | [x0, x1, x2, x3, x4], _ =>
    have h0 := hb x0 (by simp)
    have h1 := hb x1 (by simp)
    have h2 := hb x2 (by simp)
    have h3 := hb x3 (by simp)
    have h4 := hb x4 (by simp)
    rw [sha1_digest_eq]
    simp only [be_words, show List.range 5 = [0, 1, 2, 3, 4] from rfl, List.map,
      List.getD_cons_zero, List.getD_cons_succ, Nat.mul_zero, Nat.reduceMul, List.drop_zero,
      List.take_succ_cons, List.take_zero, List.drop_succ_cons]
    rw [be_value_word32 x0 h0, be_value_word32 x1 h1, be_value_word32 x2 h2, be_value_word32 x3 h3,
      be_value_word32 x4 h4]

/-- Byte `4 * i + j` of the digest of `SHA1::hash` is byte `j`, counted from
the most significant one, of word `i`. -/
theorem sha1_digest_byte (H : List Nat) (i j : Nat) (hi : i < 5) (hj : j < 4) :
    (SHA1.digest H)[4 * i + j]? = some ((H.getD i 0 >>> (8 * (4 - 1 - j))) % 256) := by
  rw [sha1_digest_eq]
  interval_cases i <;> interval_cases j <;> rfl

/-- Closed form of the digest loop of `SHA256::hash`. -/
theorem sha256_digest_eq (H : List Nat) :
    SHA256.digest H =
      [(H.getD 0 0 >>> 24) % 256, (H.getD 0 0 >>> 16) % 256, (H.getD 0 0 >>> 8) % 256,
       H.getD 0 0 % 256,
       (H.getD 1 0 >>> 24) % 256, (H.getD 1 0 >>> 16) % 256, (H.getD 1 0 >>> 8) % 256,
       H.getD 1 0 % 256,
       (H.getD 2 0 >>> 24) % 256, (H.getD 2 0 >>> 16) % 256, (H.getD 2 0 >>> 8) % 256,
       H.getD 2 0 % 256,
       (H.getD 3 0 >>> 24) % 256, (H.getD 3 0 >>> 16) % 256, (H.getD 3 0 >>> 8) % 256,
       H.getD 3 0 % 256,
       (H.getD 4 0 >>> 24) % 256, (H.getD 4 0 >>> 16) % 256, (H.getD 4 0 >>> 8) % 256,
       H.getD 4 0 % 256,
       (H.getD 5 0 >>> 24) % 256, (H.getD 5 0 >>> 16) % 256, (H.getD 5 0 >>> 8) % 256,
       H.getD 5 0 % 256,
       (H.getD 6 0 >>> 24) % 256, (H.getD 6 0 >>> 16) % 256, (H.getD 6 0 >>> 8) % 256,
       H.getD 6 0 % 256,
       (H.getD 7 0 >>> 24) % 256, (H.getD 7 0 >>> 16) % 256, (H.getD 7 0 >>> 8) % 256,
       H.getD 7 0 % 256] := by
  unfold SHA256.digest
  rw [show List.range 8 = [0, 1, 2, 3, 4, 5, 6, 7] from rfl,
    show List.replicate 32 0 = [0, 0, 0, 0, 0, 0, 0, 0, 0, 0, 0, 0, 0, 0, 0, 0, 0, 0, 0, 0, 0, 0,
      0, 0, 0, 0, 0, 0, 0, 0, 0, 0] from rfl]
  simp only [List.foldl, Nat.zero_mul, Nat.one_mul, Nat.zero_add, Nat.add_zero, Nat.reduceMul,
    Nat.reduceAdd, List.set_cons_zero, List.set_cons_succ]

/-- Every chunk of `SHA256::hash` leaves 8 words of 32 bits. -/
theorem sha256_chunk_is_state (P H : List Nat) (i : Nat) :
    is_state 8 32 (SHA256.chunk P H i) := by
  refine ⟨rfl, ?_⟩
  intro h hh
  simp only [SHA256.chunk, List.mem_cons, List.mem_singleton, List.not_mem_nil, or_false] at hh
  rcases hh with rfl | rfl | rfl | rfl | rfl | rfl | rfl | rfl <;> exact Nat.mod_lt _ (by decide)

/-- The final hash value of `SHA256::hash` has 8 words of 32 bits. -/
theorem sha256_final_state_is_state (msg : List Nat) : is_state 8 32 (SHA256.final_state msg) :=
  foldl_is_state _ (sha256_chunk_is_state _) _ _ ⟨rfl, by decide⟩

/-- Re-reading the digest of `SHA256::hash` as big-endian words gives the hash
value back. -/
theorem sha256_be_words_digest (H : List Nat) (hH : is_state 8 32 H) :
    be_words 4 8 (SHA256.digest H) = H := by
  obtain ⟨hl, hb⟩ := hH
  match H, hl with
  | [x0, x1, x2, x3, x4, x5, x6, x7], _ =>
    have h0 := hb x0 (by simp)
    have h1 := hb x1 (by simp)
    have h2 := hb x2 (by simp)
    have h3 := hb x3 (by simp)
    have h4 := hb x4 (by simp)
    have h5 := hb x5 (by simp)
    have h6 := hb x6 (by simp)
    have h7 := hb x7 (by simp)
    rw [sha256_digest_eq]
    simp only [be_words, show List.range 8 = [0, 1, 2, 3, 4, 5, 6, 7] from rfl, List.map,
      List.getD_cons_zero, List.getD_cons_succ, Nat.mul_zero, Nat.reduceMul, List.drop_zero,
      List.take_succ_cons, List.take_zero, List.drop_succ_cons]
    rw [be_value_word32 x0 h0, be_value_word32 x1 h1, be_value_word32 x2 h2, be_value_word32 x3 h3,
      be_value_word32 x4 h4, be_value_word32 x5 h5, be_value_word32 x6 h6, be_value_word32 x7 h7]

/-- Byte `4 * i + j` of the digest of `SHA256::hash` is byte `j`, counted from
the most significant one, of word `i`. -/
theorem sha256_digest_byte (H : List Nat) (i j : Nat) (hi : i < 8) (hj : j < 4) :
    (SHA256.digest H)[4 * i + j]? = some ((H.getD i 0 >>> (8 * (4 - 1 - j))) % 256) := by
  rw [sha256_digest_eq]
  interval_cases i <;> interval_cases j <;> rfl

/-- Closed form of the digest loop of `SHA512::hash`. -/
theorem sha512_digest_eq (H : List Nat) :
    SHA512.digest H =
      [(H.getD 0 0 >>> 56) % 256, (H.getD 0 0 >>> 48) % 256, (H.getD 0 0 >>> 40) % 256,
       (H.getD 0 0 >>> 32) % 256, (H.getD 0 0 >>> 24) % 256, (H.getD 0 0 >>> 16) % 256,
       (H.getD 0 0 >>> 8) % 256, H.getD 0 0 % 256,
       (H.getD 1 0 >>> 56) % 256, (H.getD 1 0 >>> 48) % 256, (H.getD 1 0 >>> 40) % 256,
       (H.getD 1 0 >>> 32) % 256, (H.getD 1 0 >>> 24) % 256, (H.getD 1 0 >>> 16) % 256,
       (H.getD 1 0 >>> 8) % 256, H.getD 1 0 % 256,
       (H.getD 2 0 >>> 56) % 256, (H.getD 2 0 >>> 48) % 256, (H.getD 2 0 >>> 40) % 256,
       (H.getD 2 0 >>> 32) % 256, (H.getD 2 0 >>> 24) % 256, (H.getD 2 0 >>> 16) % 256,
       (H.getD 2 0 >>> 8) % 256, H.getD 2 0 % 256,
       (H.getD 3 0 >>> 56) % 256, (H.getD 3 0 >>> 48) % 256, (H.getD 3 0 >>> 40) % 256,
       (H.getD 3 0 >>> 32) % 256, (H.getD 3 0 >>> 24) % 256, (H.getD 3 0 >>> 16) % 256,
       (H.getD 3 0 >>> 8) % 256, H.getD 3 0 % 256,
       (H.getD 4 0 >>> 56) % 256, (H.getD 4 0 >>> 48) % 256, (H.getD 4 0 >>> 40) % 256,
       (H.getD 4 0 >>> 32) % 256, (H.getD 4 0 >>> 24) % 256, (H.getD 4 0 >>> 16) % 256,
       (H.getD 4 0 >>> 8) % 256, H.getD 4 0 % 256,
       (H.getD 5 0 >>> 56) % 256, (H.getD 5 0 >>> 48) % 256, (H.getD 5 0 >>> 40) % 256,
       (H.getD 5 0 >>> 32) % 256, (H.getD 5 0 >>> 24) % 256, (H.getD 5 0 >>> 16) % 256,
       (H.getD 5 0 >>> 8) % 256, H.getD 5 0 % 256,
       (H.getD 6 0 >>> 56) % 256, (H.getD 6 0 >>> 48) % 256, (H.getD 6 0 >>> 40) % 256,
       (H.getD 6 0 >>> 32) % 256, (H.getD 6 0 >>> 24) % 256, (H.getD 6 0 >>> 16) % 256,
       (H.getD 6 0 >>> 8) % 256, H.getD 6 0 % 256,
       (H.getD 7 0 >>> 56) % 256, (H.getD 7 0 >>> 48) % 256, (H.getD 7 0 >>> 40) % 256,
       (H.getD 7 0 >>> 32) % 256, (H.getD 7 0 >>> 24) % 256, (H.getD 7 0 >>> 16) % 256,
       (H.getD 7 0 >>> 8) % 256, H.getD 7 0 % 256] := by
  unfold SHA512.digest
  rw [show List.range 8 = [0, 1, 2, 3, 4, 5, 6, 7] from rfl,
    show List.replicate 64 0 = [0, 0, 0, 0, 0, 0, 0, 0, 0, 0, 0, 0, 0, 0, 0, 0, 0, 0, 0, 0, 0, 0,
      0, 0, 0, 0, 0, 0, 0, 0, 0, 0, 0, 0, 0, 0, 0, 0, 0, 0, 0, 0, 0, 0, 0, 0, 0, 0, 0, 0, 0, 0, 0,
      0, 0, 0, 0, 0, 0, 0, 0, 0, 0, 0] from rfl]
  simp only [List.foldl, Nat.zero_mul, Nat.one_mul, Nat.zero_add, Nat.add_zero, Nat.reduceMul,
    Nat.reduceAdd, List.set_cons_zero, List.set_cons_succ]

/-- Every chunk of `SHA512::hash` leaves 8 words of 64 bits. -/
theorem sha512_chunk_is_state (P H : List Nat) (i : Nat) :
    is_state 8 64 (SHA512.chunk P H i) := by
  refine ⟨rfl, ?_⟩
  intro h hh
  simp only [SHA512.chunk, List.mem_cons, List.mem_singleton, List.not_mem_nil, or_false] at hh
  rcases hh with rfl | rfl | rfl | rfl | rfl | rfl | rfl | rfl <;> exact Nat.mod_lt _ (by decide)

/-- The final hash value of `SHA512::hash` has 8 words of 64 bits. -/
theorem sha512_final_state_is_state (msg : List Nat) : is_state 8 64 (SHA512.final_state msg) :=
  foldl_is_state _ (sha512_chunk_is_state _) _ _ ⟨rfl, by decide⟩

/-- Re-reading the digest of `SHA512::hash` as big-endian words gives the hash
value back. -/
theorem sha512_be_words_digest (H : List Nat) (hH : is_state 8 64 H) :
    be_words 8 8 (SHA512.digest H) = H := by
  obtain ⟨hl, hb⟩ := hH
  match H, hl with
  | [x0, x1, x2, x3, x4, x5, x6, x7], _ =>
    have h0 := hb x0 (by simp)
    have h1 := hb x1 (by simp)
    have h2 := hb x2 (by simp)
    have h3 := hb x3 (by simp)
    have h4 := hb x4 (by simp)
    have h5 := hb x5 (by simp)
    have h6 := hb x6 (by simp)
    have h7 := hb x7 (by simp)
    rw [sha512_digest_eq]
    simp only [be_words, show List.range 8 = [0, 1, 2, 3, 4, 5, 6, 7] from rfl, List.map,
      List.getD_cons_zero, List.getD_cons_succ, Nat.mul_zero, Nat.reduceMul, List.drop_zero,
      List.take_succ_cons, List.take_zero, List.drop_succ_cons]
    rw [be_value_word64 x0 h0, be_value_word64 x1 h1, be_value_word64 x2 h2, be_value_word64 x3 h3,
      be_value_word64 x4 h4, be_value_word64 x5 h5, be_value_word64 x6 h6, be_value_word64 x7 h7]

/-- Byte `8 * i + j` of the digest of `SHA512::hash` is byte `j`, counted from
the most significant one, of word `i`. -/
theorem sha512_digest_byte (H : List Nat) (i j : Nat) (hi : i < 8) (hj : j < 8) :
    (SHA512.digest H)[8 * i + j]? = some ((H.getD i 0 >>> (8 * (8 - 1 - j))) % 256) := by
  rw [sha512_digest_eq]
  interval_cases i <;> interval_cases j <;> rfl

/-- C15: in each engine the digest is the big-endian serialization of the
final hash value: with word size `s` bytes (4 for SHA-1 and SHA-256, 8 for
SHA-512), digest byte `s * i + j` is
`(H[i] >> (8 * (s - 1 - j))) mod 256`, that is bits `[8*(s-1-j), 8*(s-j))` of
`H[i]`; re-reading the digest as big-endian `s`-byte words gives the final
hash value back, so the serialization is injective on hash values. -/
theorem digest_big_endian (m : List Nat) :
    (SHA1.hash m = SHA1.digest (SHA1.final_state m) ∧
      (∀ i j, i < 5 → j < 4 → (SHA1.hash m)[4 * i + j]? =
        some (((SHA1.final_state m).getD i 0 >>> (8 * (4 - 1 - j))) % 256)) ∧
      be_words 4 5 (SHA1.hash m) = SHA1.final_state m ∧
      (∀ H K, is_state 5 32 H → is_state 5 32 K → SHA1.digest H = SHA1.digest K → H = K)) ∧
    (SHA256.hash m = SHA256.digest (SHA256.final_state m) ∧
      (∀ i j, i < 8 → j < 4 → (SHA256.hash m)[4 * i + j]? =
        some (((SHA256.final_state m).getD i 0 >>> (8 * (4 - 1 - j))) % 256)) ∧
      be_words 4 8 (SHA256.hash m) = SHA256.final_state m ∧
      (∀ H K, is_state 8 32 H → is_state 8 32 K → SHA256.digest H = SHA256.digest K → H = K)) ∧
    (SHA512.hash m = SHA512.digest (SHA512.final_state m) ∧
      (∀ i j, i < 8 → j < 8 → (SHA512.hash m)[8 * i + j]? =
        some (((SHA512.final_state m).getD i 0 >>> (8 * (8 - 1 - j))) % 256)) ∧
      be_words 8 8 (SHA512.hash m) = SHA512.final_state m ∧
      (∀ H K, is_state 8 64 H → is_state 8 64 K → SHA512.digest H = SHA512.digest K → H = K)) := by
  refine ⟨⟨rfl, fun i j hi hj => ?_, ?_, fun H K hH hK h => ?_⟩,
    ⟨rfl, fun i j hi hj => ?_, ?_, fun H K hH hK h => ?_⟩,
    ⟨rfl, fun i j hi hj => ?_, ?_, fun H K hH hK h => ?_⟩⟩
  · exact sha1_digest_byte _ i j hi hj
  · exact sha1_be_words_digest _ (sha1_final_state_is_state m)
  · rw [← sha1_be_words_digest H hH, ← sha1_be_words_digest K hK, h]
  · exact sha256_digest_byte _ i j hi hj
  · exact sha256_be_words_digest _ (sha256_final_state_is_state m)
  · rw [← sha256_be_words_digest H hH, ← sha256_be_words_digest K hK, h]
  · exact sha512_digest_byte _ i j hi hj
  · exact sha512_be_words_digest _ (sha512_final_state_is_state m)
  · rw [← sha512_be_words_digest H hH, ← sha512_be_words_digest K hK, h]
/-! ## Loops that fill an array -/

/-- A loop that stores `g t` at every index `t` of a list `l` of indices. -/
theorem foldl_set_getD (g : Nat → Nat) (l : List Nat) (W : List Nat) (k : Nat) :
    (l.foldl (fun W t => W.set t (g t)) W).getD k 0 =
      if k ∈ l ∧ k < W.length then g k else W.getD k 0 := by
  induction l generalizing W with
  | nil => simp
  | cons a l ih =>
    rw [List.foldl_cons, ih, List.length_set]
    by_cases hk : k ∈ l
    · by_cases hlen : k < W.length
      · simp [hk, hlen]
      · have h1 : (W.set a (g a)).getD k 0 = W.getD k 0 := by
          simp only [List.getD_eq_getElem?_getD]
          rw [List.getElem?_eq_none (by simpa using hlen),
            List.getElem?_eq_none (by simpa using hlen)]
        rw [h1]
        simp [hk, hlen]
    · by_cases hak : a = k
      · subst hak
        by_cases hlen : a < W.length
        · simp [hk, hlen, List.getD_eq_getElem?_getD]
        · have h1 : (W.set a (g a)).getD a 0 = W.getD a 0 := by
            simp only [List.getD_eq_getElem?_getD]
            rw [List.getElem?_eq_none (by simpa using hlen),
              List.getElem?_eq_none (by simpa using hlen)]
          rw [h1]
          simp [hk, hlen]
      · have h1 : (W.set a (g a)).getD k 0 = W.getD k 0 := by
          simp only [List.getD_eq_getElem?_getD]
          rw [List.getElem?_set_ne hak]
        have h2 : ¬ k = a := fun h => hak h.symm
        rw [h1]
        simp [hk, h2]

/-- A loop over `t = s, ..., s + n - 1` that stores at index `t` a value
computed from the cells below `t`: the length is kept, the cells below `s`
are kept, and every cell `t` of the loop range satisfies the recurrence on
the final array. -/
theorem foldl_set_rec (h : List Nat → Nat → Nat) (s0 : Nat)
    (hloc : ∀ W V t, s0 ≤ t → (∀ k, k < t → W.getD k 0 = V.getD k 0) → h W t = h V t)
    (n s : Nat) (hs : s0 ≤ s) (W : List Nat) :
    ((List.range' s n).foldl (fun W t => W.set t (h W t)) W).length = W.length ∧
    (∀ k, k < s → ((List.range' s n).foldl (fun W t => W.set t (h W t)) W).getD k 0 =
      W.getD k 0) ∧
    (∀ t, s ≤ t → t < s + n → t < W.length →
      ((List.range' s n).foldl (fun W t => W.set t (h W t)) W).getD t 0 =
        h ((List.range' s n).foldl (fun W t => W.set t (h W t)) W) t) := by
  induction n generalizing s W with
  | zero =>
    refine ⟨rfl, fun k _ => rfl, fun t h1 h2 _ => ?_⟩
    omega
  | succ n ih =>
    rw [List.range'_succ, List.foldl_cons]
    obtain ⟨ihl, ihk, iht⟩ := ih (s + 1) (by omega) (W.set s (h W s))
    have hset : ∀ k, k < s → (W.set s (h W s)).getD k 0 = W.getD k 0 := by
      intro k hk
      simp only [List.getD_eq_getElem?_getD]
      rw [List.getElem?_set_ne (by omega)]
    refine ⟨by rw [ihl, List.length_set], fun k hk => ?_, fun t h1 h2 h3 => ?_⟩
    · rw [ihk k (by omega), hset k hk]
    · by_cases hts : t = s
      · subst hts
        rw [ihk t (by omega)]
        have e : (W.set t (h W t)).getD t 0 = h W t := by
          simp [List.getD_eq_getElem?_getD, h3]
        rw [e]
        apply hloc _ _ _ hs
        intro k hk
        rw [ihk k (by omega), hset k hk]
      · exact iht t (by omega) (by omega) (by rw [List.length_set]; exact h3)

/-! ## The message schedule of SHA-1 -/

/-- Cell `t < 16` of the array after the first inner loop of `SHA1::hash`. -/
theorem sha1_load_words_getD (P W : List Nat) (i t : Nat) (ht : t < 16) (hW : 16 ≤ W.length) :
    (SHA1.load_words P i W).getD t 0 =
      ((P.getD ((i * 64 + t * 4) % 2 ^ 32 + 0) 0 <<< 24) |||
        (P.getD ((i * 64 + t * 4) % 2 ^ 32 + 1) 0 <<< 16) |||
        (P.getD ((i * 64 + t * 4) % 2 ^ 32 + 2) 0 <<< 8) |||
        P.getD ((i * 64 + t * 4) % 2 ^ 32 + 3) 0) % 2 ^ 32 := by
  unfold SHA1.load_words
  dsimp only
  rw [foldl_set_getD, if_pos ⟨List.mem_range.2 ht, by omega⟩]

/-- The first inner loop of `SHA1::hash` keeps the length of the array. -/
theorem sha1_load_words_length (P W : List Nat) (i : Nat) :
    (SHA1.load_words P i W).length = W.length := by
  unfold SHA1.load_words
  generalize List.range 16 = l
  induction l generalizing W with
  | nil => rfl
  | cons a l ih => rw [List.foldl_cons, ih, List.length_set]

/-- The value stored at `W[t]` by the second inner loop of `SHA1::hash`
depends on the cells below `t` only. -/
theorem sha1_expand_local (W V : List Nat) (t : Nat) (ht : 16 ≤ t)
    (h : ∀ k, k < t → W.getD k 0 = V.getD k 0) :
    rotl 32 (W.getD (t - 3) 0 ^^^ W.getD (t - 8) 0 ^^^ W.getD (t - 14) 0 ^^^
      W.getD (t - 16) 0) 1 =
    rotl 32 (V.getD (t - 3) 0 ^^^ V.getD (t - 8) 0 ^^^ V.getD (t - 14) 0 ^^^
      V.getD (t - 16) 0) 1 := by
  rw [h (t - 3) (by omega), h (t - 8) (by omega), h (t - 14) (by omega), h (t - 16) (by omega)]

/-- The schedule of chunk `i` in `SHA1::hash`: the first sixteen words are
loaded from the bytes at `base = (i * 64 + t * 4) mod 2 ^ 32`, the others
follow the recurrence. -/
theorem sha1_schedule_spec (P : List Nat) (i : Nat) :
    (∀ t, t < 16 → (SHA1.schedule P i).getD t 0 =
      ((P.getD ((i * 64 + t * 4) % 2 ^ 32 + 0) 0 <<< 24) |||
        (P.getD ((i * 64 + t * 4) % 2 ^ 32 + 1) 0 <<< 16) |||
        (P.getD ((i * 64 + t * 4) % 2 ^ 32 + 2) 0 <<< 8) |||
        P.getD ((i * 64 + t * 4) % 2 ^ 32 + 3) 0) % 2 ^ 32) ∧
    (∀ t, 16 ≤ t → t < 80 → (SHA1.schedule P i).getD t 0 =
      rotl 32 ((SHA1.schedule P i).getD (t - 3) 0 ^^^ (SHA1.schedule P i).getD (t - 8) 0 ^^^
        (SHA1.schedule P i).getD (t - 14) 0 ^^^ (SHA1.schedule P i).getD (t - 16) 0) 1) := by
  have hlen : (SHA1.load_words P i (List.replicate 80 0)).length = 80 := by
    rw [sha1_load_words_length, List.length_replicate]
  obtain ⟨-, hk, ht⟩ := foldl_set_rec
    (fun W t => rotl 32 (W.getD (t - 3) 0 ^^^ W.getD (t - 8) 0 ^^^ W.getD (t - 14) 0 ^^^
      W.getD (t - 16) 0) 1) 16 sha1_expand_local 64 16 (Nat.le_refl _)
    (SHA1.load_words P i (List.replicate 80 0))
  refine ⟨fun t h1 => ?_, fun t h1 h2 => ?_⟩
  · exact (hk t h1).trans
      (sha1_load_words_getD P _ i t h1 (by rw [List.length_replicate]; decide))
  · exact ht t h1 (by omega) (by omega)

/-- Four bytes combined by shifts and bitwise or, as in the word load of
`SHA1::hash` and `SHA256::hash`, give their big-endian value. -/
theorem be_word32 (b0 b1 b2 b3 : Nat) (h0 : b0 < 256) (h1 : b1 < 256) (h2 : b2 < 256)
    (h3 : b3 < 256) :
    ((b0 <<< 24) ||| (b1 <<< 16) ||| (b2 <<< 8) ||| b3) % 2 ^ 32 = be_value [b0, b1, b2, b3] := by
  have e3 : 2 ^ 8 * b2 ||| b3 = 2 ^ 8 * b2 + b3 := (Nat.mul_add_lt_is_or h3 b2).symm
  have e2 : 2 ^ 16 * b1 ||| (2 ^ 8 * b2 + b3) = 2 ^ 16 * b1 + (2 ^ 8 * b2 + b3) :=
    (Nat.mul_add_lt_is_or (by omega) b1).symm
  have e1 : 2 ^ 24 * b0 ||| (2 ^ 16 * b1 + (2 ^ 8 * b2 + b3)) =
      2 ^ 24 * b0 + (2 ^ 16 * b1 + (2 ^ 8 * b2 + b3)) :=
    (Nat.mul_add_lt_is_or (by omega) b0).symm
  rw [Nat.lor_assoc, Nat.lor_assoc, Nat.shiftLeft_eq, Nat.shiftLeft_eq, Nat.shiftLeft_eq,
    Nat.mul_comm b0, Nat.mul_comm b1, Nat.mul_comm b2, e3, e2, e1]
  simp only [be_value, List.foldl]
  omega

/-- Four consecutive cells of a byte vector. -/
theorem take4_drop (P : List Nat) (base : Nat) (h : base + 4 ≤ P.length) :
    (P.drop base).take 4 =
      [P.getD (base + 0) 0, P.getD (base + 1) 0, P.getD (base + 2) 0, P.getD (base + 3) 0] := by
  have g : ∀ j, j < 4 → P[base + j]? = some (P.getD (base + j) 0) := by
    intro j hj
    rw [List.getD_eq_getElem?_getD, List.getElem?_eq_getElem (by omega)]
    rfl
  apply List.ext_getElem?
  intro k
  by_cases hk : k < 4
  · rw [List.getElem?_take_of_lt hk, List.getElem?_drop]
    interval_cases k
    · exact g 0 (by decide)
    · exact g 1 (by decide)
    · exact g 2 (by decide)
    · exact g 3 (by decide)
  · rw [List.getElem?_eq_none (by simp; omega), List.getElem?_eq_none (by simp; omega)]

/-- A cell of a byte vector read with default `0` is a byte. -/
theorem getD_lt_256 (P : List Nat) (hb : ∀ b ∈ P, b < 256) (k : Nat) : P.getD k 0 < 256 := by
  rw [List.getD_eq_getElem?_getD]
  by_cases hk : k < P.length
  · rw [List.getElem?_eq_getElem hk]
    exact hb _ (List.getElem_mem _)
  · rw [List.getElem?_eq_none (by omega)]
    decide

/-- The schedule of a chunk `i` that lies below byte `2 ^ 32` of the padded
message: the first sixteen words are the big-endian words of the bytes
`64 * i + 4 * t .. 64 * i + 4 * t + 3`, the others follow the recurrence. -/
theorem sha1_schedule_in_range (P : List Nat) (i : Nat) (hb : ∀ b ∈ P, b < 256)
    (hi : 64 * i + 64 ≤ P.length) (h32 : 64 * i + 64 ≤ 2 ^ 32) :
    (∀ t, t < 16 → (SHA1.schedule P i).getD t 0 =
      be_value ((P.drop (64 * i + 4 * t)).take 4)) ∧
    (∀ t, 16 ≤ t → t < 80 → (SHA1.schedule P i).getD t 0 =
      rotl 32 ((SHA1.schedule P i).getD (t - 3) 0 ^^^ (SHA1.schedule P i).getD (t - 8) 0 ^^^
        (SHA1.schedule P i).getD (t - 14) 0 ^^^ (SHA1.schedule P i).getD (t - 16) 0) 1) := by
  obtain ⟨h1, h2⟩ := sha1_schedule_spec P i
  refine ⟨fun t ht => ?_, h2⟩
  have e : (i * 64 + t * 4) % 2 ^ 32 = 64 * i + 4 * t := by omega
  rw [h1 t ht, e, take4_drop P _ (by omega),
    be_word32 _ _ _ _ (getD_lt_256 P hb _) (getD_lt_256 P hb _) (getD_lt_256 P hb _)
      (getD_lt_256 P hb _)]

/-- Witness of `sha1_schedule_in_range`: the only chunk of the padded
message "abc". -/
theorem sha1_schedule_in_range_witness :
    (∀ t, t < 16 → (SHA1.schedule (SHA1.padding [0x61, 0x62, 0x63]) 0).getD t 0 =
      be_value (((SHA1.padding [0x61, 0x62, 0x63]).drop (64 * 0 + 4 * t)).take 4)) ∧
    (∀ t, 16 ≤ t → t < 80 → (SHA1.schedule (SHA1.padding [0x61, 0x62, 0x63]) 0).getD t 0 =
      rotl 32 ((SHA1.schedule (SHA1.padding [0x61, 0x62, 0x63]) 0).getD (t - 3) 0 ^^^
        (SHA1.schedule (SHA1.padding [0x61, 0x62, 0x63]) 0).getD (t - 8) 0 ^^^
        (SHA1.schedule (SHA1.padding [0x61, 0x62, 0x63]) 0).getD (t - 14) 0 ^^^
        (SHA1.schedule (SHA1.padding [0x61, 0x62, 0x63]) 0).getD (t - 16) 0) 1) :=
  sha1_schedule_in_range (SHA1.padding [0x61, 0x62, 0x63]) 0 (by decide) (by decide) (by decide)

/-- The padded form of a message of `2 ^ 32` zero bytes, for block size 64:
its length, its first four bytes and the four bytes at offset `2 ^ 32`. -/
theorem padding_shape_4gib (msg : List Nat) (hlen : msg.length = 2 ^ 32)
    (hz : ∀ k, msg.getD k 0 = 0) :
    (padding_shape 64 9 msg).length = 2 ^ 32 + 64 ∧
    (∀ k, k < 4 → (padding_shape 64 9 msg).getD k 0 = 0) ∧
    ((padding_shape 64 9 msg).drop (2 ^ 32)).take 4 = [0x80, 0, 0, 0] := by
  have hp : padlen 64 9 (2 ^ 32) = 64 := by decide
  refine ⟨?_, fun k hk => ?_, ?_⟩
  · rw [padding_shape_length 64 9 (by decide) (by decide) (by decide), hlen, hp]
  · rw [padding_shape_eq 64 9 (by decide) (by decide) (by decide),
      List.getD_append _ _ _ _ (by rw [hlen]; omega)]
    exact hz k
  · rw [padding_shape_eq 64 9 (by decide) (by decide) (by decide), ← hlen,
      List.drop_left, hlen, hp,
      show List.replicate (64 - 5) 0 = 0 :: 0 :: 0 :: List.replicate 56 0 from rfl]
    rfl

/-- Reading a zero-filled vector gives zero. -/
theorem getD_replicate_zero (n k : Nat) : (List.replicate n 0).getD k 0 = 0 := by
  rw [List.getD_eq_getElem?_getD, List.getElem?_replicate]
  split <;> rfl

/-- C18, evaluated on a message of `2 ^ 32` zero bytes: the padded message
has `2 ^ 26 + 1` blocks, the bytes `64 * i + 4 * t .. 64 * i + 4 * t + 3` for
block `i = 2 ^ 26` and `t = 0` are `80 00 00 00`, whose big-endian word is
`0x80000000`, but `SHA1::hash` computes `W[0] = 0` for that block: the
32-bit `base` wraps to `0` and the word is read from block `0`. -/
theorem sha1_schedule_index_wraps :
    2 ^ 26 < (SHA1.padding (List.replicate (2 ^ 32) 0)).length / 64 ∧
    be_value (((SHA1.padding (List.replicate (2 ^ 32) 0)).drop (64 * 2 ^ 26 + 4 * 0)).take 4) =
      0x80000000 ∧
    (SHA1.schedule (SHA1.padding (List.replicate (2 ^ 32) 0)) (2 ^ 26)).getD 0 0 = 0 := by
  have hlen : (List.replicate (2 ^ 32) 0).length = 2 ^ 32 := List.length_replicate _ _
  have hz : ∀ k, (List.replicate (2 ^ 32) 0).getD k 0 = 0 := getD_replicate_zero _
  generalize List.replicate (2 ^ 32) 0 = msg at hlen hz ⊢
  obtain ⟨h1, h2, h3⟩ := padding_shape_4gib msg hlen hz
  rw [sha1_padding_eq_shape]
  refine ⟨?_, ?_, ?_⟩
  · rw [h1]; decide
  · rw [show 64 * 2 ^ 26 + 4 * 0 = 2 ^ 32 from rfl, h3]; decide
  · rw [(sha1_schedule_spec _ _).1 0 (by decide),
      show (2 ^ 26 * 64 + 0 * 4) % 2 ^ 32 = 0 from rfl,
      h2 _ (by decide), h2 _ (by decide), h2 _ (by decide), h2 _ (by decide)]
    decide

/-! ## The chunk loop as a fold of the compression function -/

/-- A cell of a block of a byte vector. -/
theorem getD_take_drop (P : List Nat) (n B k : Nat) (hk : k < B) :
    ((P.drop n).take B).getD k 0 = P.getD (n + k) 0 := by
  simp only [List.getD_eq_getElem?_getD]
  rw [List.getElem?_take_of_lt hk, List.getElem?_drop]

/-- In `SHA1::hash` the 32-bit `base` of chunk `i + 2 ^ 26` is the `base` of
chunk `i`: the chunk-loop body reads the same bytes. -/
theorem sha1_chunk_wrap (P H : List Nat) (i : Nat) :
    SHA1.chunk P H (i + 2 ^ 26) = SHA1.chunk P H i := by
  have e : ∀ t, ((i + 2 ^ 26) * 64 + t * 4) % 2 ^ 32 = (i * 64 + t * 4) % 2 ^ 32 := by
    intro t; omega
  simp only [SHA1.chunk, SHA1.load_words, e]

/-- Below byte `2 ^ 32` of the padded message the word load of `SHA1::hash`
for chunk `i` reads block `i` only. -/
theorem sha1_load_words_block (P W : List Nat) (i : Nat) (h32 : 64 * i + 64 ≤ 2 ^ 32) :
    SHA1.load_words P i W = SHA1.load_words ((P.drop (64 * i)).take 64) 0 W := by
  unfold SHA1.load_words
  apply List.foldl_ext
  intro W t ht
  have ht16 : t < 16 := List.mem_range.1 ht
  have e1 : (i * 64 + t * 4) % 2 ^ 32 = 64 * i + t * 4 := by omega
  have e2 : (0 * 64 + t * 4) % 2 ^ 32 = t * 4 := by omega
  simp only [e1, e2, Nat.add_zero]
  rw [getD_take_drop P _ 64 (t * 4) (by omega), getD_take_drop P _ 64 (t * 4 + 1) (by omega),
    getD_take_drop P _ 64 (t * 4 + 2) (by omega), getD_take_drop P _ 64 (t * 4 + 3) (by omega)]
  rfl

/-- Below byte `2 ^ 32` of the padded message the chunk-loop body of
`SHA1::hash` is the compression function applied to block `i`. -/
theorem sha1_chunk_eq_compress (P H : List Nat) (i : Nat) (h32 : 64 * i + 64 ≤ 2 ^ 32) :
    SHA1.chunk P H i = SHA1.compress H ((P.drop (64 * i)).take 64) := by
  unfold SHA1.compress SHA1.chunk
  rw [sha1_load_words_block P _ i h32]

/-- When the padded message has at most `2 ^ 32` bytes, `SHA1::hash` is the
digest of the left fold of the compression function over its blocks. -/
theorem sha1_hash_eq_fold (m : List Nat) (h : (SHA1.padding m).length ≤ 2 ^ 32) :
    SHA1.hash m =
      SHA1.digest ((blocks 64 (SHA1.padding m)).foldl SHA1.compress SHA1.H0) := by
  unfold SHA1.hash blocks
  rw [List.foldl_map]
  refine congrArg SHA1.digest (List.foldl_ext _ _ _ ?_)
  intro H i hi
  have hi' : i < (SHA1.padding m).length / 64 := List.mem_range.1 hi
  exact sha1_chunk_eq_compress _ H i (by omega)

/-- Witness of `sha1_hash_eq_fold`: the message "abc". -/
theorem sha1_hash_eq_fold_witness :
    SHA1.hash [0x61, 0x62, 0x63] =
      SHA1.digest ((blocks 64 (SHA1.padding [0x61, 0x62, 0x63])).foldl SHA1.compress SHA1.H0) :=
  sha1_hash_eq_fold [0x61, 0x62, 0x63] (by decide)

/-- In `SHA256::hash` the 32-bit `base` of chunk `i + 2 ^ 26` is the `base` of
chunk `i`: the chunk-loop body reads the same bytes. -/
theorem sha256_chunk_wrap (P H : List Nat) (i : Nat) :
    SHA256.chunk P H (i + 2 ^ 26) = SHA256.chunk P H i := by
  have e : ∀ t, ((i + 2 ^ 26) * 64 + t * 4) % 2 ^ 32 = (i * 64 + t * 4) % 2 ^ 32 := by
    intro t; omega
  simp only [SHA256.chunk, SHA256.load_words, e]

/-- Below byte `2 ^ 32` of the padded message the word load of `SHA256::hash`
for chunk `i` reads block `i` only. -/
theorem sha256_load_words_block (P W : List Nat) (i : Nat) (h32 : 64 * i + 64 ≤ 2 ^ 32) :
    SHA256.load_words P i W = SHA256.load_words ((P.drop (64 * i)).take 64) 0 W := by
  unfold SHA256.load_words
  apply List.foldl_ext
  intro W t ht
  have ht16 : t < 16 := List.mem_range.1 ht
  have e1 : (i * 64 + t * 4) % 2 ^ 32 = 64 * i + t * 4 := by omega
  have e2 : (0 * 64 + t * 4) % 2 ^ 32 = t * 4 := by omega
  simp only [e1, e2, Nat.add_zero]
  rw [getD_take_drop P _ 64 (t * 4) (by omega), getD_take_drop P _ 64 (t * 4 + 1) (by omega),
    getD_take_drop P _ 64 (t * 4 + 2) (by omega), getD_take_drop P _ 64 (t * 4 + 3) (by omega)]
  rfl

/-- Below byte `2 ^ 32` of the padded message the chunk-loop body of
`SHA256::hash` is the compression function applied to block `i`. -/
theorem sha256_chunk_eq_compress (P H : List Nat) (i : Nat) (h32 : 64 * i + 64 ≤ 2 ^ 32) :
    SHA256.chunk P H i = SHA256.compress H ((P.drop (64 * i)).take 64) := by
  unfold SHA256.compress SHA256.chunk
  rw [sha256_load_words_block P _ i h32]

/-- When the padded message has at most `2 ^ 32` bytes, `SHA256::hash` is the
digest of the left fold of the compression function over its blocks. -/
theorem sha256_hash_eq_fold (m : List Nat) (h : (SHA256.padding m).length ≤ 2 ^ 32) :
    SHA256.hash m =
      SHA256.digest ((blocks 64 (SHA256.padding m)).foldl SHA256.compress SHA256.H0) := by
  unfold SHA256.hash blocks
  rw [List.foldl_map]
  refine congrArg SHA256.digest (List.foldl_ext _ _ _ ?_)
  intro H i hi
  have hi' : i < (SHA256.padding m).length / 64 := List.mem_range.1 hi
  exact sha256_chunk_eq_compress _ H i (by omega)

/-- Witness of `sha256_hash_eq_fold`: the message "abc". -/
theorem sha256_hash_eq_fold_witness :
    SHA256.hash [0x61, 0x62, 0x63] =
      SHA256.digest ((blocks 64 (SHA256.padding [0x61, 0x62,
        0x63])).foldl SHA256.compress SHA256.H0) :=
  sha256_hash_eq_fold [0x61, 0x62, 0x63] (by decide)

/-- The word load of `SHA512::hash` for chunk `i` reads block `i` only. -/
theorem sha512_load_words_block (P W : List Nat) (i : Nat) :
    SHA512.load_words P i W = SHA512.load_words ((P.drop (128 * i)).take 128) 0 W := by
  unfold SHA512.load_words
  apply List.foldl_ext
  intro W t ht
  have ht16 : t < 16 := List.mem_range.1 ht
  simp only [Nat.mul_zero, Nat.zero_add]
  rw [getD_take_drop P _ 128 (t * 8) (by omega), getD_take_drop P _ 128 (t * 8 + 1) (by omega),
    getD_take_drop P _ 128 (t * 8 + 2) (by omega), getD_take_drop P _ 128 (t * 8 + 3) (by omega),
    getD_take_drop P _ 128 (t * 8 + 4) (by omega), getD_take_drop P _ 128 (t * 8 + 5) (by omega),
    getD_take_drop P _ 128 (t * 8 + 6) (by omega), getD_take_drop P _ 128 (t * 8 + 7) (by omega)]
  rfl

/-- The chunk-loop body of `SHA512::hash` is the compression function
applied to block `i`. -/
theorem sha512_chunk_eq_compress (P H : List Nat) (i : Nat) :
    SHA512.chunk P H i = SHA512.compress H ((P.drop (128 * i)).take 128) := by
  unfold SHA512.compress SHA512.chunk
  rw [sha512_load_words_block P _ i]

/-- For every message, `SHA512::hash` is the digest of the left fold of the
compression function over the blocks of the padded message. -/
theorem sha512_hash_eq_fold (m : List Nat) :
    SHA512.hash m =
      SHA512.digest ((blocks 128 (SHA512.padding m)).foldl SHA512.compress SHA512.H0) := by
  unfold SHA512.hash blocks
  rw [List.foldl_map]
  refine congrArg SHA512.digest (List.foldl_ext _ _ _ ?_)
  intro H i _
  exact sha512_chunk_eq_compress _ H i

/-- The first and the last block of the padded form of a message of `2 ^ 32`
zero bytes differ. -/
theorem padding_shape_4gib_blocks (msg : List Nat) (hlen : msg.length = 2 ^ 32)
    (hz : ∀ k, msg.getD k 0 = 0) :
    ((padding_shape 64 9 msg).drop (64 * 2 ^ 26)).take 64 ≠
      ((padding_shape 64 9 msg).drop (64 * 0)).take 64 := by
  obtain ⟨h1, h2, h3⟩ := padding_shape_4gib msg hlen hz
  intro h
  have h4 := congrArg (List.take 4) h
  rw [List.take_take, List.take_take, show min 4 64 = 4 from rfl,
    show 64 * 2 ^ 26 = 2 ^ 32 from rfl, h3,
    take4_drop _ _ (by rw [h1]; decide), h2 _ (by decide), h2 _ (by decide), h2 _ (by decide),
    h2 _ (by decide)] at h4
  exact absurd h4 (by decide)

/-- C16, evaluated on a message of `2 ^ 32` zero bytes for `SHA1::hash` and
`SHA256::hash`: the padded message has `2 ^ 26 + 1` blocks, its last block
(index `2 ^ 26`) differs from its first block, yet the final hash value is
the compression of the hash value after `2 ^ 26` chunks with block `0`, not
with block `2 ^ 26`: the 32-bit `base` of the last chunk wraps to `0`. -/
theorem chunk_loop_index_wraps :
    ((SHA1.padding (List.replicate (2 ^ 32) 0)).length / 64 = 2 ^ 26 + 1 ∧
      ((SHA1.padding (List.replicate (2 ^ 32) 0)).drop (64 * 2 ^ 26)).take 64 ≠
        ((SHA1.padding (List.replicate (2 ^ 32) 0)).drop (64 * 0)).take 64 ∧
      SHA1.final_state (List.replicate (2 ^ 32) 0) =
        SHA1.compress
          ((List.range (2 ^ 26)).foldl (SHA1.chunk (SHA1.padding (List.replicate (2 ^ 32) 0)))
            SHA1.H0)
          (((SHA1.padding (List.replicate (2 ^ 32) 0)).drop (64 * 0)).take 64)) ∧
    ((SHA256.padding (List.replicate (2 ^ 32) 0)).length / 64 = 2 ^ 26 + 1 ∧
      ((SHA256.padding (List.replicate (2 ^ 32) 0)).drop (64 * 2 ^ 26)).take 64 ≠
        ((SHA256.padding (List.replicate (2 ^ 32) 0)).drop (64 * 0)).take 64 ∧
      SHA256.final_state (List.replicate (2 ^ 32) 0) =
        SHA256.compress
          ((List.range (2 ^ 26)).foldl (SHA256.chunk (SHA256.padding (List.replicate (2 ^ 32) 0)))
            SHA256.H0)
          (((SHA256.padding (List.replicate (2 ^ 32) 0)).drop (64 * 0)).take 64)) := by
  have hlen : (List.replicate (2 ^ 32) 0).length = 2 ^ 32 := List.length_replicate _ _
  have hz : ∀ k, (List.replicate (2 ^ 32) 0).getD k 0 = 0 := getD_replicate_zero _
  generalize List.replicate (2 ^ 32) 0 = msg at hlen hz ⊢
  obtain ⟨h1, -, -⟩ := padding_shape_4gib msg hlen hz
  have hn : (padding_shape 64 9 msg).length / 64 = 2 ^ 26 + 1 := by rw [h1]; decide
  have hb := padding_shape_4gib_blocks msg hlen hz
  unfold SHA1.final_state SHA256.final_state
  rw [sha1_padding_eq_shape, sha256_padding_eq_shape, hn, List.range_succ, List.foldl_append,
    List.foldl_append]
  simp only [List.foldl_cons, List.foldl_nil]
  refine ⟨⟨trivial, hb, ?_⟩, ⟨trivial, hb, ?_⟩⟩
  · rw [← sha1_chunk_eq_compress _ _ 0 (by decide)]
    exact sha1_chunk_wrap _ _ 0
  · rw [← sha256_chunk_eq_compress _ _ 0 (by decide)]
    exact sha256_chunk_wrap _ _ 0

/-! ## Rotations are inverse to each other -/

/-- A bit at or above position `w` of a `w`-bit value is clear. -/
theorem testBit_of_lt_two_pow (w x k : Nat) (hx : x < 2 ^ w) (hk : w ≤ k) :
    x.testBit k = false :=
  Nat.testBit_lt_two_pow (Nat.lt_of_lt_of_le hx (Nat.pow_le_pow_right (by decide) hk))

/-- Bit `k` of `rotl(x, n)` for `0 < n < w`. -/
theorem testBit_rotl (w x n k : Nat) (hw : w = 32 ∨ w = 64) (hx : x < 2 ^ w) (h0 : 0 < n)
    (hn : n < w) :
    (rotl w x n).testBit k =
      if k < n then x.testBit (k + (w - n)) else if k < w then x.testBit (k - n) else false := by
  rw [((rotate_spec w x n hw hx hn).2.1 h0).1]
  simp only [Nat.testBit_mod_two_pow, Nat.testBit_or, Nat.testBit_shiftLeft,
    Nat.testBit_shiftRight]
  by_cases h1 : k < n
  · have h2 : k < w := by omega
    have h3 : ¬ k ≥ n := by omega
    simp [h1, h2, h3, Nat.add_comm]
  · by_cases h2 : k < w
    · have h3 : k ≥ n := by omega
      have h4 : x.testBit (w - n + k) = false := testBit_of_lt_two_pow w x _ hx (by omega)
      simp [h1, h2, h3, h4]
    · simp [h1, h2]

/-- Bit `k` of `rotr(x, n)` for `0 < n < w`. -/
theorem testBit_rotr (w x n k : Nat) (hw : w = 32 ∨ w = 64) (hx : x < 2 ^ w) (h0 : 0 < n)
    (hn : n < w) :
    (rotr w x n).testBit k =
      if k < w - n then x.testBit (k + n) else if k < w then x.testBit (k - (w - n))
      else false := by
  rw [((rotate_spec w x n hw hx hn).2.1 h0).2]
  simp only [Nat.testBit_mod_two_pow, Nat.testBit_or, Nat.testBit_shiftLeft,
    Nat.testBit_shiftRight]
  by_cases h1 : k < w - n
  · have h2 : k < w := by omega
    have h3 : ¬ k ≥ w - n := by omega
    simp [h1, h2, h3, Nat.add_comm]
  · by_cases h2 : k < w
    · have h3 : k ≥ w - n := by omega
      have h4 : x.testBit (n + k) = false := testBit_of_lt_two_pow w x _ hx (by omega)
      simp [h1, h2, h3, h4]
    · simp [h1, h2]

/-- A rotation of a `w`-bit value is a `w`-bit value. -/
theorem rotl_lt (w x n : Nat) (hw : w = 32 ∨ w = 64) (hx : x < 2 ^ w) (hn : n < w) :
    rotl w x n < 2 ^ w := by
  rcases Nat.eq_zero_or_pos n with h0 | h0
  · rw [((rotate_spec w x n hw hx hn).2.2 h0).1]; exact hx
  · rw [((rotate_spec w x n hw hx hn).2.1 h0).1]; exact Nat.mod_lt _ (Nat.two_pow_pos w)

/-- A rotation of a `w`-bit value is a `w`-bit value. -/
theorem rotr_lt (w x n : Nat) (hw : w = 32 ∨ w = 64) (hx : x < 2 ^ w) (hn : n < w) :
    rotr w x n < 2 ^ w := by
  rcases Nat.eq_zero_or_pos n with h0 | h0
  · rw [((rotate_spec w x n hw hx hn).2.2 h0).2]; exact hx
  · rw [((rotate_spec w x n hw hx hn).2.1 h0).2]; exact Nat.mod_lt _ (Nat.two_pow_pos w)

/-- C22: for word width `w` in {32, 64}, every `w`-bit `x` and every `n`
with `0 <= n < w`, `rotr(rotl(x, n), n) = x` and `rotl(rotr(x, n), n) = x`;
and for `0 < n < w`, `rotl(x, n) = rotr(x, w - n)`. -/
theorem rotate_inverse (w x n : Nat) (hw : w = 32 ∨ w = 64) (hx : x < 2 ^ w) (hn : n < w) :
    rotr w (rotl w x n) n = x ∧ rotl w (rotr w x n) n = x ∧
    (0 < n → rotl w x n = rotr w x (w - n)) := by
  rcases Nat.eq_zero_or_pos n with h0 | h0
  · subst h0
    have hz := (rotate_spec w x 0 hw hx hn).2.2 rfl
    refine ⟨?_, ?_, fun h => absurd h (by decide)⟩
    · rw [hz.1, hz.2]
    · rw [hz.2, hz.1]
  · refine ⟨?_, ?_, fun _ => ?_⟩
    · apply Nat.eq_of_testBit_eq
      intro k
      rw [testBit_rotr w _ n k hw (rotl_lt w x n hw hx hn) h0 hn]
      by_cases h1 : k < w - n
      · rw [if_pos h1, testBit_rotl w x n (k + n) hw hx h0 hn, if_neg (by omega),
          if_pos (by omega), Nat.add_sub_cancel]
      · by_cases h2 : k < w
        · rw [if_neg h1, if_pos h2, testBit_rotl w x n _ hw hx h0 hn, if_pos (by omega),
            show k - (w - n) + (w - n) = k by omega]
        · rw [if_neg h1, if_neg h2, testBit_of_lt_two_pow w x k hx (by omega)]
    · apply Nat.eq_of_testBit_eq
      intro k
      rw [testBit_rotl w _ n k hw (rotr_lt w x n hw hx hn) h0 hn]
      by_cases h1 : k < n
      · rw [if_pos h1, testBit_rotr w x n _ hw hx h0 hn, if_neg (by omega), if_pos (by omega),
          show k + (w - n) - (w - n) = k by omega]
      · by_cases h2 : k < w
        · rw [if_neg h1, if_pos h2, testBit_rotr w x n _ hw hx h0 hn, if_pos (by omega),
            show k - n + n = k by omega]
        · rw [if_neg h1, if_neg h2, testBit_of_lt_two_pow w x k hx (by omega)]
    · apply Nat.eq_of_testBit_eq
      intro k
      rw [testBit_rotl w x n k hw hx h0 hn, testBit_rotr w x (w - n) k hw hx (by omega) (by omega),
        show w - (w - n) = n by omega]

/-- Witness of `rotate_inverse`: a 32-bit word rotated by seven positions. -/
theorem rotate_inverse_witness :
    (32 = 32 ∨ 32 = 64) ∧ 0x80000001 < 2 ^ 32 ∧ 7 < 32 ∧
    rotr 32 (rotl 32 0x80000001 7) 7 = 0x80000001 ∧
    rotl 32 (rotr 32 0x80000001 7) 7 = 0x80000001 ∧
    (0 < 7 → rotl 32 0x80000001 7 = rotr 32 0x80000001 (32 - 7)) :=
  ⟨Or.inl rfl, by decide, by decide,
    rotate_inverse 32 0x80000001 7 (Or.inl rfl) (by decide) (by decide)⟩

/-! ## Padding against FIPS 180-4 -/

/-- Below `2 ^ 32` the 64-bit encoding is four zero bytes and the four
length bytes. -/
theorem be64_small (L : Nat) (h : L * 8 < 2 ^ 32) :
    be64 (L * 8) = [0, 0, 0, 0] ++ length_bytes L := by
  unfold be64 length_bytes
  generalize L * 8 = n at h ⊢
  have h64 : n % 2 ^ 64 = n := Nat.mod_eq_of_lt (by omega)
  simp only [h64, Nat.shiftRight_eq_div_pow, List.cons_append, List.nil_append]
  have h56 : n / 2 ^ 56 % 256 = 0 := by omega
  have h48 : n / 2 ^ 48 % 256 = 0 := by omega
  have h40 : n / 2 ^ 40 % 256 = 0 := by omega
  have h32 : n / 2 ^ 32 % 256 = 0 := by omega
  rw [h56, h48, h40, h32]

/-- Below `2 ^ 32` the 128-bit encoding is twelve zero bytes and the four
length bytes. -/
theorem be128_small (L : Nat) (h : L * 8 < 2 ^ 32) :
    be128 (L * 8) = List.replicate 12 0 ++ length_bytes L := by
  unfold be128 length_bytes
  generalize L * 8 = n at h ⊢
  have h64 : n % 2 ^ 64 = n := Nat.mod_eq_of_lt (by omega)
  simp only [h64, Nat.shiftRight_eq_div_pow]
  have h120 : n / 2 ^ 120 % 256 = 0 := by omega
  have h112 : n / 2 ^ 112 % 256 = 0 := by omega
  have h104 : n / 2 ^ 104 % 256 = 0 := by omega
  have h96 : n / 2 ^ 96 % 256 = 0 := by omega
  have h88 : n / 2 ^ 88 % 256 = 0 := by omega
  have h80 : n / 2 ^ 80 % 256 = 0 := by omega
  have h72 : n / 2 ^ 72 % 256 = 0 := by omega
  have h64' : n / 2 ^ 64 % 256 = 0 := by omega
  have h56 : n / 2 ^ 56 % 256 = 0 := by omega
  have h48 : n / 2 ^ 48 % 256 = 0 := by omega
  have h40 : n / 2 ^ 40 % 256 = 0 := by omega
  have h32 : n / 2 ^ 32 % 256 = 0 := by omega
  rw [h120, h112, h104, h96, h88, h80, h72, h64', h56, h48, h40, h32]
  rfl

/-- The padded message of a message below `2 ^ 29` bytes, with the length
field of `F` bytes written as `F - 4` zero bytes and the four length bytes:
message, marker, `padlen - 1 - F` zero bytes, length field; and that number
of zero bytes is the least one that completes a block. -/
theorem padding_shape_fips (B R F : Nat) (hB : 0 < B) (hF : 4 ≤ F) (hR : R = F + 1)
    (hRB : R ≤ B + 1) (msg : List Nat) :
    padding_shape B R msg =
      msg ++ [0x80] ++ List.replicate (padlen B R msg.length - R) 0 ++
        (List.replicate (F - 4) 0 ++ length_bytes msg.length) ∧
    (msg.length + 1 + (padlen B R msg.length - R) + F) % B = 0 ∧
    ∀ k, (msg.length + 1 + k + F) % B = 0 → padlen B R msg.length - R ≤ k := by
  obtain ⟨h1, h2, h3⟩ := padlen_bounds B R msg.length hB (by omega) hRB
  refine ⟨?_, ?_, fun k hk => ?_⟩
  · rw [padding_shape_eq B R hB (by omega) hRB,
      show padlen B R msg.length - 5 = (padlen B R msg.length - R) + (F - 4) by omega,
      List.replicate_add]
    simp only [List.append_assoc, List.cons_append, List.nil_append, List.singleton_append]
  · rw [show msg.length + 1 + (padlen B R msg.length - R) + F =
      msg.length + padlen B R msg.length by omega]
    exact h3
  · by_contra hlt
    have hd : B ∣ (msg.length + padlen B R msg.length) - (msg.length + 1 + k + F) :=
      Nat.dvd_sub' (Nat.dvd_of_mod_eq_zero h3) (Nat.dvd_of_mod_eq_zero hk)
    have hle := Nat.le_of_dvd (by omega) hd
    omega

/-- C21: for every message `m` shorter than `2 ^ 29` bytes (bit length
below `2 ^ 32`) the padded message of each engine is the FIPS 180-4 padding
`m || 0x80 || 0x00^k || BE(8 * L)`, where `BE` is the 8-byte (SHA-1, SHA-256)
or 16-byte (SHA-512) big-endian encoding of the bit length and `k` is the
least number of zero bytes that makes the total a multiple of the block
size. -/
theorem padding_is_fips (m : List Nat) (h : m.length < 2 ^ 29) :
    (∃ k, SHA1.padding m = m ++ [0x80] ++ List.replicate k 0 ++ be64 (m.length * 8) ∧
      (m.length + 1 + k + 8) % 64 = 0 ∧
      ∀ j, (m.length + 1 + j + 8) % 64 = 0 → k ≤ j) ∧
    (∃ k, SHA256.padding m = m ++ [0x80] ++ List.replicate k 0 ++ be64 (m.length * 8) ∧
      (m.length + 1 + k + 8) % 64 = 0 ∧
      ∀ j, (m.length + 1 + j + 8) % 64 = 0 → k ≤ j) ∧
    (∃ k, SHA512.padding m = m ++ [0x80] ++ List.replicate k 0 ++ be128 (m.length * 8) ∧
      (m.length + 1 + k + 16) % 128 = 0 ∧
      ∀ j, (m.length + 1 + j + 16) % 128 = 0 → k ≤ j) := by
  have h8 : m.length * 8 < 2 ^ 32 := by omega
  have h64 := padding_shape_fips 64 9 8 (by decide) (by decide) rfl (by decide) m
  have h128 := padding_shape_fips 128 17 16 (by decide) (by decide) rfl (by decide) m
  rw [sha1_padding_eq_shape, sha256_padding_eq_shape, sha512_padding_eq_shape, be64_small _ h8,
    be128_small _ h8]
  exact ⟨⟨_, h64⟩, ⟨_, h64⟩, ⟨_, h128⟩⟩

/-- Witness of `padding_is_fips`: the message "abc". -/
theorem padding_is_fips_witness :
    message_abc.length < 2 ^ 29 ∧
    (∃ k, SHA1.padding message_abc =
        message_abc ++ [0x80] ++ List.replicate k 0 ++ be64 (message_abc.length * 8) ∧
      (message_abc.length + 1 + k + 8) % 64 = 0 ∧
      ∀ j, (message_abc.length + 1 + j + 8) % 64 = 0 → k ≤ j) ∧
    (∃ k, SHA256.padding message_abc =
        message_abc ++ [0x80] ++ List.replicate k 0 ++ be64 (message_abc.length * 8) ∧
      (message_abc.length + 1 + k + 8) % 64 = 0 ∧
      ∀ j, (message_abc.length + 1 + j + 8) % 64 = 0 → k ≤ j) ∧
    (∃ k, SHA512.padding message_abc =
        message_abc ++ [0x80] ++ List.replicate k 0 ++
          be128 (message_abc.length * 8) ∧
      (message_abc.length + 1 + k + 16) % 128 = 0 ∧
      ∀ j, (message_abc.length + 1 + j + 16) % 128 = 0 → k ≤ j) :=
  ⟨by decide, padding_is_fips message_abc (by decide)⟩

/-! ## Indexed accesses -/

/-- A loop that only stores into cells keeps the length of the array. -/
theorem foldl_set_length (f : List Nat → Nat → Nat) (l : List Nat) (W : List Nat) :
    (l.foldl (fun W t => W.set t (f W t)) W).length = W.length := by
  induction l generalizing W with
  | nil => rfl
  | cons a l ih => rw [List.foldl_cons, ih, List.length_set]

/-- The schedule array of `SHA1::hash` has 80 cells when the main loop
starts. -/
theorem sha1_schedule_length (P : List Nat) (i : Nat) :
    (SHA1.expand (SHA1.load_words P i (List.replicate 80 0))).length = 80 := by
  unfold SHA1.expand SHA1.load_words
  dsimp only
  rw [foldl_set_length, foldl_set_length, List.length_replicate]

/-- The schedule array of `SHA256::hash` has 64 cells when the main loop
starts. -/
theorem sha256_schedule_length (P : List Nat) (i : Nat) :
    (SHA256.expand (SHA256.load_words P i (List.replicate 64 0))).length = 64 := by
  unfold SHA256.expand SHA256.load_words
  dsimp only
  rw [foldl_set_length, foldl_set_length, List.length_replicate]

/-- The schedule array of `SHA512::hash` has 80 cells when the main loop
starts. -/
theorem sha512_schedule_length (P : List Nat) (i : Nat) :
    (SHA512.expand (SHA512.load_words P i (List.replicate 80 0))).length = 80 := by
  unfold SHA512.expand SHA512.load_words
  dsimp only
  rw [foldl_set_length, foldl_set_length, List.length_replicate]

/-- Bounds of the writes of a padding function with block size `B` and
reserve `R`: the marker index and the four length-byte indices are distinct
and valid. -/
theorem padding_shape_writes (B R : Nat) (hB : 0 < B) (hR5 : 5 ≤ R) (hR : R ≤ B + 1)
    (msg : List Nat) :
    (padding_shape B R msg).length = msg.length + padlen B R msg.length ∧
    R ≤ padlen B R msg.length ∧ padlen B R msg.length ≤ R + B - 1 ∧
    msg.length < (padding_shape B R msg).length - 4 ∧
    (padding_shape B R msg).length - 4 < (padding_shape B R msg).length - 3 ∧
    (padding_shape B R msg).length - 3 < (padding_shape B R msg).length - 2 ∧
    (padding_shape B R msg).length - 2 < (padding_shape B R msg).length - 1 ∧
    (padding_shape B R msg).length - 1 < (padding_shape B R msg).length := by
  obtain ⟨h1, h2, -⟩ := padlen_bounds B R msg.length hB (by omega) hR
  rw [padding_shape_length B R hB hR5 hR]
  refine ⟨rfl, h1, ?_, ?_, ?_, ?_, ?_, ?_⟩ <;> omega

/-! ## Indexed accesses: the bounds-checked engines never fail -/

/-- A checked read inside the bounds. -/
theorem read_at_eq (v : List Nat) (i : Nat) (h : i < v.length) :
    read_at v i = some (v.getD i 0) := by
  unfold read_at
  rw [List.getD_eq_getElem?_getD, List.getElem?_eq_getElem h]
  rfl

/-- A checked write inside the bounds. -/
theorem write_at_eq (v : List Nat) (i x : Nat) (h : i < v.length) :
    write_at v i x = some (v.set i x) := by
  unfold write_at
  rw [if_pos h]

/-- The checked statement `H[k] = x + H[k]` inside the bounds. -/
theorem add_into_eq (w : Nat) (H : List Nat) (k x : Nat) (h : k < H.length) :
    add_into w H k x = some (H.set k ((x + H.getD k 0) % 2 ^ w)) := by
  unfold add_into
  rw [read_at_eq H k h]
  simp only [Option.some_bind, Option.bind_eq_bind]
  rw [write_at_eq H k _ h]

/-- The checked statement `M[pos] = H[i] >> s` inside the bounds. -/
theorem store_byte_eq (H M : List Nat) (i pos s : Nat) (hi : i < H.length)
    (hp : pos < M.length) :
    store_byte H M i pos s = some (M.set pos ((H.getD i 0 >>> s) % 256)) := by
  unfold store_byte
  rw [read_at_eq H i hi]
  simp only [Option.some_bind, Option.bind_eq_bind]
  rw [write_at_eq M pos _ hp]

/-- The checked statement `M[pos] = H[i]` inside the bounds. -/
theorem store_low_byte_eq (H M : List Nat) (i pos : Nat) (hi : i < H.length)
    (hp : pos < M.length) :
    store_low_byte H M i pos = some (M.set pos (H.getD i 0 % 256)) := by
  unfold store_low_byte
  rw [read_at_eq H i hi]
  simp only [Option.some_bind, Option.bind_eq_bind]
  rw [write_at_eq M pos _ hp]

/-- A checked loop whose every step succeeds and agrees with the unchecked
step, as long as an invariant holds, succeeds and agrees with the unchecked
loop, and the invariant holds at the end. -/
theorem foldlM_eq_some_inv {α β : Type} (f : β → α → β) (g : β → α → Option β)
    (Inv : β → Prop) (l : List α) (b : β) (hb : Inv b)
    (hstep : ∀ b a, a ∈ l → Inv b → g b a = some (f b a) ∧ Inv (f b a)) :
    l.foldlM g b = some (l.foldl f b) ∧ Inv (l.foldl f b) := by
  induction l generalizing b with
  | nil => exact ⟨rfl, hb⟩
  | cons a l ih =>
    obtain ⟨h1, h2⟩ := hstep b a (List.mem_cons_self _ _) hb
    rw [List.foldlM_cons, h1, List.foldl_cons]
    exact ih (f b a) h2 fun b' a' ha' hb' => hstep b' a' (List.mem_cons_of_mem _ ha') hb'

/-- A checked loop whose every step succeeds and agrees with the unchecked
step, as long as an invariant holds, succeeds and agrees with the unchecked
loop. -/
theorem foldlM_eq_some {α β : Type} (f : β → α → β) (g : β → α → Option β)
    (Inv : β → Prop) (l : List α) (b : β) (hb : Inv b)
    (hstep : ∀ b a, a ∈ l → Inv b → g b a = some (f b a) ∧ Inv (f b a)) :
    l.foldlM g b = some (l.foldl f b) :=
  (foldlM_eq_some_inv f g Inv l b hb hstep).1

/-- Every write of a padding function is inside the buffer: the checked
padding succeeds and gives the padded message. -/
theorem padding_shape_checked_eq (B R : Nat) (hB : 0 < B) (hR5 : 5 ≤ R) (hR : R ≤ B + 1)
    (msg : List Nat) : padding_shape_checked B R msg = some (padding_shape B R msg) := by
  obtain ⟨h1, -, -⟩ := padlen_bounds B R msg.length hB (by omega) hR
  have hp : (if B - msg.length % B < R then B - msg.length % B + B else B - msg.length % B)
      = padlen B R msg.length := rfl
  simp only [padding_shape_checked, padding_shape, hp]
  generalize padlen B R msg.length = p at h1 ⊢
  have hc : copy_checked msg (List.replicate (msg.length + p) 0) =
      some (copy msg (List.replicate (msg.length + p) 0)) := by
    unfold copy_checked
    rw [if_pos (by rw [List.length_replicate]; omega)]
  have hl : (copy msg (List.replicate (msg.length + p) 0)).length = msg.length + p := by
    simp [copy]
  rw [hc]
  simp only [Option.some_bind, Option.bind_eq_bind]
  rw [write_at_eq _ _ _ (by rw [hl]; omega)]
  simp only [Option.some_bind, Option.bind_eq_bind]
  rw [write_at_eq _ _ _ (by simp only [List.length_set]; rw [hl]; omega)]
  simp only [Option.some_bind, Option.bind_eq_bind]
  rw [write_at_eq _ _ _ (by simp only [List.length_set]; rw [hl]; omega)]
  simp only [Option.some_bind, Option.bind_eq_bind]
  rw [write_at_eq _ _ _ (by simp only [List.length_set]; rw [hl]; omega)]
  simp only [Option.some_bind, Option.bind_eq_bind]
  rw [write_at_eq _ _ _ (by simp only [List.length_set]; rw [hl]; omega)]
  rfl

/-- Every access of the first inner loop of `SHA1::hash` is in bounds for
a chunk index below the number of chunks. -/
theorem sha1_load_words_checked_eq (P W : List Nat) (i : Nat) (hW : W.length = 80)
    (hi : i < P.length / 64) :
    SHA1.load_words_checked P i W = some (SHA1.load_words P i W) ∧
    (SHA1.load_words P i W).length = 80 := by
  unfold SHA1.load_words_checked SHA1.load_words
  apply foldlM_eq_some_inv _ _ (fun W : List Nat => W.length = 80) _ _ hW
  intro W t ht hW
  have ht16 : t < 16 := List.mem_range.1 ht
  have hb : (i * 64 + t * 4) % 2 ^ 32 + 3 < P.length := by omega
  dsimp only
  rw [read_at_eq P _ (by omega), read_at_eq P _ (by omega), read_at_eq P _ (by omega),
    read_at_eq P _ (by omega)]
  simp only [Option.some_bind, Option.bind_eq_bind]
  rw [write_at_eq _ _ _ (by omega)]
  exact ⟨rfl, by rw [List.length_set]; exact hW⟩

/-- Every access of the second inner loop of `SHA1::hash` is in bounds. -/
theorem sha1_expand_checked_eq (W : List Nat) (hW : W.length = 80) :
    SHA1.expand_checked W = some (SHA1.expand W) ∧ (SHA1.expand W).length = 80 := by
  unfold SHA1.expand_checked SHA1.expand
  apply foldlM_eq_some_inv _ _ (fun W : List Nat => W.length = 80) _ _ hW
  intro W t ht hW
  have ht' := List.mem_range'_1.1 ht
  rw [read_at_eq W _ (by omega), read_at_eq W _ (by omega), read_at_eq W _ (by omega),
    read_at_eq W _ (by omega)]
  simp only [Option.some_bind, Option.bind_eq_bind]
  rw [write_at_eq _ _ _ (by omega)]
  exact ⟨rfl, by rw [List.length_set]; exact hW⟩

/-- Every access of the main loop of `SHA1::hash` is in bounds. -/
theorem sha1_rounds_checked_eq (W : List Nat) (v : SHA1.Vars) (hW : W.length = 80) :
    (List.range 80).foldlM (SHA1.round_checked W) v =
      some ((List.range 80).foldl (SHA1.round W) v) := by
  apply foldlM_eq_some _ _ (fun _ => True) _ _ trivial
  intro v t ht _
  have ht' : t < 80 := List.mem_range.1 ht
  unfold SHA1.round_checked SHA1.round
  rw [read_at_eq W t (by omega)]
  exact ⟨rfl, trivial⟩

/-- Every access of the chunk-loop body of `SHA1::hash` is in bounds for a
chunk index below the number of chunks. -/
theorem sha1_chunk_checked_eq (P H : List Nat) (i : Nat) (hH : H.length = 5)
    (hi : i < P.length / 64) :
    SHA1.chunk_checked P H i = some (SHA1.chunk P H i) := by
  obtain ⟨hl, hll⟩ := sha1_load_words_checked_eq P (List.replicate 80 0) i
    (List.length_replicate _ _) hi
  obtain ⟨he, hel⟩ := sha1_expand_checked_eq _ hll
  unfold SHA1.chunk_checked
  rw [hl]
  simp only [Option.some_bind, Option.bind_eq_bind]
  rw [he]
  simp only [Option.some_bind, Option.bind_eq_bind]
  match H, hH with
  | [x0, x1, x2, x3, x4], _ =>
    rw [show SHA1.init_vars_checked [x0, x1, x2, x3, x4] =
      some { a := x0, b := x1, c := x2, d := x3, e := x4 } from rfl]
    simp only [Option.some_bind, Option.bind_eq_bind]
    rw [sha1_rounds_checked_eq _ _ hel]
    simp only [Option.some_bind, Option.bind_eq_bind]
    unfold SHA1.update_checked
    rw [add_into_eq 32 _ 0 _
      (by simp only [List.length_set, List.length_cons, List.length_nil]; omega)]
    simp only [Option.some_bind, Option.bind_eq_bind]
    rw [add_into_eq 32 _ 1 _
      (by simp only [List.length_set, List.length_cons, List.length_nil]; omega)]
    simp only [Option.some_bind, Option.bind_eq_bind]
    rw [add_into_eq 32 _ 2 _
      (by simp only [List.length_set, List.length_cons, List.length_nil]; omega)]
    simp only [Option.some_bind, Option.bind_eq_bind]
    rw [add_into_eq 32 _ 3 _
      (by simp only [List.length_set, List.length_cons, List.length_nil]; omega)]
    simp only [Option.some_bind, Option.bind_eq_bind]
    rw [add_into_eq 32 _ 4 _
      (by simp only [List.length_set, List.length_cons, List.length_nil]; omega)]
    rfl

/-- Every access of the final loop of `SHA1::hash` is in bounds. -/
theorem sha1_digest_checked_eq (H : List Nat) (hH : H.length = 5) :
    SHA1.digest_checked H = some (SHA1.digest H) := by
  unfold SHA1.digest_checked SHA1.digest
  apply foldlM_eq_some _ _ (fun M : List Nat => M.length = 20) _ _
    (List.length_replicate _ _)
  intro M i hi hM
  have hi' : i < 5 := List.mem_range.1 hi
  dsimp only
  rw [store_byte_eq H _ i _ _ (by omega) (by omega)]
  simp only [Option.some_bind, Option.bind_eq_bind]
  rw [store_byte_eq H _ i _ _ (by omega) (by simp only [List.length_set]; omega)]
  simp only [Option.some_bind, Option.bind_eq_bind]
  rw [store_byte_eq H _ i _ _ (by omega) (by simp only [List.length_set]; omega)]
  simp only [Option.some_bind, Option.bind_eq_bind]
  rw [store_low_byte_eq H _ i _ (by omega) (by simp only [List.length_set]; omega)]
  exact ⟨rfl, by simp only [List.length_set]; exact hM⟩

/-- For every message the bounds-checked `SHA1::padding` succeeds and gives
the padded message. -/
theorem sha1_padding_checked_eq (m : List Nat) :
    SHA1.padding_checked m = some (SHA1.padding m) := by
  rw [sha1_padding_eq_shape,
    show SHA1.padding_checked m = padding_shape_checked 64 9 m from rfl]
  exact padding_shape_checked_eq 64 9 (by decide) (by decide) (by decide) m

/-- For every message the bounds-checked `SHA1::hash` succeeds and gives the
digest: no indexed access of `padding` or `hash` is out of range. -/
theorem sha1_hash_checked_eq (m : List Nat) : SHA1.hash_checked m = some (SHA1.hash m) := by
  unfold SHA1.hash_checked SHA1.hash
  rw [sha1_padding_checked_eq]
  simp only [Option.some_bind, Option.bind_eq_bind]
  obtain ⟨hf, hfl⟩ := foldlM_eq_some_inv (SHA1.chunk (SHA1.padding m))
    (SHA1.chunk_checked (SHA1.padding m)) (fun H : List Nat => H.length = 5)
    (List.range ((SHA1.padding m).length / 64)) SHA1.H0 rfl
    (fun H i hi hH => ⟨sha1_chunk_checked_eq _ H i hH (List.mem_range.1 hi), rfl⟩)
  rw [hf]
  simp only [Option.some_bind, Option.bind_eq_bind]
  exact sha1_digest_checked_eq _ hfl

/-- Every access of the first inner loop of `SHA256::hash` is in bounds for
a chunk index below the number of chunks. -/
theorem sha256_load_words_checked_eq (P W : List Nat) (i : Nat) (hW : W.length = 64)
    (hi : i < P.length / 64) :
    SHA256.load_words_checked P i W = some (SHA256.load_words P i W) ∧
    (SHA256.load_words P i W).length = 64 := by
  unfold SHA256.load_words_checked SHA256.load_words
  apply foldlM_eq_some_inv _ _ (fun W : List Nat => W.length = 64) _ _ hW
  intro W t ht hW
  have ht16 : t < 16 := List.mem_range.1 ht
  have hb : (i * 64 + t * 4) % 2 ^ 32 + 3 < P.length := by omega
  dsimp only
  rw [read_at_eq P _ (by omega), read_at_eq P _ (by omega), read_at_eq P _ (by omega),
    read_at_eq P _ (by omega)]
  simp only [Option.some_bind, Option.bind_eq_bind]
  rw [write_at_eq _ _ _ (by omega)]
  exact ⟨rfl, by rw [List.length_set]; exact hW⟩

/-- Every access of the second inner loop of `SHA256::hash` is in bounds. -/
theorem sha256_expand_checked_eq (W : List Nat) (hW : W.length = 64) :
    SHA256.expand_checked W = some (SHA256.expand W) ∧ (SHA256.expand W).length = 64 := by
  unfold SHA256.expand_checked SHA256.expand
  apply foldlM_eq_some_inv _ _ (fun W : List Nat => W.length = 64) _ _ hW
  intro W t ht hW
  have ht' := List.mem_range'_1.1 ht
  rw [read_at_eq W _ (by omega), read_at_eq W _ (by omega), read_at_eq W _ (by omega),
    read_at_eq W _ (by omega)]
  simp only [Option.some_bind, Option.bind_eq_bind]
  rw [write_at_eq _ _ _ (by omega)]
  exact ⟨rfl, by rw [List.length_set]; exact hW⟩

/-- Every access of the main loop of `SHA256::hash` is in bounds. -/
theorem sha256_rounds_checked_eq (W : List Nat) (v : SHA256.Vars) (hW : W.length = 64) :
    (List.range 64).foldlM (SHA256.round_checked W) v =
      some ((List.range 64).foldl (SHA256.round W) v) := by
  apply foldlM_eq_some _ _ (fun _ => True) _ _ trivial
  intro v t ht _
  have ht' : t < 64 := List.mem_range.1 ht
  unfold SHA256.round_checked SHA256.round
  rw [read_at_eq SHA256.K t (by rw [show SHA256.K.length = 64 from rfl]; exact ht'),
    read_at_eq W t (by omega)]
  exact ⟨rfl, trivial⟩

/-- Every access of the chunk-loop body of `SHA256::hash` is in bounds for a
chunk index below the number of chunks. -/
theorem sha256_chunk_checked_eq (P H : List Nat) (i : Nat) (hH : H.length = 8)
    (hi : i < P.length / 64) :
    SHA256.chunk_checked P H i = some (SHA256.chunk P H i) := by
  obtain ⟨hl, hll⟩ := sha256_load_words_checked_eq P (List.replicate 64 0) i
    (List.length_replicate _ _) hi
  obtain ⟨he, hel⟩ := sha256_expand_checked_eq _ hll
  unfold SHA256.chunk_checked
  rw [hl]
  simp only [Option.some_bind, Option.bind_eq_bind]
  rw [he]
  simp only [Option.some_bind, Option.bind_eq_bind]
  match H, hH with
  | [x0, x1, x2, x3, x4, x5, x6, x7], _ =>
    rw [show SHA256.init_vars_checked [x0, x1, x2, x3, x4, x5, x6, x7] =
      some { a := x0, b := x1, c := x2, d := x3, e := x4, f := x5, g := x6, h := x7 } from rfl]
    simp only [Option.some_bind, Option.bind_eq_bind]
    rw [sha256_rounds_checked_eq _ _ hel]
    simp only [Option.some_bind, Option.bind_eq_bind]
    unfold SHA256.update_checked
    rw [add_into_eq 32 _ 0 _
      (by simp only [List.length_set, List.length_cons, List.length_nil]; omega)]
    simp only [Option.some_bind, Option.bind_eq_bind]
    rw [add_into_eq 32 _ 1 _
      (by simp only [List.length_set, List.length_cons, List.length_nil]; omega)]
    simp only [Option.some_bind, Option.bind_eq_bind]
    rw [add_into_eq 32 _ 2 _
      (by simp only [List.length_set, List.length_cons, List.length_nil]; omega)]
    simp only [Option.some_bind, Option.bind_eq_bind]
    rw [add_into_eq 32 _ 3 _
      (by simp only [List.length_set, List.length_cons, List.length_nil]; omega)]
    simp only [Option.some_bind, Option.bind_eq_bind]
    rw [add_into_eq 32 _ 4 _
      (by simp only [List.length_set, List.length_cons, List.length_nil]; omega)]
    simp only [Option.some_bind, Option.bind_eq_bind]
    rw [add_into_eq 32 _ 5 _
      (by simp only [List.length_set, List.length_cons, List.length_nil]; omega)]
    simp only [Option.some_bind, Option.bind_eq_bind]
    rw [add_into_eq 32 _ 6 _
      (by simp only [List.length_set, List.length_cons, List.length_nil]; omega)]
    simp only [Option.some_bind, Option.bind_eq_bind]
    rw [add_into_eq 32 _ 7 _
      (by simp only [List.length_set, List.length_cons, List.length_nil]; omega)]
    rfl

/-- Every access of the final loop of `SHA256::hash` is in bounds. -/
theorem sha256_digest_checked_eq (H : List Nat) (hH : H.length = 8) :
    SHA256.digest_checked H = some (SHA256.digest H) := by
  unfold SHA256.digest_checked SHA256.digest
  apply foldlM_eq_some _ _ (fun M : List Nat => M.length = 32) _ _
    (List.length_replicate _ _)
  intro M i hi hM
  have hi' : i < 8 := List.mem_range.1 hi
  dsimp only
  rw [store_byte_eq H _ i _ _ (by omega) (by omega)]
  simp only [Option.some_bind, Option.bind_eq_bind]
  rw [store_byte_eq H _ i _ _ (by omega) (by simp only [List.length_set]; omega)]
  simp only [Option.some_bind, Option.bind_eq_bind]
  rw [store_byte_eq H _ i _ _ (by omega) (by simp only [List.length_set]; omega)]
  simp only [Option.some_bind, Option.bind_eq_bind]
  rw [store_low_byte_eq H _ i _ (by omega) (by simp only [List.length_set]; omega)]
  exact ⟨rfl, by simp only [List.length_set]; exact hM⟩

/-- For every message the bounds-checked `SHA256::padding` succeeds and gives
the padded message. -/
theorem sha256_padding_checked_eq (m : List Nat) :
    SHA256.padding_checked m = some (SHA256.padding m) := by
  rw [sha256_padding_eq_shape,
    show SHA256.padding_checked m = padding_shape_checked 64 9 m from rfl]
  exact padding_shape_checked_eq 64 9 (by decide) (by decide) (by decide) m

/-- For every message the bounds-checked `SHA256::hash` succeeds and gives the
digest: no indexed access of `padding` or `hash` is out of range. -/
theorem sha256_hash_checked_eq (m : List Nat) : SHA256.hash_checked m = some (SHA256.hash m) := by
  unfold SHA256.hash_checked SHA256.hash
  rw [sha256_padding_checked_eq]
  simp only [Option.some_bind, Option.bind_eq_bind]
  obtain ⟨hf, hfl⟩ := foldlM_eq_some_inv (SHA256.chunk (SHA256.padding m))
    (SHA256.chunk_checked (SHA256.padding m)) (fun H : List Nat => H.length = 8)
    (List.range ((SHA256.padding m).length / 64)) SHA256.H0 rfl
    (fun H i hi hH => ⟨sha256_chunk_checked_eq _ H i hH (List.mem_range.1 hi), rfl⟩)
  rw [hf]
  simp only [Option.some_bind, Option.bind_eq_bind]
  exact sha256_digest_checked_eq _ hfl

/-- Every access of the first inner loop of `SHA512::hash` is in bounds for
a chunk index below the number of chunks. -/
theorem sha512_load_words_checked_eq (P W : List Nat) (i : Nat) (hW : W.length = 80)
    (hi : i < P.length / 128) :
    SHA512.load_words_checked P i W = some (SHA512.load_words P i W) ∧
    (SHA512.load_words P i W).length = 80 := by
  unfold SHA512.load_words_checked SHA512.load_words
  apply foldlM_eq_some_inv _ _ (fun W : List Nat => W.length = 80) _ _ hW
  intro W t ht hW
  have ht16 : t < 16 := List.mem_range.1 ht
  have hb : 128 * i + t * 8 + 7 < P.length := by omega
  dsimp only
  rw [read_at_eq P _ (by omega), read_at_eq P _ (by omega), read_at_eq P _ (by omega),
    read_at_eq P _ (by omega), read_at_eq P _ (by omega), read_at_eq P _ (by omega),
    read_at_eq P _ (by omega), read_at_eq P _ (by omega)]
  simp only [Option.some_bind, Option.bind_eq_bind]
  rw [write_at_eq _ _ _ (by omega)]
  exact ⟨rfl, by rw [List.length_set]; exact hW⟩

/-- Every access of the second inner loop of `SHA512::hash` is in bounds. -/
theorem sha512_expand_checked_eq (W : List Nat) (hW : W.length = 80) :
    SHA512.expand_checked W = some (SHA512.expand W) ∧ (SHA512.expand W).length = 80 := by
  unfold SHA512.expand_checked SHA512.expand
  apply foldlM_eq_some_inv _ _ (fun W : List Nat => W.length = 80) _ _ hW
  intro W t ht hW
  have ht' := List.mem_range'_1.1 ht
  rw [read_at_eq W _ (by omega), read_at_eq W _ (by omega), read_at_eq W _ (by omega),
    read_at_eq W _ (by omega)]
  simp only [Option.some_bind, Option.bind_eq_bind]
  rw [write_at_eq _ _ _ (by omega)]
  exact ⟨rfl, by rw [List.length_set]; exact hW⟩

/-- Every access of the main loop of `SHA512::hash` is in bounds. -/
theorem sha512_rounds_checked_eq (W : List Nat) (v : SHA512.Vars) (hW : W.length = 80) :
    (List.range 80).foldlM (SHA512.round_checked W) v =
      some ((List.range 80).foldl (SHA512.round W) v) := by
  apply foldlM_eq_some _ _ (fun _ => True) _ _ trivial
  intro v t ht _
  have ht' : t < 80 := List.mem_range.1 ht
  unfold SHA512.round_checked SHA512.round
  rw [read_at_eq SHA512.K t (by rw [show SHA512.K.length = 80 from rfl]; exact ht'),
    read_at_eq W t (by omega)]
  exact ⟨rfl, trivial⟩

/-- Every access of the chunk-loop body of `SHA512::hash` is in bounds for a
chunk index below the number of chunks. -/
theorem sha512_chunk_checked_eq (P H : List Nat) (i : Nat) (hH : H.length = 8)
    (hi : i < P.length / 128) :
    SHA512.chunk_checked P H i = some (SHA512.chunk P H i) := by
  obtain ⟨hl, hll⟩ := sha512_load_words_checked_eq P (List.replicate 80 0) i
    (List.length_replicate _ _) hi
  obtain ⟨he, hel⟩ := sha512_expand_checked_eq _ hll
  unfold SHA512.chunk_checked
  rw [hl]
  simp only [Option.some_bind, Option.bind_eq_bind]
  rw [he]
  simp only [Option.some_bind, Option.bind_eq_bind]
  match H, hH with
  | [x0, x1, x2, x3, x4, x5, x6, x7], _ =>
    rw [show SHA512.init_vars_checked [x0, x1, x2, x3, x4, x5, x6, x7] =
      some { a := x0, b := x1, c := x2, d := x3, e := x4, f := x5, g := x6, h := x7 } from rfl]
    simp only [Option.some_bind, Option.bind_eq_bind]
    rw [sha512_rounds_checked_eq _ _ hel]
    simp only [Option.some_bind, Option.bind_eq_bind]
    unfold SHA512.update_checked
    rw [add_into_eq 64 _ 0 _
      (by simp only [List.length_set, List.length_cons, List.length_nil]; omega)]
    simp only [Option.some_bind, Option.bind_eq_bind]
    rw [add_into_eq 64 _ 1 _
      (by simp only [List.length_set, List.length_cons, List.length_nil]; omega)]
    simp only [Option.some_bind, Option.bind_eq_bind]
    rw [add_into_eq 64 _ 2 _
      (by simp only [List.length_set, List.length_cons, List.length_nil]; omega)]
    simp only [Option.some_bind, Option.bind_eq_bind]
    rw [add_into_eq 64 _ 3 _
      (by simp only [List.length_set, List.length_cons, List.length_nil]; omega)]
    simp only [Option.some_bind, Option.bind_eq_bind]
    rw [add_into_eq 64 _ 4 _
      (by simp only [List.length_set, List.length_cons, List.length_nil]; omega)]
    simp only [Option.some_bind, Option.bind_eq_bind]
    rw [add_into_eq 64 _ 5 _
      (by simp only [List.length_set, List.length_cons, List.length_nil]; omega)]
    simp only [Option.some_bind, Option.bind_eq_bind]
    rw [add_into_eq 64 _ 6 _
      (by simp only [List.length_set, List.length_cons, List.length_nil]; omega)]
    simp only [Option.some_bind, Option.bind_eq_bind]
    rw [add_into_eq 64 _ 7 _
      (by simp only [List.length_set, List.length_cons, List.length_nil]; omega)]
    rfl

/-- Every access of the final loop of `SHA512::hash` is in bounds. -/
theorem sha512_digest_checked_eq (H : List Nat) (hH : H.length = 8) :
    SHA512.digest_checked H = some (SHA512.digest H) := by
  unfold SHA512.digest_checked SHA512.digest
  apply foldlM_eq_some _ _ (fun M : List Nat => M.length = 64) _ _
    (List.length_replicate _ _)
  intro M i hi hM
  have hi' : i < 8 := List.mem_range.1 hi
  dsimp only
  rw [store_byte_eq H _ i _ _ (by omega) (by omega)]
  simp only [Option.some_bind, Option.bind_eq_bind]
  rw [store_byte_eq H _ i _ _ (by omega) (by simp only [List.length_set]; omega)]
  simp only [Option.some_bind, Option.bind_eq_bind]
  rw [store_byte_eq H _ i _ _ (by omega) (by simp only [List.length_set]; omega)]
  simp only [Option.some_bind, Option.bind_eq_bind]
  rw [store_byte_eq H _ i _ _ (by omega) (by simp only [List.length_set]; omega)]
  simp only [Option.some_bind, Option.bind_eq_bind]
  rw [store_byte_eq H _ i _ _ (by omega) (by simp only [List.length_set]; omega)]
  simp only [Option.some_bind, Option.bind_eq_bind]
  rw [store_byte_eq H _ i _ _ (by omega) (by simp only [List.length_set]; omega)]
  simp only [Option.some_bind, Option.bind_eq_bind]
  rw [store_byte_eq H _ i _ _ (by omega) (by simp only [List.length_set]; omega)]
  simp only [Option.some_bind, Option.bind_eq_bind]
  rw [store_low_byte_eq H _ i _ (by omega) (by simp only [List.length_set]; omega)]
  exact ⟨rfl, by simp only [List.length_set]; exact hM⟩

/-- For every message the bounds-checked `SHA512::padding` succeeds and gives
the padded message. -/
theorem sha512_padding_checked_eq (m : List Nat) :
    SHA512.padding_checked m = some (SHA512.padding m) := by
  rw [sha512_padding_eq_shape,
    show SHA512.padding_checked m = padding_shape_checked 128 17 m from rfl]
  exact padding_shape_checked_eq 128 17 (by decide) (by decide) (by decide) m

/-- For every message the bounds-checked `SHA512::hash` succeeds and gives the
digest: no indexed access of `padding` or `hash` is out of range. -/
theorem sha512_hash_checked_eq (m : List Nat) : SHA512.hash_checked m = some (SHA512.hash m) := by
  unfold SHA512.hash_checked SHA512.hash
  rw [sha512_padding_checked_eq]
  simp only [Option.some_bind, Option.bind_eq_bind]
  obtain ⟨hf, hfl⟩ := foldlM_eq_some_inv (SHA512.chunk (SHA512.padding m))
    (SHA512.chunk_checked (SHA512.padding m)) (fun H : List Nat => H.length = 8)
    (List.range ((SHA512.padding m).length / 128)) SHA512.H0 rfl
    (fun H i hi hH => ⟨sha512_chunk_checked_eq _ H i hH (List.mem_range.1 hi), rfl⟩)
  rw [hf]
  simp only [Option.some_bind, Option.bind_eq_bind]
  exact sha512_digest_checked_eq _ hfl

/-- C23: for every message whose padded length is below `2 ^ 32` bytes every
indexed access performed by `padding` and `hash` is in bounds in each engine.
The engines with bounds-checked accesses, which give `none` as soon as one
index is not a valid index of the vector it is applied to, succeed and return
what the engines return: this holds for `padding` (the copy, the marker and
the four length bytes), for the block word load of every chunk
`i < padded_len / B`, and for `hash` as a whole (schedule, constant table,
hash value and digest accesses included).  Moreover the number of appended
bytes `padlen` satisfies `9 <= padlen <= 72` (SHA-1, SHA-256) or
`17 <= padlen <= 144` (SHA-512); the marker index `L` and the four
length-byte indices `padded_len - 4 .. padded_len - 1` are distinct and
valid; every block read index `i * B + t * wordsize + j` (`t < 16`,
`j < wordsize`, `i < padded_len / B`) is below `padded_len`, and for SHA-1
and SHA-256 it is the value of the 32-bit `base` plus `j`; the schedule, the
constant tables and the hash value have the sizes that the loops index.
Only the equation between the 32-bit `base` and `i * 64 + t * 4` uses the
bound on the padded length. -/
theorem accesses_in_bounds (m : List Nat) (h1 : (SHA1.padding m).length < 2 ^ 32)
    (h256 : (SHA256.padding m).length < 2 ^ 32) :
    ((SHA1.padding_checked m = some (SHA1.padding m) ∧
        (∀ i, i < (SHA1.padding m).length / 64 →
          SHA1.load_words_checked (SHA1.padding m) i (List.replicate 80 0) =
            some (SHA1.load_words (SHA1.padding m) i (List.replicate 80 0))) ∧
        SHA1.hash_checked m = some (SHA1.hash m)) ∧
      ((SHA1.padding m).length =
          m.length + padlen 64 9 m.length ∧
        9 ≤ padlen 64 9 m.length ∧ padlen 64 9 m.length ≤ 72) ∧
      (m.length < (SHA1.padding m).length - 4 ∧
        (SHA1.padding m).length - 4 < (SHA1.padding m).length - 3 ∧
        (SHA1.padding m).length - 3 < (SHA1.padding m).length - 2 ∧
        (SHA1.padding m).length - 2 < (SHA1.padding m).length - 1 ∧
        (SHA1.padding m).length - 1 < (SHA1.padding m).length) ∧
      (∀ i t j, i < (SHA1.padding m).length / 64 → t < 16 → j < 4 →
        (i * 64 + t * 4) % 2 ^ 32 + j = i * 64 + t * 4 + j ∧
        i * 64 + t * 4 + j < (SHA1.padding m).length) ∧
      (∀ i, (SHA1.expand (SHA1.load_words (SHA1.padding m) i
        (List.replicate 80 0))).length = 80) ∧
      (SHA1.final_state m).length = 5 ∧ (SHA1.hash m).length = 20) ∧
    ((SHA256.padding_checked m = some (SHA256.padding m) ∧
        (∀ i, i < (SHA256.padding m).length / 64 →
          SHA256.load_words_checked (SHA256.padding m) i (List.replicate 64 0) =
            some (SHA256.load_words (SHA256.padding m) i (List.replicate 64 0))) ∧
        SHA256.hash_checked m = some (SHA256.hash m)) ∧
      ((SHA256.padding m).length =
          m.length + padlen 64 9 m.length ∧
        9 ≤ padlen 64 9 m.length ∧ padlen 64 9 m.length ≤ 72) ∧
      (m.length < (SHA256.padding m).length - 4 ∧
        (SHA256.padding m).length - 4 < (SHA256.padding m).length - 3 ∧
        (SHA256.padding m).length - 3 < (SHA256.padding m).length - 2 ∧
        (SHA256.padding m).length - 2 < (SHA256.padding m).length - 1 ∧
        (SHA256.padding m).length - 1 < (SHA256.padding m).length) ∧
      (∀ i t j, i < (SHA256.padding m).length / 64 → t < 16 → j < 4 →
        (i * 64 + t * 4) % 2 ^ 32 + j = i * 64 + t * 4 + j ∧
        i * 64 + t * 4 + j < (SHA256.padding m).length) ∧
      (∀ i, (SHA256.expand (SHA256.load_words (SHA256.padding m) i
        (List.replicate 64 0))).length = 64) ∧
      (SHA256.final_state m).length = 8 ∧ (SHA256.hash m).length = 32 ∧
      SHA256.K.length = 64) ∧
    ((SHA512.padding_checked m = some (SHA512.padding m) ∧
        (∀ i, i < (SHA512.padding m).length / 128 →
          SHA512.load_words_checked (SHA512.padding m) i (List.replicate 80 0) =
            some (SHA512.load_words (SHA512.padding m) i (List.replicate 80 0))) ∧
        SHA512.hash_checked m = some (SHA512.hash m)) ∧
      ((SHA512.padding m).length =
          m.length + padlen 128 17 m.length ∧
        17 ≤ padlen 128 17 m.length ∧ padlen 128 17 m.length ≤ 144) ∧
      (m.length < (SHA512.padding m).length - 4 ∧
        (SHA512.padding m).length - 4 < (SHA512.padding m).length - 3 ∧
        (SHA512.padding m).length - 3 < (SHA512.padding m).length - 2 ∧
        (SHA512.padding m).length - 2 < (SHA512.padding m).length - 1 ∧
        (SHA512.padding m).length - 1 < (SHA512.padding m).length) ∧
      (∀ i t j, i < (SHA512.padding m).length / 128 → t < 16 → j < 8 →
        128 * i + t * 8 + j < (SHA512.padding m).length) ∧
      (∀ i, (SHA512.expand (SHA512.load_words (SHA512.padding m) i
        (List.replicate 80 0))).length = 80) ∧
      (SHA512.final_state m).length = 8 ∧ (SHA512.hash m).length = 64 ∧
      SHA512.K.length = 80) := by
  have w64 := padding_shape_writes 64 9 (by decide) (by decide) (by decide) m
  have w128 := padding_shape_writes 128 17 (by decide) (by decide) (by decide) m
  obtain ⟨a1, a2, a3, a4, a5, a6, a7, a8⟩ :
      _ := show _ from (sha1_padding_eq_shape m).symm ▸ w64
  obtain ⟨b1, b2, b3, b4, b5, b6, b7, b8⟩ :
      _ := show _ from (sha256_padding_eq_shape m).symm ▸ w64
  obtain ⟨c1, c2, c3, c4, c5, c6, c7, c8⟩ :
      _ := show _ from (sha512_padding_eq_shape m).symm ▸ w128
  refine ⟨⟨⟨sha1_padding_checked_eq m,
        fun i hi => (sha1_load_words_checked_eq _ _ i (List.length_replicate _ _) hi).1,
        sha1_hash_checked_eq m⟩,
      ⟨a1, a2, a3⟩, ⟨a4, a5, a6, a7, a8⟩, fun i t j hi ht hj => ?_,
      fun i => sha1_schedule_length _ i, (sha1_final_state_is_state m).1,
      sha1_digest_length _⟩,
    ⟨⟨sha256_padding_checked_eq m,
        fun i hi => (sha256_load_words_checked_eq _ _ i (List.length_replicate _ _) hi).1,
        sha256_hash_checked_eq m⟩,
      ⟨b1, b2, b3⟩, ⟨b4, b5, b6, b7, b8⟩, fun i t j hi ht hj => ?_,
      fun i => sha256_schedule_length _ i, (sha256_final_state_is_state m).1,
      sha256_digest_length _, rfl⟩,
    ⟨⟨sha512_padding_checked_eq m,
        fun i hi => (sha512_load_words_checked_eq _ _ i (List.length_replicate _ _) hi).1,
        sha512_hash_checked_eq m⟩,
      ⟨c1, c2, c3⟩, ⟨c4, c5, c6, c7, c8⟩, fun i t j hi ht hj => ?_,
      fun i => sha512_schedule_length _ i, (sha512_final_state_is_state m).1,
      sha512_digest_length _, rfl⟩⟩
  · generalize (SHA1.padding m).length = n at h1 hi
    omega
  · generalize (SHA256.padding m).length = n at h256 hi
    omega
  · generalize (SHA512.padding m).length = n at hi
    omega

/-- Witness of `accesses_in_bounds`: the message "abc". -/
theorem accesses_in_bounds_witness :
    (SHA1.padding message_abc).length < 2 ^ 32 ∧
    (SHA256.padding message_abc).length < 2 ^ 32 ∧
    ((SHA1.padding_checked message_abc = some (SHA1.padding message_abc) ∧
        (∀ i, i < (SHA1.padding message_abc).length / 64 →
          SHA1.load_words_checked (SHA1.padding message_abc) i (List.replicate 80 0) =
            some (SHA1.load_words (SHA1.padding message_abc) i (List.replicate 80 0))) ∧
        SHA1.hash_checked message_abc = some (SHA1.hash message_abc)) ∧
      ((SHA1.padding message_abc).length =
          message_abc.length + padlen 64 9 message_abc.length ∧
        9 ≤ padlen 64 9 message_abc.length ∧ padlen 64 9 message_abc.length ≤ 72) ∧
      (message_abc.length < (SHA1.padding message_abc).length - 4 ∧
        (SHA1.padding message_abc).length - 4 < (SHA1.padding message_abc).length - 3 ∧
        (SHA1.padding message_abc).length - 3 < (SHA1.padding message_abc).length - 2 ∧
        (SHA1.padding message_abc).length - 2 < (SHA1.padding message_abc).length - 1 ∧
        (SHA1.padding message_abc).length - 1 < (SHA1.padding message_abc).length) ∧
      (∀ i t j, i < (SHA1.padding message_abc).length / 64 → t < 16 → j < 4 →
        (i * 64 + t * 4) % 2 ^ 32 + j = i * 64 + t * 4 + j ∧
        i * 64 + t * 4 + j < (SHA1.padding message_abc).length) ∧
      (∀ i, (SHA1.expand (SHA1.load_words (SHA1.padding message_abc) i
        (List.replicate 80 0))).length = 80) ∧
      (SHA1.final_state message_abc).length = 5 ∧ (SHA1.hash message_abc).length = 20) ∧
    ((SHA256.padding_checked message_abc = some (SHA256.padding message_abc) ∧
        (∀ i, i < (SHA256.padding message_abc).length / 64 →
          SHA256.load_words_checked (SHA256.padding message_abc) i (List.replicate 64 0) =
            some (SHA256.load_words (SHA256.padding message_abc) i (List.replicate 64 0))) ∧
        SHA256.hash_checked message_abc = some (SHA256.hash message_abc)) ∧
      ((SHA256.padding message_abc).length =
          message_abc.length + padlen 64 9 message_abc.length ∧
        9 ≤ padlen 64 9 message_abc.length ∧ padlen 64 9 message_abc.length ≤ 72) ∧
      (message_abc.length < (SHA256.padding message_abc).length - 4 ∧
        (SHA256.padding message_abc).length - 4 < (SHA256.padding message_abc).length - 3 ∧
        (SHA256.padding message_abc).length - 3 < (SHA256.padding message_abc).length - 2 ∧
        (SHA256.padding message_abc).length - 2 < (SHA256.padding message_abc).length - 1 ∧
        (SHA256.padding message_abc).length - 1 < (SHA256.padding message_abc).length) ∧
      (∀ i t j, i < (SHA256.padding message_abc).length / 64 → t < 16 → j < 4 →
        (i * 64 + t * 4) % 2 ^ 32 + j = i * 64 + t * 4 + j ∧
        i * 64 + t * 4 + j < (SHA256.padding message_abc).length) ∧
      (∀ i, (SHA256.expand (SHA256.load_words (SHA256.padding message_abc) i
        (List.replicate 64 0))).length = 64) ∧
      (SHA256.final_state message_abc).length = 8 ∧ (SHA256.hash message_abc).length = 32 ∧
      SHA256.K.length = 64) ∧
    ((SHA512.padding_checked message_abc = some (SHA512.padding message_abc) ∧
        (∀ i, i < (SHA512.padding message_abc).length / 128 →
          SHA512.load_words_checked (SHA512.padding message_abc) i (List.replicate 80 0) =
            some (SHA512.load_words (SHA512.padding message_abc) i (List.replicate 80 0))) ∧
        SHA512.hash_checked message_abc = some (SHA512.hash message_abc)) ∧
      ((SHA512.padding message_abc).length =
          message_abc.length + padlen 128 17 message_abc.length ∧
        17 ≤ padlen 128 17 message_abc.length ∧ padlen 128 17 message_abc.length ≤ 144) ∧
      (message_abc.length < (SHA512.padding message_abc).length - 4 ∧
        (SHA512.padding message_abc).length - 4 < (SHA512.padding message_abc).length - 3 ∧
        (SHA512.padding message_abc).length - 3 < (SHA512.padding message_abc).length - 2 ∧
        (SHA512.padding message_abc).length - 2 < (SHA512.padding message_abc).length - 1 ∧
        (SHA512.padding message_abc).length - 1 < (SHA512.padding message_abc).length) ∧
      (∀ i t j, i < (SHA512.padding message_abc).length / 128 → t < 16 → j < 8 →
        128 * i + t * 8 + j < (SHA512.padding message_abc).length) ∧
      (∀ i, (SHA512.expand (SHA512.load_words (SHA512.padding message_abc) i
        (List.replicate 80 0))).length = 80) ∧
      (SHA512.final_state message_abc).length = 8 ∧ (SHA512.hash message_abc).length = 64 ∧
      SHA512.K.length = 80) :=
  ⟨by decide, by decide, accesses_in_bounds message_abc (by decide) (by decide)⟩

/-! ## Constant tables -/

/-- C24: the SHA-256 constant tables are the high halves of the SHA-512
ones: `SHA256::K[t] = SHA512::K[t] >> 32` for every `t` in `0..63`, the
SHA-256 initial hash word `H[i]` is the SHA-512 initial hash word `H[i] >> 32`
for every `i` in `0..7`, the SHA-256 table `K` has exactly 64 entries and the
SHA-512 table `K` exactly 80. -/
theorem sha256_tables_high_halves :
    (∀ t, t < 64 → SHA256.K[t]? = SHA512.K[t]?.map fun k => k >>> 32) ∧
    (∀ i, i < 8 → SHA256.H0[i]? = SHA512.H0[i]?.map fun h => h >>> 32) ∧
    SHA256.K = (SHA512.K.take 64).map (fun k => k >>> 32) ∧
    SHA256.H0 = SHA512.H0.map (fun h => h >>> 32) ∧
    SHA256.K.length = 64 ∧ SHA512.K.length = 80 ∧
    SHA256.H0.length = 8 ∧ SHA512.H0.length = 8 := by
  decide!

/-- Trial division decides primality. -/
theorem is_prime_iff (n : Nat) : is_prime n = true ↔ Nat.Prime n := by
  unfold is_prime
  rw [Nat.prime_def_lt]
  simp only [Bool.and_eq_true, decide_eq_true_eq, List.all_eq_true, List.mem_range,
    Bool.or_eq_true, ne_eq]
  constructor
  · rintro ⟨h2, h⟩
    refine ⟨h2, fun d hd hdvd => ?_⟩
    rcases h d hd with h1 | h1
    · have hd0 : d ≠ 0 := by
        rintro rfl
        simp at hdvd
        omega
      omega
    · exact absurd (Nat.mod_eq_zero_of_dvd hdvd) h1
  · rintro ⟨h2, h⟩
    refine ⟨h2, fun d hd => ?_⟩
    by_cases h1 : d < 2
    · exact Or.inl h1
    · right
      intro hmod
      have := h d hd (Nat.dvd_of_mod_eq_zero hmod)
      omega

/-- The list `primes_below_312` holds exactly the primes below 312, in
increasing order, and has 64 entries. -/
theorem primes_below_312_spec :
    primes_below_312.length = 64 ∧
    (∀ p, p ∈ primes_below_312 ↔ Nat.Prime p ∧ p < 312) ∧
    List.Pairwise (fun a b => a < b) primes_below_312 := by
  refine ⟨by decide!, fun p => ?_, ?_⟩
  · unfold primes_below_312
    rw [List.mem_filter, List.mem_range, is_prime_iff]
    exact And.comm
  · unfold primes_below_312
    exact List.Pairwise.filter _ (List.pairwise_lt_range 312)

/-- The value of `icbrt`. -/
theorem icbrt_spec (p : Nat) (hp : p < 312) : icbrt p ^ 3 ≤ p ∧ p < (icbrt p + 1) ^ 3 := by
  revert p
  decide!

/-- Entry `t` of `primes_below_312` is the `(t + 1)`-th prime. -/
theorem nth_prime_eq (t : Nat) (ht : t < 64) :
    Nat.nth Nat.Prime t = primes_below_312.getD t 0 := by
  have hc : (List.range (primes_below_312.getD t 0)).countP is_prime = t :=
    (by decide! : ∀ t, t < 64 →
      (List.range (primes_below_312.getD t 0)).countP is_prime = t) t ht
  have hp : Nat.Prime (primes_below_312.getD t 0) :=
    (is_prime_iff _).1
      ((by decide! : ∀ t, t < 64 → is_prime (primes_below_312.getD t 0) = true) t ht)
  have hcount : Nat.count Nat.Prime (primes_below_312.getD t 0) = t := by
    rw [Nat.count]
    exact (List.countP_congr fun x _ => by simp [is_prime_iff]).trans hc
  have h := Nat.nth_count hp
  rw [hcount] at h
  exact h

/-- C25: for every `t` in `0..63`, `SHA256::K[t]` is the first 32 bits of
the fractional part of the cube root of the `(t + 1)`-th prime `p`: with
`n = floor(cbrt(p)) * 2 ^ 32 + K[t]`, `n ^ 3 <= p * 2 ^ 96 < (n + 1) ^ 3`.
Here `p` is entry `t` of `primes_below_312`, which is `Nat.nth Nat.Prime t`,
and `floor(cbrt(p))` is `icbrt p`. -/
theorem sha256_K_cube_roots (t : Nat) (ht : t < 64) :
    Nat.nth Nat.Prime t = primes_below_312.getD t 0 ∧
    icbrt (primes_below_312.getD t 0) ^ 3 ≤ primes_below_312.getD t 0 ∧
    primes_below_312.getD t 0 < (icbrt (primes_below_312.getD t 0) + 1) ^ 3 ∧
    SHA256.K.getD t 0 < 2 ^ 32 ∧
    (icbrt (primes_below_312.getD t 0) * 2 ^ 32 + SHA256.K.getD t 0) ^ 3 ≤
      primes_below_312.getD t 0 * 2 ^ 96 ∧
    primes_below_312.getD t 0 * 2 ^ 96 <
      (icbrt (primes_below_312.getD t 0) * 2 ^ 32 + SHA256.K.getD t 0 + 1) ^ 3 := by
  refine ⟨nth_prime_eq t ht, ?_⟩
  revert t
  decide!

/-- Witness of `sha256_K_cube_roots`: `t = 0`, the prime 2. -/
theorem sha256_K_cube_roots_witness :
    0 < 64 ∧ primes_below_312.getD 0 0 = 2 ∧ icbrt 2 = 1 ∧ SHA256.K.getD 0 0 = 0x428A2F98 ∧
    Nat.nth Nat.Prime 0 = primes_below_312.getD 0 0 ∧
    (icbrt (primes_below_312.getD 0 0) * 2 ^ 32 + SHA256.K.getD 0 0) ^ 3 ≤
      primes_below_312.getD 0 0 * 2 ^ 96 ∧
    primes_below_312.getD 0 0 * 2 ^ 96 <
      (icbrt (primes_below_312.getD 0 0) * 2 ^ 32 + SHA256.K.getD 0 0 + 1) ^ 3 :=
  ⟨by decide, by decide!, by decide!, by decide!, (sha256_K_cube_roots 0 (by decide)).1,
    (sha256_K_cube_roots 0 (by decide)).2.2.2.2⟩

/-! ## Known-answer tests -/

/-- C1: `SHA256::hash` applied to the 3-byte ASCII string "abc" returns
exactly the 32 bytes
`ba7816bf8f01cfea414140de5dae2223b00361a396177a9cb410ff61f20015ad`.
The input goes through the `std::string` overload, as in the test case. -/
theorem sha256_abc :
    string_bytes (ascii "abc") = [0x61, 0x62, 0x63] ∧
    SHA256.hash_string (ascii "abc") =
    [0xba, 0x78, 0x16, 0xbf, 0x8f, 0x01, 0xcf, 0xea, 0x41, 0x41, 0x40, 0xde,
     0x5d, 0xae, 0x22, 0x23, 0xb0, 0x03, 0x61, 0xa3, 0x96, 0x17, 0x7a, 0x9c,
     0xb4, 0x10, 0xff, 0x61, 0xf2, 0x00, 0x15, 0xad] := by
  decide!

/-- C2: `SHA1::hash` applied to the 3-byte ASCII string "abc" returns
exactly the 20 bytes
`a9993e364706816aba3e25717850c26c9cd0d89d`.
The input goes through the `std::string` overload, as in the test case. -/
theorem sha1_abc :
    string_bytes (ascii "abc") = [0x61, 0x62, 0x63] ∧
    SHA1.hash_string (ascii "abc") =
    [0xa9, 0x99, 0x3e, 0x36, 0x47, 0x06, 0x81, 0x6a, 0xba, 0x3e, 0x25, 0x71,
     0x78, 0x50, 0xc2, 0x6c, 0x9c, 0xd0, 0xd8, 0x9d] := by
  decide!

/-- C3: `SHA512::hash` applied to the 3-byte ASCII string "abc" returns
exactly the 64 bytes
`ddaf35a193617abacc417349ae20413112e6fa4e89a97ea20a9eeee64b55d39a`
`2192992a274fc1a836ba3c23a3feebbd454d4423643ce80e2a9ac94fa54ca49f`.
The input goes through the `std::string` overload, as in the test case. -/
theorem sha512_abc :
    string_bytes (ascii "abc") = [0x61, 0x62, 0x63] ∧
    SHA512.hash_string (ascii "abc") =
    [0xdd, 0xaf, 0x35, 0xa1, 0x93, 0x61, 0x7a, 0xba, 0xcc, 0x41, 0x73, 0x49,
     0xae, 0x20, 0x41, 0x31, 0x12, 0xe6, 0xfa, 0x4e, 0x89, 0xa9, 0x7e, 0xa2,
     0x0a, 0x9e, 0xee, 0xe6, 0x4b, 0x55, 0xd3, 0x9a, 0x21, 0x92, 0x99, 0x2a,
     0x27, 0x4f, 0xc1, 0xa8, 0x36, 0xba, 0x3c, 0x23, 0xa3, 0xfe, 0xeb, 0xbd,
     0x45, 0x4d, 0x44, 0x23, 0x64, 0x3c, 0xe8, 0x0e, 0x2a, 0x9a, 0xc9, 0x4f,
     0xa5, 0x4c, 0xa4, 0x9f] := by
  decide!

/-- C4: `SHA256::hash` applied to the 56-byte ASCII test string
`message_56`, whose padded form has two 64-byte blocks, returns exactly the 32 bytes
`248d6a61d20638b8e5c026930c3e6039a33ce45964ff2167f6ecedd419db06c1`.
The input goes through the `std::string` overload, as in the test case. -/
theorem sha256_two_blocks :
    (ascii message_56).length = 56 ∧
    (SHA256.padding (string_bytes (ascii message_56))).length = 2 * 64 ∧
    SHA256.hash_string (ascii message_56) =
    [0x24, 0x8d, 0x6a, 0x61, 0xd2, 0x06, 0x38, 0xb8, 0xe5, 0xc0, 0x26, 0x93,
     0x0c, 0x3e, 0x60, 0x39, 0xa3, 0x3c, 0xe4, 0x59, 0x64, 0xff, 0x21, 0x67,
     0xf6, 0xec, 0xed, 0xd4, 0x19, 0xdb, 0x06, 0xc1] := by
  decide!

/-- C5: `SHA1::hash` applied to the 56-byte ASCII test string
`message_56`, whose padded form has two 64-byte blocks, returns exactly the 20 bytes
`84983e441c3bd26ebaae4aa1f95129e5e54670f1`.
The input goes through the `std::string` overload, as in the test case. -/
theorem sha1_two_blocks :
    (ascii message_56).length = 56 ∧
    (SHA1.padding (string_bytes (ascii message_56))).length = 2 * 64 ∧
    SHA1.hash_string (ascii message_56) =
    [0x84, 0x98, 0x3e, 0x44, 0x1c, 0x3b, 0xd2, 0x6e, 0xba, 0xae, 0x4a, 0xa1,
     0xf9, 0x51, 0x29, 0xe5, 0xe5, 0x46, 0x70, 0xf1] := by
  decide!

/-- C6: `SHA512::hash` applied to the 112-byte ASCII test
string `message_112`, whose padded form has two 128-byte blocks, returns exactly the 64 bytes
`8e959b75dae313da8cf4f72814fc143f8f7779c6eb9f7fa17299aeadb6889018`
`501d289e4900f7e4331b99dec4b5433ac7d329eeb6dd26545e96e55b874be909`.
The input goes through the `std::string` overload, as in the test case. -/
theorem sha512_two_blocks :
    (ascii message_112).length = 112 ∧
    (SHA512.padding (string_bytes (ascii message_112))).length = 2 * 128 ∧
    SHA512.hash_string (ascii message_112) =
    [0x8e, 0x95, 0x9b, 0x75, 0xda, 0xe3, 0x13, 0xda, 0x8c, 0xf4, 0xf7, 0x28,
     0x14, 0xfc, 0x14, 0x3f, 0x8f, 0x77, 0x79, 0xc6, 0xeb, 0x9f, 0x7f, 0xa1,
     0x72, 0x99, 0xae, 0xad, 0xb6, 0x88, 0x90, 0x18, 0x50, 0x1d, 0x28, 0x9e,
     0x49, 0x00, 0xf7, 0xe4, 0x33, 0x1b, 0x99, 0xde, 0xc4, 0xb5, 0x43, 0x3a,
     0xc7, 0xd3, 0x29, 0xee, 0xb6, 0xdd, 0x26, 0x54, 0x5e, 0x96, 0xe5, 0x5b,
     0x87, 0x4b, 0xe9, 0x09] := by
  decide!
